import Mathlib

/-!
# Termido: the terminal to-do list of `script.js`

A shallow embedding of the task store, the persistence adapter and the command
dispatcher of `src/script.js`, followed by the properties proved about them.

Modelling conventions
* A JavaScript string is a list of characters (`Str`).
* A finite JavaScript number is a rational that the rounding to an IEEE double
  leaves alone (`Num`); additions and conversions from text round to nearest,
  ties to even (`roundDouble`, `toDouble`).  `NaN` and the infinities appear
  only as results of `Number(arg)` (`JsNumber`); the two zeros are one value.
* The module variables `tasks` and `nextId`, the `localStorage` slot and the
  lines appended to the output element form one explicit `State`.
* `tasks` has the declared type `Task[]` of the source, and `nextId` is a
  finite number; `load` reports a payload that would leave them otherwise as
  outside the model.
-/

namespace Termido

/-! ## Strings -/

/-- A JavaScript string. -/
abbrev Str := List Char

/-- The characters matched by the regular expression class `\s`, which are also
the characters removed by `String.prototype.trim` (WhiteSpace and
LineTerminator of ECMAScript). -/
def isWhiteSpace (c : Char) : Bool :=
  let n := c.toNat
  n == 9 || n == 10 || n == 11 || n == 12 || n == 13 || n == 32 || n == 160 ||
  n == 5760 || (8192 ≤ n && n ≤ 8202) || n == 8232 || n == 8233 || n == 8239 ||
  n == 8287 || n == 12288 || n == 65279

/-- The regular expression class `\S`. -/
def isNonSpace (c : Char) : Bool := !isWhiteSpace c

/-- `s.trimStart()`. -/
def trimStart (s : Str) : Str := s.dropWhile isWhiteSpace

/-- `s.trimEnd()`. -/
def trimEnd (s : Str) : Str := (s.reverse.dropWhile isWhiteSpace).reverse

/-- `s.trim()`. -/
def trim (s : Str) : Str := trimEnd (trimStart s)

/-- Whether the string starts with a white-space character. -/
def startsWithSpace : Str → Bool
  | [] => false
  | d :: _ => isWhiteSpace d

/-- One more character at the front of the first piece. -/
def consFirst (c : Char) : List Str → List Str
  | [] => [[c]]
  | t :: ts => (c :: t) :: ts

/-- `s.split(/\s+/)`: the pieces between maximal runs of white space; a run at
either end of the string yields an empty piece there, and the empty string
yields one empty piece.  A white-space character followed by another one
continues the separator; the last one of a run closes the piece before it. -/
def splitWs : Str → List Str
  | [] => [[]]
  | c :: cs =>
    if isWhiteSpace c then
      if startsWithSpace cs then splitWs cs else [] :: splitWs cs
    else consFirst c (splitWs cs)

/-- Whether `pat` occurs at the start of `s`. -/
def startsWith : Str → Str → Bool
  | _, [] => true
  | [], _ :: _ => false
  | c :: cs, p :: ps => c == p && startsWith cs ps

/-- The search loop of `indexOf`, `i` being the index of the head of `s`. -/
def indexOfFrom : Str → Str → Nat → Int
  | [], pat, i => if pat = [] then (i : Int) else -1
  | c :: cs, pat, i => if startsWith (c :: cs) pat then (i : Int) else indexOfFrom cs pat (i + 1)

/-- `s.indexOf(pat)`: the index of the first occurrence, `-1` when there is none. -/
def indexOf (s pat : Str) : Int := indexOfFrom s pat 0

/-- `s.slice(start)`: a negative start counts from the end of the string. -/
def slice (s : Str) (start : Int) : Str :=
  let len : Int := s.length
  let k : Int := if start < 0 then max (len + start) 0 else min start len
  s.drop k.toNat

/-- `s.toLowerCase()`.  Only the letters `A` to `Z` are mapped.  The dispatcher
compares the result with words made of the letters of
`help add list ls done undone open edit remove rm delete clear` and `?`; no
character outside `A` to `Z` lowercases to one of these letters, so the
comparison is the one the source makes. -/
def toLowerCase (s : Str) : Str := s.map Char.toLower

/-- `s.replace(/^\S+\s+/, '')`: when the string starts with a non-empty run of
non-space characters followed by at least one white-space character, that run
and the whole white-space run after it are removed; otherwise the string is
returned as it is. -/
def stripFirstToken (s : Str) : Str :=
  let tok := s.takeWhile isNonSpace
  let after := s.dropWhile isNonSpace
  if tok ≠ [] ∧ (after.takeWhile isWhiteSpace) ≠ [] then after.dropWhile isWhiteSpace else s

/-- One pass of `replace(/c/g, by)` for a single character `c`. -/
def replaceChar (c : Char) (sub : Str) (s : Str) : Str :=
  s.flatMap (fun d => if d = c then sub else [d])

/-- `escapeHtml(str)`: the three replacements of the source, in its order. -/
def escapeHtml (str : Str) : Str :=
  replaceChar '>' "&gt;".toList (replaceChar '<' "&lt;".toList (replaceChar '&' "&amp;".toList str))

/-! ## Numbers -/

/-- The search loop of `natLog2`; `fuel` bounds the number of halvings. -/
def log2Fuel : Nat → Nat → Nat
  | 0, _ => 0
  | fuel + 1, n => if n < 2 then 0 else log2Fuel fuel (n / 2) + 1

/-- The position of the leading binary digit of `n ≥ 1`. -/
def natLog2 (n : Nat) : Nat := log2Fuel n n

/-- The power `2^p` of an integer exponent. -/
def pow2 (p : Int) : Rat :=
  if 0 ≤ p then ((2 ^ p.toNat : Nat) : Rat) else 1 / ((2 ^ (-p).toNat : Nat) : Rat)

/-- The power `10^p` of an integer exponent. -/
def pow10 (p : Int) : Rat :=
  if 0 ≤ p then ((10 ^ p.toNat : Nat) : Rat) else 1 / ((10 ^ (-p).toNat : Nat) : Rat)

/-- The magnitude of a rational. -/
def magnitude (q : Rat) : Rat := if q < 0 then -q else q

/-- The binary exponent of a positive rational `a`: the `e` with
`2^e ≤ a < 2^(e+1)`. -/
def floorLog2 (a : Rat) : Int :=
  let k : Int := (natLog2 a.num.natAbs : Int) - (natLog2 a.den : Int)
  if pow2 k ≤ a then k else k - 1

/-- The integer nearest to `t ≥ 0`, the even one of the two when `t` is halfway. -/
def roundHalfEven (t : Rat) : Nat :=
  let f := (Rat.floor t).toNat
  let r := t - (f : Rat)
  if r < 1 / 2 then f else if 1 / 2 < r then f + 1 else if f % 2 = 0 then f else f + 1

/-- Rounding to the format of an IEEE double without its upper limit: 53
significant bits, the exponent of the last bit not below `-1074`, round to
nearest, ties to even. -/
def roundDouble (q : Rat) : Rat :=
  if q = 0 then 0 else
    let a := magnitude q
    let p : Int := max (floorLog2 a) (-1022) - 52
    let m := roundHalfEven (a / pow2 p)
    let r : Rat := (m : Rat) * pow2 p
    if q < 0 then -r else r

/-- The finite values of the Number type: the rationals that the rounding
leaves alone and that lie below `2^1024` in magnitude. -/
def IsDouble (q : Rat) : Prop := roundDouble q = q ∧ magnitude q < ((2 ^ 1024 : Nat) : Rat)

instance (q : Rat) : Decidable (IsDouble q) := by unfold IsDouble; infer_instance

/-- A finite JavaScript number. -/
structure Num where
  val : Rat
  isDouble : IsDouble val

instance : DecidableEq Num := fun a b =>
  if h : a.val = b.val then isTrue (by cases a; cases b; cases h; rfl)
  else isFalse (fun e => h (congrArg Num.val e))

instance : Coe Num Rat := ⟨Num.val⟩

instance : LT Num := ⟨fun a b => a.val < b.val⟩

instance : LE Num := ⟨fun a b => a.val ≤ b.val⟩

instance (a b : Num) : Decidable (a < b) := inferInstanceAs (Decidable (a.val < b.val))

instance (a b : Num) : Decidable (a ≤ b) := inferInstanceAs (Decidable (a.val ≤ b.val))

/-- The result of `Number(arg)`. -/
inductive JsNumber where
  | nan
  | inf (negative : Bool)
  | fin (x : Num)
  deriving DecidableEq

/-- The Number for a real value: the nearest double, or an infinity when the
rounded value is not below `2^1024` in magnitude. -/
def toDouble (q : Rat) : JsNumber :=
  if h : IsDouble (roundDouble q) then JsNumber.fin ⟨roundDouble q, h⟩
  else JsNumber.inf (decide (q < 0))

/-- The number zero. -/
def Num.zero : Num := ⟨0, by decide!⟩

/-- The number a numeric literal of the source denotes.  The literals used
here are small integers, which are doubles; zero stands in for a literal too
large to be finite. -/
def Num.ofNat (n : Nat) : Num :=
  match toDouble (n : Rat) with
  | .fin x => x
  | _ => Num.zero

instance (n : Nat) : OfNat Num n := ⟨Num.ofNat n⟩

/-- The value of `x + 1`, as in `nextId++`: the sum rounded to a double.  The
sum of a finite double and one is finite (`toDouble_succ`), so the second case
does not occur. -/
def Num.succ (x : Num) : Num :=
  match toDouble (x.val + 1) with
  | .fin y => y
  | _ => x

/-- `Math.max(a, b)` for finite numbers. -/
def Num.max (a b : Num) : Num := if a.val < b.val then b else a

/-- The decimal digit character of `d < 10`. -/
def digitChar (d : Nat) : Char := Char.ofNat (48 + d)

/-- The decimal digits of `n`, most significant first; `fuel` bounds the number
of digits. -/
def decDigits : Nat → Nat → Str
  | 0, _ => []
  | fuel + 1, n => if n < 10 then [digitChar n] else decDigits fuel (n / 10) ++ [digitChar (n % 10)]

/-- The decimal numeral of a natural number. -/
def natToStr (n : Nat) : Str := decDigits (n + 1) n

/-- The search loop of `natLog10`. -/
def log10Fuel : Nat → Nat → Nat
  | 0, _ => 0
  | fuel + 1, n => if n < 10 then 0 else log10Fuel fuel (n / 10) + 1

/-- The number of decimal digits of `n ≥ 1`, less one. -/
def natLog10 (n : Nat) : Nat := log10Fuel n n

/-- The decimal exponent of a positive rational `a`: the `e` with
`10^e ≤ a < 10^(e+1)`. -/
def floorLog10 (a : Rat) : Int :=
  let k : Int := (natLog10 a.num.natAbs : Int) - (natLog10 a.den : Int)
  if pow10 k ≤ a then k else k - 1

/-- The `k`-digit integer `s` with `s * 10^(n - k)` rounding to the double
`v`, if there is one; of two such integers the one nearer to `v` (the even one
when they are equally near).  A candidate `10^k` is written `10^(k-1)` with
`n` one more. -/
def digitsAt (v : Rat) (n : Int) (k : Nat) : Option (Nat × Int) :=
  let scale : Rat := pow10 (n - (k : Int))
  let lo : Nat := (Rat.floor (v / scale)).toNat
  let hi : Nat := lo + 1
  let okLo : Bool := decide (roundDouble ((lo : Rat) * scale) = v)
  let okHi : Bool := decide (roundDouble ((hi : Rat) * scale) = v)
  let pick : Option Nat :=
    if okLo && okHi then
      if v - (lo : Rat) * scale < (hi : Rat) * scale - v then some lo
      else if (hi : Rat) * scale - v < v - (lo : Rat) * scale then some hi
      else if lo % 2 = 0 then some lo else some hi
    else if okLo then some lo
    else if okHi then some hi
    else none
  pick.map (fun s => if s = 10 ^ k then (10 ^ (k - 1), n + 1) else (s, n))

/-- The search for the least number of digits, from `k` digits on. -/
def shortestFrom (v : Rat) (n : Int) : Nat → Nat → Nat × Int
  | 0, _ => (0, 0)
  | fuel + 1, k =>
    match digitsAt v n k with
    | some r => r
    | none => shortestFrom v n fuel (k + 1)

/-- The integers `s` and `n` of Number::toString for a positive double `v`:
`s` has the least number `k` of digits such that `s * 10^(n - k)` rounds to
`v`.  Seventeen digits always suffice. -/
def shortestDigits (v : Rat) : Nat × Int :=
  shortestFrom v (floorLog10 v + 1) 17 1

/-- The text of Number::toString for the digits `ds` of `s` and the exponent
`n`: positional for `n` from `-5` to `21`, with an exponent otherwise. -/
def formatDigits (ds : Str) (n : Int) : Str :=
  let k : Int := ds.length
  if k ≤ n ∧ n ≤ 21 then ds ++ List.replicate (n - k).toNat '0'
  else if 0 < n ∧ n ≤ 21 then ds.take n.toNat ++ ['.'] ++ ds.drop n.toNat
  else if -6 < n ∧ n ≤ 0 then ['0', '.'] ++ List.replicate (-n).toNat '0' ++ ds
  else
    let e : Str := (if n < 0 then ['-'] else ['+']) ++ natToStr (n - 1).natAbs
    match ds with
    | [] => []
    | [d] => [d, 'e'] ++ e
    | d :: rest => d :: '.' :: rest ++ ['e'] ++ e

/-- The string a template literal substitutes for a finite number
(Number::toString).  An integer of magnitude up to `2^53` is its decimal
numeral, which is what the digit search gives for it; every other value goes
through the search. -/
def numToString (x : Num) : Str :=
  if x.val = 0 then ['0']
  else
    let sign : Str := if x.val < 0 then ['-'] else []
    if x.val.den = 1 ∧ magnitude x.val ≤ 9007199254740992 then sign ++ natToStr x.val.num.natAbs
    else
      let r := shortestDigits (magnitude x.val)
      sign ++ formatDigits (natToStr r.1) r.2

/-- The value of a decimal digit character. -/
def digitVal (c : Char) : Nat := c.toNat - 48

/-- The value of a string of decimal digits. -/
def digitsVal (ds : Str) : Nat := ds.foldl (fun a c => 10 * a + digitVal c) 0

/-- The value of a digit of base up to sixteen, when the character is one. -/
def hexVal (c : Char) : Option Nat :=
  if c.isDigit then some (c.toNat - 48)
  else if 'a' ≤ c ∧ c ≤ 'f' then some (c.toNat - 87)
  else if 'A' ≤ c ∧ c ≤ 'F' then some (c.toNat - 55)
  else none

/-- The value of a non-empty string of digits of the given base. -/
def radixVal (base : Nat) (ds : Str) : Option Nat :=
  if ds = [] then none else
    ds.foldl (fun acc c =>
      match acc, hexVal c with
      | some a, some d => if d < base then some (base * a + d) else none
      | _, _ => none) (some 0)

/-- NonDecimalIntegerLiteral: `0x`, `0o` or `0b` (either case) and digits. -/
def nonDecimalLiteral : Str → Option Nat
  | '0' :: p :: ds =>
    if p = 'x' ∨ p = 'X' then radixVal 16 ds
    else if p = 'o' ∨ p = 'O' then radixVal 8 ds
    else if p = 'b' ∨ p = 'B' then radixVal 2 ds
    else none
  | _ => none

/-- The SignedInteger of an ExponentPart, which must reach the end of the string. -/
def exponentValue : Str → Option Int
  | '+' :: ds => if ds ≠ [] ∧ ds.all Char.isDigit then some (digitsVal ds : Int) else none
  | '-' :: ds => if ds ≠ [] ∧ ds.all Char.isDigit then some (-(digitsVal ds : Int)) else none
  | ds => if ds ≠ [] ∧ ds.all Char.isDigit then some (digitsVal ds : Int) else none

/-- StrUnsignedDecimalLiteral other than `Infinity`: digits, an optional point
and digits (one of the two digit strings may be empty, not both), an optional
exponent. -/
def unsignedDecimal (s : Str) : Option Rat :=
  let ip := s.takeWhile Char.isDigit
  let r1 := s.dropWhile Char.isDigit
  let fp := match r1 with
    | '.' :: r => r.takeWhile Char.isDigit
    | _ => []
  let r2 := match r1 with
    | '.' :: r => r.dropWhile Char.isDigit
    | _ => r1
  if ip = [] ∧ fp = [] then none else
    let mant : Rat := (digitsVal (ip ++ fp) : Rat) / pow10 fp.length
    match r2 with
    | [] => some mant
    | c :: r =>
      if c = 'e' ∨ c = 'E' then (exponentValue r).map (fun e => mant * pow10 e) else none

/-- The mathematical value of a numeric string, before it is rounded. -/
inductive MathValue where
  | notNumeric
  | infinite
  | finite (q : Rat)

/-- StrUnsignedDecimalLiteral. -/
def unsignedLiteral (s : Str) : MathValue :=
  if s = "Infinity".toList then MathValue.infinite
  else match unsignedDecimal s with
    | some q => MathValue.finite q
    | none => MathValue.notNumeric

/-- The Number for a mathematical value with its sign: the value is rounded
to a double. -/
def MathValue.toNumber (negative : Bool) : MathValue → JsNumber
  | .notNumeric => JsNumber.nan
  | .infinite => JsNumber.inf negative
  | .finite q => toDouble (if negative then -q else q)

/-- StringToNumber of ECMAScript: the empty or blank string is `0`, a numeric
literal is its value rounded to a double, anything else is `NaN`. -/
def stringToNumber (s : Str) : JsNumber :=
  let t := trim s
  if t = [] then JsNumber.fin 0
  else match nonDecimalLiteral t with
    | some n => toDouble (n : Rat)
    | none =>
      match t with
      | '+' :: r => (unsignedLiteral r).toNumber false
      | '-' :: r => (unsignedLiteral r).toNumber true
      | _ => (unsignedLiteral t).toNumber false

/-- `Number(arg)` for an argument that is a string or `undefined` (`none`). -/
def Number (arg : Option Str) : JsNumber :=
  match arg with
  | none => JsNumber.nan
  | some s => stringToNumber s

/-- `Number.isInteger(id)`. -/
def JsNumber.isInteger : JsNumber → Bool
  | .fin x => x.val.den == 1
  | _ => false

/-! ## Persisted data -/

/-- A value produced by `JSON.parse`.  An object is the list of its own
properties in insertion order.  A number carries the value written in the
text; it is rounded to a double where it is read (`asTask`, `loadTry`). -/
inductive Json where
  | null
  | bool (b : Bool)
  | num (q : Rat)
  | str (s : Str)
  | arr (items : List Json)
  | obj (fields : List (Str × Json))

/-- The errors the code can raise. -/
inductive JsError where
  | SyntaxError
  | TypeError
  deriving DecidableEq

/-- A string held by `localStorage`, seen through the JSON codec of the
platform: the empty string, a text `JSON.parse` rejects, or a text that
`JSON.parse` reads as the value `v` (the text `JSON.stringify` writes for `v`
is one of these). -/
inductive Text where
  | empty
  | invalid
  | json (v : Json)

/-- `JSON.stringify(v)`. -/
def JSON.stringify (v : Json) : Text := Text.json v

/-- `JSON.parse(raw)`. -/
def JSON.parse : Text → Except JsError Json
  | .empty => .error JsError.SyntaxError
  | .invalid => .error JsError.SyntaxError
  | .json v => .ok v

/-- The property read `data.key` for a key that no prototype defines: it
throws on `null`, finds an own property of an object, and is `undefined`
(`none`) on every other value. -/
def getProp (data : Json) (key : Str) : Except JsError (Option Json) :=
  match data with
  | .null => .error JsError.TypeError
  | .obj fields => .ok (fields.lookup key)
  | _ => .ok none

/-! ## The store -/

/-- The `Task` typedef of the source. -/
structure Task where
  id : Num
  title : Str
  done : Bool
  deriving DecidableEq

/-- The module variables `tasks` and `nextId`, with the two pieces of the
environment the code writes: the `localStorage` slot under `STORAGE_KEY`
(`none` when the key is absent) and the lines appended to the output element,
oldest first. -/
structure State where
  tasks : List Task
  nextId : Num
  slot : Option Text
  output : List Str

/-- The state the module starts in: `let tasks = []; let nextId = 1;`. -/
def initial (slot : Option Text) : State :=
  { tasks := [], nextId := 1, slot := slot, output := [] }

/-- The object literal `{ id, title, done }` as a JSON value. -/
def taskJson (t : Task) : Json :=
  Json.obj [("id".toList, Json.num t.id.val), ("title".toList, Json.str t.title),
    ("done".toList, Json.bool t.done)]

/-- The object literal `{ tasks, nextId }` as a JSON value. -/
def stateJson (s : State) : Json :=
  Json.obj [("tasks".toList, Json.arr (s.tasks.map taskJson)), ("nextId".toList,
    Json.num s.nextId.val)]

/-- The function `save`. -/
def save (s : State) : State :=
  { s with slot := some (JSON.stringify (stateJson s)) }

/-- A parsed value seen at the type `Task`: an object whose `id` is a finite
number, whose `title` is a string and whose `done` is a boolean. -/
def asTask : Json → Option Task
  | .obj fields =>
    match fields.lookup "id".toList, fields.lookup "title".toList, fields.lookup "done".toList with
    | some (.num i), some (.str t), some (.bool d) =>
      (match toDouble i with
      | .fin x => some { id := x, title := t, done := d }
      | _ => none)
    | _, _, _ => none
  | _ => none

/-- A parsed array seen at the type `Task[]`, when every element is a `Task`. -/
def asTasks : List Json → Option (List Task)
  | [] => some []
  | j :: js =>
    match asTask j, asTasks js with
    | some t, some ts => some (t :: ts)
    | _, _ => none

/-- Whether a parsed value is `null`, the one value on which `t.id` throws. -/
def Json.isNull : Json → Bool
  | .null => true
  | _ => false

/-- The value of `tasks` inside `load`: of the declared type, or an array that
holds something other than tasks. -/
inductive TasksVar where
  | typed (ts : List Task)
  | untyped (items : List Json)

/-- The body of the `try` block of `load`, after the early return.  The result
is `none` when the block ends with `tasks` holding an array that is not of
type `Task[]`, or with a counter that is not finite; such a state is outside
this model. -/
def loadTry (s : State) (raw : Text) : Except JsError (Option State) :=
  match JSON.parse raw with
  | .error e => .error e
  | .ok data =>
    match getProp data "tasks".toList with
    | .error e => .error e
    | .ok tasksField =>
      let tasksVar : TasksVar :=
        match tasksField with
        | some (.arr items) =>
          (match asTasks items with
          | some ts => TasksVar.typed ts
          | none => TasksVar.untyped items)
        | _ => TasksVar.typed s.tasks
      match getProp data "nextId".toList with
      | .error e => .error e
      | .ok (some (.num q)) =>
        (match tasksVar, toDouble q with
        | .typed ts, .fin x => .ok (some { s with tasks := ts, nextId := x })
        | _, _ => .ok none)
      | .ok _ =>
        (match tasksVar with
        | .typed ts =>
          .ok (some { s with tasks := ts,
                             nextId := Num.succ (ts.foldl (fun m t => Num.max m t.id) 0) })
        | .untyped items => if items.any Json.isNull then .error JsError.TypeError else .ok none)

/-- The function `load`.  A missing slot and the empty string are falsy and
return at once; an exception anywhere in the block resets both variables. -/
def load (s : State) : Option State :=
  match s.slot with
  | none => some s
  | some .empty => some s
  | some raw =>
    match loadTry s raw with
    | .ok r => r
    | .error _ => some { s with tasks := [], nextId := 1 }

/-! ## Output -/

/-- The function `print`: one more line in the output element. -/
def print (html : Str) (s : State) : State :=
  { s with output := s.output ++ [html] }

/-- The function `printUser`. -/
def printUser (command : Str) (s : State) : State :=
  print ("<span class=\"prefix accent\">todo&gt;</span><span class=\"content\"> ".toList ++
    escapeHtml command ++ "</span>".toList) s

/-- The function `printInfo`. -/
def printInfo (text : Str) (s : State) : State :=
  print ("<span class=\"prefix muted\">info</span><span class=\"content\">".toList ++
    text ++ "</span>".toList) s

/-- The line `printError(text)` appends. -/
def errorLine (text : Str) : Str :=
  "<span class=\"prefix error\">error</span><span class=\"content\">".toList ++
    text ++ "</span>".toList

/-- The function `printError`. -/
def printError (text : Str) (s : State) : State :=
  print (errorLine text) s

/-- The markup of one task in `renderTasks`. -/
def taskHtml (t : Task) : Str :=
  let classes : Str := if t.done then "task-line task-done".toList else "task-line".toList
  "<div class=\"".toList ++ classes ++ "\">".toList ++
    "<span class=\"task-id\">".toList ++ numToString t.id ++ ".</span>".toList ++
    "<span class=\"task-title\">".toList ++ escapeHtml t.title ++ "</span>".toList ++
    "</div>".toList

/-- The function `renderTasks`. -/
def renderTasks (s : State) : State :=
  if s.tasks.length = 0 then
    print "<span class=\"prefix muted\">list</span><span class=\"content muted\">No tasks</span>".toList s
  else
    let listHtml : Str := (s.tasks.map taskHtml).flatten
    print ("<span class=\"prefix muted\">list</span><span class=\"content\">".toList ++
      listHtml ++ "</span>".toList) s

/-- The table `rows` of `showHelp`. -/
def helpRows : List (Str × Str) :=
  [("help".toList, "Show this help".toList),
   ("add <text>".toList, "Add a new task".toList),
   ("list".toList, "Show all tasks".toList),
   ("done <id>".toList, "Mark a task as done".toList),
   ("undone <id>".toList, "Mark a task as not done".toList),
   ("edit <id> <text>".toList, "Change task text".toList),
   ("remove <id>".toList, "Delete a task".toList),
   ("clear".toList, "Delete all tasks".toList)]

/-- The function `showHelp`. -/
def showHelp (s : State) : State :=
  let html : Str := (helpRows.map (fun r =>
    "<span class=\"muted\">".toList ++ r.1 ++ "</span><span>".toList ++ r.2 ++ "</span>".toList)).flatten
  print ("<span class=\"prefix muted\">help</span><div class=\"content help\">".toList ++
    html ++ "</div>".toList) s

/-! ## Store operations -/

/-- The function `addTask`. -/
def addTask (title : Str) (s : State) : State :=
  let trimmed := trim title
  if trimmed = [] then printError "Cannot add empty task.".toList s
  else
    let s1 : State :=
      { s with tasks := s.tasks ++ [{ id := s.nextId, title := trimmed, done := false }],
               nextId := Num.succ s.nextId }
    print ("<span class=\"prefix success\">added</span><span class=\"content\">".toList ++
      escapeHtml trimmed ++ "</span>".toList) (save s1)

/-- The function `findTaskById`: the first task with the given id, if any. -/
def findTaskById (id : Rat) (s : State) : Option Task :=
  s.tasks.find? (fun t => t.id.val == id)

/-- The text of the validation error of `requireId`. -/
def invalidIdText : Str := "Please provide a valid numeric id.".toList

/-- The text of the not-found error of `requireId`. -/
def notFoundText (id : Num) : Str := "Task ".toList ++ numToString id ++ " not found.".toList

/-- The function `requireId`: the task found (`none` for the `null` result)
and the state, which gains an error line when nothing is returned. -/
def requireId (arg : Option Str) (s : State) : Option Task × State :=
  match Number arg with
  | .fin x =>
    if !(JsNumber.fin x).isInteger || x.val ≤ 0 then (none, printError invalidIdText s)
    else
      match findTaskById x.val s with
      | none => (none, printError (notFoundText x) s)
      | some task => (some task, s)
  | _ => (none, printError invalidIdText s)

/-- An assignment to a property of the object `task` that `find` returned: the
first element of the list with that id is the object. -/
def updateTask (task : Task) (f : Task → Task) : List Task → List Task
  | [] => []
  | t :: ts => if t.id = task.id then f t :: ts else t :: updateTask task f ts

/-- The function `setDone`. -/
def setDone (idArg : Option Str) (done : Bool) (s : State) : State :=
  match requireId idArg s with
  | (none, s1) => s1
  | (some task, s1) =>
    let s2 : State := { s1 with tasks := updateTask task (fun t => { t with done := done }) s1.tasks }
    print ("<span class=\"prefix success\">ok</span><span class=\"content\">Task ".toList ++
      numToString task.id ++ " ".toList ++
      (if done then "completed".toList else "reopened".toList) ++ ".</span>".toList) (save s2)

/-- The function `editTask`. -/
def editTask (idArg : Option Str) (text : Str) (s : State) : State :=
  match requireId idArg s with
  | (none, s1) => s1
  | (some task, s1) =>
    let newTitle := trim text
    if newTitle = [] then printError "New text cannot be empty.".toList s1
    else
      let s2 : State :=
        { s1 with tasks := updateTask task (fun t => { t with title := newTitle }) s1.tasks }
      print ("<span class=\"prefix success\">edited</span><span class=\"content\">".toList ++
        numToString task.id ++ ". ".toList ++ escapeHtml newTitle ++ "</span>".toList) (save s2)

/-- The function `removeTask`. -/
def removeTask (idArg : Option Str) (s : State) : State :=
  match requireId idArg s with
  | (none, s1) => s1
  | (some task, s1) =>
    let s2 : State := { s1 with tasks := s1.tasks.filter (fun t => t.id != task.id) }
    print ("<span class=\"prefix success\">removed</span><span class=\"content\">Task ".toList ++
      numToString task.id ++ "</span>".toList) (save s2)

/-- The function `clearTasks`. -/
def clearTasks (s : State) : State :=
  let s1 : State := { s with tasks := [], nextId := 1 }
  print "<span class=\"prefix warning\">cleared</span><span class=\"content\">All tasks deleted.</span>".toList
    (save s1)

/-! ## The dispatcher -/

/-- The first element `cmd` of the destructuring
`[cmd, ...rest] = raw.trim().split(/\s+/)`. -/
def cmdOf (raw : Str) : Str := (splitWs (trim raw)).headD []

/-- The remaining elements `rest` of the same destructuring. -/
def restOf (raw : Str) : List Str := (splitWs (trim raw)).tail

/-- The constant `tail = raw.slice(raw.indexOf(cmd) + cmd.length).trim()`. -/
def tailOf (raw : Str) : Str :=
  let cmd := cmdOf raw
  trim (slice raw (indexOf raw cmd + (cmd.length : Int)))

/-- The function `handle`. -/
def handle (command : Str) (s : State) : State :=
  let raw := command
  let cmd := cmdOf raw
  let rest := restOf raw
  let tail := tailOf raw
  let c := toLowerCase cmd
  if c = "".toList then s
  else if c = "help".toList ∨ c = "?".toList then showHelp s
  else if c = "add".toList then addTask tail s
  else if c = "list".toList ∨ c = "ls".toList then renderTasks s
  else if c = "done".toList then setDone rest.head? true s
  else if c = "undone".toList ∨ c = "open".toList then setDone rest.head? false s
  else if c = "edit".toList then
    if rest.length = 0 then printError "Usage: edit <id> <text>".toList s
    else editTask rest.head? (stripFirstToken tail) s
  else if c = "remove".toList ∨ c = "rm".toList ∨ c = "delete".toList then removeTask rest.head? s
  else if c = "clear".toList then clearTasks s
  else printError ("Unknown command: ".toList ++ escapeHtml cmd ++ ". Type 'help'.".toList) s

/-- The function `boot`, without the focus change: `load`, the welcome line,
and the list when there are tasks. -/
def boot (s : State) : Option State :=
  (load s).map (fun s1 =>
    let s2 := printInfo "Welcome to Terminal TODO. Type ‘help’.".toList s1
    if s2.tasks.length ≠ 0 then renderTasks s2 else s2)

/-! ## Predicates used in the statements -/

/-- The payloads with the persisted layout: the text `JSON.stringify` writes
for a record with a list of tasks and an integer counter. -/
def WellFormedPayload (raw : Text) : Prop :=
  ∃ (ts : List Task) (n : Int),
    raw = JSON.stringify (Json.obj [("tasks".toList, Json.arr (ts.map taskJson)),
      ("nextId".toList, Json.num n)])

/-- The payloads on which the `try` block of `load` is known to end in the
empty state: a text `JSON.parse` rejects, the text of `null`, and, when the
task list in memory is empty, any value with neither an array under `tasks`
nor a number under `nextId`. -/
def ResetsOnLoad (s : State) (raw : Text) : Prop :=
  raw = Text.invalid ∨ raw = Text.json Json.null ∨
    (s.tasks = [] ∧ ∃ v, raw = Text.json v ∧ v.isNull = false ∧
      (∀ items, getProp v "tasks".toList ≠ .ok (some (Json.arr items))) ∧
      (∀ q, getProp v "nextId".toList ≠ .ok (some (Json.num q))))

/-- All task ids are pairwise distinct. -/
def UniqueIds (s : State) : Prop := (s.tasks.map Task.id).Nodup

/-- The counter is strictly greater than every existing task id. -/
def CounterAbove (s : State) : Prop := ∀ t ∈ s.tasks, t.id < s.nextId

/-- Every task title is non-empty after trimming. -/
def TitlesNonBlank (s : State) : Prop := ∀ t ∈ s.tasks, trim t.title ≠ []

/-- The invariants of the data model, taken together. -/
def Invariant (s : State) : Prop := UniqueIds s ∧ CounterAbove s ∧ TitlesNonBlank s

/-- One operation of a sequence of adds and removes, with the argument the
dispatcher passes to it. -/
inductive StoreOp where
  | add (title : Str)
  | remove (idArg : Option Str)

/-- The call an operation stands for. -/
def StoreOp.apply : StoreOp → State → State
  | .add title, s => addTask title s
  | .remove idArg, s => removeTask idArg s

/-- The state after a sequence of operations. -/
def runOps : List StoreOp → State → State
  | [], s => s
  | op :: ops, s => runOps ops (op.apply s)

/-- The ids an operation assigns: the ids of the tasks an add leaves in the list
beyond its previous length. -/
def StoreOp.assigned (op : StoreOp) (s : State) : List Num :=
  match op with
  | .add _ => ((op.apply s).tasks.drop s.tasks.length).map Task.id
  | .remove _ => []

/-- The ids assigned along a sequence of operations, in the order of the calls. -/
def assignedIds : List StoreOp → State → List Num
  | [], _ => []
  | op :: ops, s => op.assigned s ++ assignedIds ops (op.apply s)

/-- The state after the lines of a session, each given to `handle` in turn. -/
def runLines (lines : List Str) (s : State) : State :=
  lines.foldl (fun st l => handle l st) s

/-- Whether an output line is of the error category: `print` got it from
`printError`, which opens it with the `prefix error` span. -/
def isErrorLine (l : Str) : Bool := startsWith l "<span class=\"prefix error\">".toList

/-- The slot holds the serialization of the tasks and the counter in memory,
and `load` reproduces the state. -/
def Persisted (s : State) : Prop :=
  s.slot = some (JSON.stringify (stateJson s)) ∧ load s = some s

/-- The shapes of the state after a command: nothing happened; one line of
another category than error was printed; one error line was printed, with a
text that does not start with `N`; or variables were written, saved, and one
line of another category than error was printed. -/
def Outcome (s s' : State) : Prop :=
  s' = s ∨ (∃ l, s' = print l s ∧ isErrorLine l = false) ∨
  (∃ txt, s' = printError txt s ∧ txt.head? ≠ some 'N') ∨
  (∃ l s2, s' = print l (save s2) ∧ s2.slot = s.slot ∧ s2.output = s.output ∧
    isErrorLine l = false)

/-- The decoding the escaping is checked against: one pass from the left that
replaces each of the entities `&amp;`, `&lt;` and `&gt;` by `&`, `<` and `>`.
It is not part of the source. -/
def unescapeHtml : Str → Str
  | '&' :: 'a' :: 'm' :: 'p' :: ';' :: r => '&' :: unescapeHtml r
  | '&' :: 'l' :: 't' :: ';' :: r => '<' :: unescapeHtml r
  | '&' :: 'g' :: 't' :: ';' :: r => '>' :: unescapeHtml r
  | c :: r => c :: unescapeHtml r
  | [] => []

/-- Whether every `&` of a string is followed by `amp;`, `lt;` or `gt;`. -/
def ampsStartEntities : Str → Bool
  | [] => true
  | c :: r =>
    (c != '&' || startsWith r "amp;".toList || startsWith r "lt;".toList ||
      startsWith r "gt;".toList) && ampsStartEntities r

/-! ## A state at the limit of the counter -/

/-- The state in which the counter has reached `2^53`, the list being empty.
It is what `load` leaves at boot for the payload `\x7b"nextId": 9007199254740992\x7d`. -/
def counterAtLimit : State :=
  { tasks := [], nextId := 9007199254740992, slot := none, output := [] }

/-! # Properties -/

/-! ## Rounding to a double -/

theorem magnitude_eq (q : Rat) : magnitude q = |q| := by
  unfold magnitude
  split
  · rename_i h; rw [abs_of_neg h]
  · rename_i h; rw [abs_of_nonneg (not_lt.mp h)]

theorem floor_eq (t : Rat) : Rat.floor t = Int.floor t := rfl

theorem pow10_eq (p : Int) : pow10 p = (10 : Rat) ^ p := by
  unfold pow10
  split
  · rename_i h
    obtain ⟨n, rfl⟩ : ∃ n : Nat, p = (n : Int) := ⟨p.toNat, by omega⟩
    simp
  · rename_i h
    obtain ⟨n, rfl⟩ : ∃ n : Nat, p = -(n : Int) := ⟨(-p).toNat, by omega⟩
    simp

theorem pow2_eq (p : Int) : pow2 p = (2 : Rat) ^ p := by
  unfold pow2
  split
  · rename_i h
    obtain ⟨n, rfl⟩ : ∃ n : Nat, p = (n : Int) := ⟨p.toNat, by omega⟩
    simp
  · rename_i h
    obtain ⟨n, rfl⟩ : ∃ n : Nat, p = -(n : Int) := ⟨(-p).toNat, by omega⟩
    simp

theorem log2Fuel_spec (fuel n : Nat) (h1 : 1 ≤ n) (h2 : n ≤ fuel) :
    2 ^ log2Fuel fuel n ≤ n ∧ n < 2 ^ (log2Fuel fuel n + 1) := by
  induction fuel generalizing n with
  | zero => omega
  | succ fuel ih =>
    unfold log2Fuel
    by_cases hn : n < 2
    · simp only [hn, if_true]
      have : n = 1 := by omega
      subst this
      norm_num
    · simp only [hn, if_false]
      obtain ⟨i1, i2⟩ := ih (n / 2) (by omega) (by omega)
      rw [Nat.pow_succ, Nat.pow_succ]
      constructor <;> omega

theorem natLog2_spec (n : Nat) (h : 1 ≤ n) : 2 ^ natLog2 n ≤ n ∧ n < 2 ^ (natLog2 n + 1) :=
  log2Fuel_spec n n h (le_refl n)

theorem floorLog2_spec (a : Rat) (ha : 0 < a) :
    (2 : Rat) ^ floorLog2 a ≤ a ∧ a < (2 : Rat) ^ (floorLog2 a + 1) := by
  have hnum : 0 < a.num := Rat.num_pos.2 ha
  have hN : 1 ≤ a.num.natAbs := Int.natAbs_pos.2 (ne_of_gt hnum)
  have hD : 1 ≤ a.den := a.den_pos
  obtain ⟨n1, n2⟩ := natLog2_spec a.num.natAbs hN
  obtain ⟨d1, d2⟩ := natLog2_spec a.den hD
  have haeq : a = (a.num.natAbs : Rat) / (a.den : Rat) := by
    have h1 : ((a.num.natAbs : Nat) : Int) = a.num := Int.natAbs_of_nonneg (le_of_lt hnum)
    have h2 : (a.num.natAbs : Rat) = (a.num : Rat) := by
      have h3 : (((a.num.natAbs : Nat) : Int) : Rat) = (a.num : Rat) := by rw [h1]
      rw [← h3, Int.cast_natCast]
    rw [h2]
    exact (Rat.num_div_den a).symm
  have hDpos : (0 : Rat) < (a.den : Rat) := by exact_mod_cast hD
  have n1' : (2 : Rat) ^ natLog2 a.num.natAbs ≤ (a.num.natAbs : Rat) := by exact_mod_cast n1
  have n2' : (a.num.natAbs : Rat) < (2 : Rat) ^ (natLog2 a.num.natAbs + 1) := by exact_mod_cast n2
  have d1' : (2 : Rat) ^ natLog2 a.den ≤ (a.den : Rat) := by exact_mod_cast d1
  have d2' : (a.den : Rat) < (2 : Rat) ^ (natLog2 a.den + 1) := by exact_mod_cast d2
  have h2ne : (2 : Rat) ≠ 0 := by norm_num
  have hk : ∀ (x y : Nat), (2 : Rat) ^ ((x : Int) - (y : Int)) = (2 : Rat) ^ x / (2 : Rat) ^ y := by
    intro x y
    rw [zpow_sub₀ h2ne, zpow_natCast, zpow_natCast]
  unfold floorLog2
  simp only [pow2_eq, magnitude_eq]
  split
  · rename_i hle
    refine ⟨hle, ?_⟩
    have : ((natLog2 a.num.natAbs : Int) - (natLog2 a.den : Int) + 1)
        = (((natLog2 a.num.natAbs + 1 : Nat) : Int) - (natLog2 a.den : Int)) := by push_cast; ring
    rw [this, hk]
    conv_lhs => rw [haeq]
    rw [div_lt_div_iff₀ hDpos (by positivity)]
    calc (a.num.natAbs : Rat) * 2 ^ natLog2 a.den
        ≤ (a.num.natAbs : Rat) * (a.den : Rat) := by
          apply mul_le_mul_of_nonneg_left d1' (by positivity)
      _ < 2 ^ (natLog2 a.num.natAbs + 1) * (a.den : Rat) := by
          apply mul_lt_mul_of_pos_right n2' hDpos
  · rename_i hnle
    push_neg at hnle
    constructor
    · have : ((natLog2 a.num.natAbs : Int) - (natLog2 a.den : Int) - 1)
          = ((natLog2 a.num.natAbs : Int) - ((natLog2 a.den + 1 : Nat) : Int)) := by push_cast; ring
      rw [this, hk]
      conv_rhs => rw [haeq]
      rw [div_le_div_iff₀ (by positivity) hDpos]
      calc (2 : Rat) ^ natLog2 a.num.natAbs * (a.den : Rat)
          ≤ (a.num.natAbs : Rat) * (a.den : Rat) := by
            apply mul_le_mul_of_nonneg_right n1' (le_of_lt hDpos)
        _ ≤ (a.num.natAbs : Rat) * 2 ^ (natLog2 a.den + 1) := by
            apply mul_le_mul_of_nonneg_left (le_of_lt d2') (by positivity)
    · have : ((natLog2 a.num.natAbs : Int) - (natLog2 a.den : Int) - 1 + 1)
          = ((natLog2 a.num.natAbs : Int) - (natLog2 a.den : Int)) := by ring
      rw [this]
      exact hnle

theorem floorLog2_unique (a : Rat) (e : Int) (h1 : (2 : Rat) ^ e ≤ a) (h2 : a < (2 : Rat) ^ (e + 1)) :
    floorLog2 a = e := by
  have ha : 0 < a := lt_of_lt_of_le (zpow_pos (by norm_num) e) h1
  obtain ⟨s1, s2⟩ := floorLog2_spec a ha
  have l1 : e < floorLog2 a + 1 := (zpow_lt_zpow_iff_right₀ (by norm_num : (1 : Rat) < 2)).1 (lt_of_le_of_lt h1 s2)
  have l2 : floorLog2 a < e + 1 := (zpow_lt_zpow_iff_right₀ (by norm_num : (1 : Rat) < 2)).1 (lt_of_le_of_lt s1 h2)
  omega

theorem roundHalfEven_natCast (n : Nat) : roundHalfEven (n : Rat) = n := by
  unfold roundHalfEven
  simp [floor_eq, Int.floor_natCast]


theorem two_zpow_split (p p' : Int) (h : p' ≤ p) :
    (2 : Rat) ^ p = ((2 ^ (p - p').toNat : Nat) : Rat) * (2 : Rat) ^ p' := by
  have h2ne : (2 : Rat) ≠ 0 := by norm_num
  have : p = ((p - p').toNat : Int) + p' := by
    rw [Int.toNat_of_nonneg (by omega)]; ring
  conv_lhs => rw [this]
  rw [zpow_add₀ h2ne, zpow_natCast]
  push_cast
  ring

/-- A value `N * 2^p` with `N` of at most 53 bits and `p` not below `-1074`
is left alone by the rounding. -/
theorem roundDouble_exact (N : Nat) (p : Int) (h1 : 1 ≤ N) (h2 : N ≤ 2 ^ 53) (hp : -1074 ≤ p) :
    roundDouble ((N : Rat) * (2 : Rat) ^ p) = (N : Rat) * (2 : Rat) ^ p := by
  have h2ne : (2 : Rat) ≠ 0 := by norm_num
  have hpow : (0 : Rat) < (2 : Rat) ^ p := zpow_pos (by norm_num) p
  have hNpos : (0 : Rat) < (N : Rat) := by exact_mod_cast h1
  have hpos : (0 : Rat) < (N : Rat) * (2 : Rat) ^ p := mul_pos hNpos hpow
  obtain ⟨n1, n2⟩ := natLog2_spec N h1
  have he : floorLog2 ((N : Rat) * (2 : Rat) ^ p) = (natLog2 N : Int) + p := by
    apply floorLog2_unique
    · rw [zpow_add₀ h2ne, zpow_natCast]
      exact mul_le_mul_of_nonneg_right (by exact_mod_cast n1) (le_of_lt hpow)
    · have : (natLog2 N : Int) + p + 1 = ((natLog2 N + 1 : Nat) : Int) + p := by push_cast; ring
      rw [this, zpow_add₀ h2ne, zpow_natCast]
      exact mul_lt_mul_of_pos_right (by exact_mod_cast n2) hpow
  have hl : natLog2 N ≤ 53 := by
    by_contra hc
    have : 2 ^ 54 ≤ 2 ^ natLog2 N := Nat.pow_le_pow_right (by norm_num) (by omega)
    omega
  have hnat : ∃ j : Nat, (N : Rat) * (2 : Rat) ^ p
      = (j : Rat) * (2 : Rat) ^ (max ((natLog2 N : Int) + p) (-1022) - 52) := by
    by_cases h53 : natLog2 N = 53
    · have hN : N = 2 ^ 53 := by
        rw [h53] at n1; omega
      refine ⟨2 ^ 52, ?_⟩
      have hm : max ((natLog2 N : Int) + p) (-1022) - 52 = p + 1 := by
        rw [h53]; push_cast
        rw [max_eq_left (by omega)]; ring
      rw [hm, hN, zpow_add₀ h2ne]
      push_cast
      ring
    · have hle : max ((natLog2 N : Int) + p) (-1022) - 52 ≤ p := by
        have : (natLog2 N : Int) ≤ 52 := by omega
        rcases max_cases ((natLog2 N : Int) + p) (-1022) with ⟨hm, _⟩ | ⟨hm, _⟩ <;> rw [hm] <;> omega
      refine ⟨N * 2 ^ (p - (max ((natLog2 N : Int) + p) (-1022) - 52)).toNat, ?_⟩
      rw [two_zpow_split p _ hle]
      push_cast
      ring
  obtain ⟨j, hj⟩ := hnat
  have hpow' : (2 : Rat) ^ (max ((natLog2 N : Int) + p) (-1022) - 52) ≠ 0 :=
    ne_of_gt (zpow_pos (by norm_num) _)
  unfold roundDouble
  simp only [pow2_eq, magnitude_eq]
  rw [if_neg (ne_of_gt hpos)]
  simp only [abs_of_pos hpos, he]
  rw [if_neg (not_lt.mpr (le_of_lt hpos))]
  conv_lhs => rw [hj]
  rw [mul_div_assoc, div_self hpow', mul_one, roundHalfEven_natCast, ← hj]

theorem roundDouble_zero : roundDouble 0 = 0 := by
  unfold roundDouble; simp

theorem roundDouble_neg (q : Rat) : roundDouble (-q) = -roundDouble q := by
  by_cases h0 : q = 0
  · subst h0; simp [roundDouble_zero]
  · have hn : -q ≠ 0 := neg_ne_zero.2 h0
    unfold roundDouble
    simp only [pow2_eq, magnitude_eq]
    rw [if_neg h0, if_neg hn]
    simp only [abs_neg]
    rcases lt_or_gt_of_ne h0 with hlt | hgt
    · have h1 : ¬ (-q < 0) := by simp; exact le_of_lt hlt
      rw [if_neg h1, if_pos hlt]; simp
    · have h1 : -q < 0 := by simpa using hgt
      rw [if_pos h1, if_neg (not_lt.mpr (le_of_lt hgt))]

theorem roundDouble_pos_eq (a : Rat) (ha : 0 < a) :
    roundDouble a = (roundHalfEven (a / (2 : Rat) ^ (max (floorLog2 a) (-1022) - 52)) : Rat)
      * (2 : Rat) ^ (max (floorLog2 a) (-1022) - 52) := by
  unfold roundDouble
  simp only [pow2_eq, magnitude_eq]
  rw [if_neg (ne_of_gt ha)]
  simp only [abs_of_pos ha]
  rw [if_neg (not_lt.mpr (le_of_lt ha))]

theorem roundDouble_abs (q : Rat) : |roundDouble q| = roundDouble |q| := by
  have hnn : ∀ a : Rat, 0 ≤ a → 0 ≤ roundDouble a := by
    intro a ha
    rcases eq_or_lt_of_le ha with h | h
    · rw [← h, roundDouble_zero]
    · rw [roundDouble_pos_eq a h]
      exact mul_nonneg (Nat.cast_nonneg _) (le_of_lt (zpow_pos (by norm_num) _))
  rcases le_or_lt 0 q with h | h
  · rw [abs_of_nonneg h, abs_of_nonneg (hnn q h)]
  · have h' : 0 ≤ -q := by linarith
    have : roundDouble q = -roundDouble (-q) := by
      rw [roundDouble_neg]; simp
    rw [abs_of_neg h, this, abs_neg, abs_of_nonneg (hnn _ h')]

theorem roundHalfEven_le (t : Rat) : roundHalfEven t ≤ (Int.floor t).toNat + 1 := by
  unfold roundHalfEven
  simp only [floor_eq]
  split
  · omega
  · split
    · omega
    · split <;> omega

theorem roundHalfEven_lt_half (t : Rat) (h : t - ((Int.floor t).toNat : Rat) < 1 / 2) :
    roundHalfEven t = (Int.floor t).toNat := by
  unfold roundHalfEven
  simp only [floor_eq, h, if_true]

theorem floor_toNat_lt (t : Rat) (n : Nat) (h0 : 0 ≤ t) (h : t < (n : Rat)) :
    (Int.floor t).toNat < n := by
  have h1 : Int.floor t < (n : Int) := by
    rw [Int.floor_lt]; exact_mod_cast h
  have h2 : 0 ≤ Int.floor t := Int.floor_nonneg.2 h0
  omega

/-- The scaled value that is rounded to an integer lies below `2^53`. -/
theorem scaled_lt (a : Rat) (ha : 0 < a) :
    a / (2 : Rat) ^ (max (floorLog2 a) (-1022) - 52) < (2 : Rat) ^ (53 : Nat) := by
  have h2ne : (2 : Rat) ≠ 0 := by norm_num
  obtain ⟨_, s2⟩ := floorLog2_spec a ha
  have hp : (0 : Rat) < (2 : Rat) ^ (max (floorLog2 a) (-1022) - 52) := zpow_pos (by norm_num) _
  rw [div_lt_iff₀ hp, ← zpow_natCast, ← zpow_add₀ h2ne]
  refine lt_of_lt_of_le s2 ?_
  apply zpow_le_zpow_right₀ (by norm_num)
  have := le_max_left (floorLog2 a) (-1022)
  push_cast
  omega

/-- The result of the rounding is a multiple `m * 2^p` with `m ≤ 2^53` and
`p ≥ -1074`. -/
theorem roundDouble_form (a : Rat) (ha : 0 < a) :
    ∃ (m : Nat) (p : Int), m ≤ 2 ^ 53 ∧ -1074 ≤ p ∧ roundDouble a = (m : Rat) * (2 : Rat) ^ p := by
  refine ⟨roundHalfEven (a / (2 : Rat) ^ (max (floorLog2 a) (-1022) - 52)),
    max (floorLog2 a) (-1022) - 52, ?_, ?_, roundDouble_pos_eq a ha⟩
  · have hp : (0 : Rat) < (2 : Rat) ^ (max (floorLog2 a) (-1022) - 52) := zpow_pos (by norm_num) _
    have h0 : 0 ≤ a / (2 : Rat) ^ (max (floorLog2 a) (-1022) - 52) := le_of_lt (div_pos ha hp)
    have := floor_toNat_lt _ (2 ^ 53) h0 (by exact_mod_cast scaled_lt a ha)
    have := roundHalfEven_le (a / (2 : Rat) ^ (max (floorLog2 a) (-1022) - 52))
    omega
  · have := le_max_right (floorLog2 a) (-1022)
    omega

theorem roundDouble_idem (q : Rat) : roundDouble (roundDouble q) = roundDouble q := by
  have hpos : ∀ a : Rat, 0 < a → roundDouble (roundDouble a) = roundDouble a := by
    intro a ha
    obtain ⟨m, p, hm, hp, h⟩ := roundDouble_form a ha
    rw [h]
    by_cases h0 : m = 0
    · subst h0; simp [roundDouble_zero]
    · exact roundDouble_exact m p (by omega) hm hp
  rcases lt_trichotomy q 0 with h | h | h
  · have h' : 0 < -q := by linarith
    have e : roundDouble q = -roundDouble (-q) := by rw [roundDouble_neg]; simp
    rw [e, roundDouble_neg, hpos _ h']
  · subst h; rw [roundDouble_zero, roundDouble_zero]
  · exact hpos q h

/-- The largest finite double, `(2^53 - 1) * 2^971`. -/
theorem maxDouble_facts :
    (((2 ^ 53 - 1 : Nat) : Rat) * (2 : Rat) ^ (971 : Int)) < (2 : Rat) ^ (1024 : Nat) ∧
    (2 : Rat) ^ (53 : Nat) * (2 : Rat) ^ (970 : Int)
      ≤ (((2 ^ 53 - 1 : Nat) : Rat) * (2 : Rat) ^ (971 : Int)) ∧
    (((2 ^ 53 - 1 : Nat) : Rat) * (2 : Rat) ^ (971 : Int)) + 1 < (2 : Rat) ^ (1024 : Int) ∧
    ((((2 ^ 53 - 1 : Nat) : Rat) * (2 : Rat) ^ (971 : Int)) + 1) / (2 : Rat) ^ (971 : Int)
      - ((2 ^ 53 - 1 : Nat) : Rat) < 1 / 2 := by
  refine ⟨?_, ?_, ?_, ?_⟩ <;> norm_num

theorem roundDouble_le_max (a : Rat) (ha : 0 < a)
    (h : a ≤ (((2 ^ 53 - 1 : Nat) : Rat) * (2 : Rat) ^ (971 : Int)) + 1) :
    roundDouble a ≤ ((2 ^ 53 - 1 : Nat) : Rat) * (2 : Rat) ^ (971 : Int) := by
  obtain ⟨f1, f2, f3, f4⟩ := maxDouble_facts
  obtain ⟨s1, _⟩ := floorLog2_spec a ha
  have he : floorLog2 a < 1024 :=
    (zpow_lt_zpow_iff_right₀ (by norm_num : (1 : Rat) < 2)).1 (lt_of_le_of_lt s1 (lt_of_le_of_lt h f3))
  have hp0 : (0 : Rat) < (2 : Rat) ^ (max (floorLog2 a) (-1022) - 52) := zpow_pos (by norm_num) _
  have ht0 : 0 ≤ a / (2 : Rat) ^ (max (floorLog2 a) (-1022) - 52) := le_of_lt (div_pos ha hp0)
  have hfl := floor_toNat_lt _ (2 ^ 53) ht0 (by exact_mod_cast scaled_lt a ha)
  have hle := roundHalfEven_le (a / (2 : Rat) ^ (max (floorLog2 a) (-1022) - 52))
  rw [roundDouble_pos_eq a ha]
  by_cases h1023 : floorLog2 a = 1023
  · have hp : max (floorLog2 a) (-1022) - 52 = 971 := by rw [h1023]; norm_num
    rw [hp] at hfl hle ht0 ⊢
    have hm : roundHalfEven (a / (2 : Rat) ^ (971 : Int)) ≤ 2 ^ 53 - 1 := by
      by_cases hf : (Int.floor (a / (2 : Rat) ^ (971 : Int))).toNat = 2 ^ 53 - 1
      · have hr : a / (2 : Rat) ^ (971 : Int)
            - (((Int.floor (a / (2 : Rat) ^ (971 : Int))).toNat : Nat) : Rat) < 1 / 2 := by
          rw [hf]
          have : a / (2 : Rat) ^ (971 : Int)
              ≤ ((((2 ^ 53 - 1 : Nat) : Rat) * (2 : Rat) ^ (971 : Int)) + 1) / (2 : Rat) ^ (971 : Int) :=
            div_le_div_of_nonneg_right h (le_of_lt (zpow_pos (by norm_num) _))
          linarith
        rw [roundHalfEven_lt_half _ hr, hf]
      · omega
    have hm' : (roundHalfEven (a / (2 : Rat) ^ (971 : Int)) : Rat) ≤ ((2 ^ 53 - 1 : Nat) : Rat) := by
      exact_mod_cast hm
    exact mul_le_mul_of_nonneg_right hm' (le_of_lt (zpow_pos (by norm_num) _))
  · have hp : max (floorLog2 a) (-1022) - 52 ≤ 970 := by
      rcases max_cases (floorLog2 a) (-1022) with ⟨hm, _⟩ | ⟨hm, _⟩ <;> rw [hm] <;> omega
    have hm' : (roundHalfEven (a / (2 : Rat) ^ (max (floorLog2 a) (-1022) - 52)) : Rat)
        ≤ (2 : Rat) ^ (53 : Nat) := by
      have : roundHalfEven (a / (2 : Rat) ^ (max (floorLog2 a) (-1022) - 52)) ≤ 2 ^ 53 := by omega
      exact_mod_cast this
    calc (roundHalfEven (a / (2 : Rat) ^ (max (floorLog2 a) (-1022) - 52)) : Rat)
          * (2 : Rat) ^ (max (floorLog2 a) (-1022) - 52)
        ≤ (2 : Rat) ^ (53 : Nat) * (2 : Rat) ^ (max (floorLog2 a) (-1022) - 52) :=
          mul_le_mul_of_nonneg_right hm' (le_of_lt hp0)
      _ ≤ (2 : Rat) ^ (53 : Nat) * (2 : Rat) ^ (970 : Int) :=
          mul_le_mul_of_nonneg_left (zpow_le_zpow_right₀ (by norm_num) hp) (by positivity)
      _ ≤ _ := f2

/-- The finite doubles in the vocabulary of the order on the rationals. -/
theorem isDouble_iff (q : Rat) : IsDouble q ↔ roundDouble q = q ∧ |q| < (2 : Rat) ^ 1024 := by
  unfold IsDouble
  rw [magnitude_eq, Nat.cast_pow, Nat.cast_ofNat]

theorem isDouble_le_max (x : Rat) (h : IsDouble x) :
    |x| ≤ ((2 ^ 53 - 1 : Nat) : Rat) * (2 : Rat) ^ (971 : Int) := by
  obtain ⟨f1, f2, f3, f4⟩ := maxDouble_facts
  obtain ⟨hr, hb⟩ := (isDouble_iff x).1 h
  by_cases h0 : x = 0
  · subst h0; simp; positivity
  have ha : 0 < |x| := abs_pos.2 h0
  have hra : roundDouble |x| = |x| := by rw [← roundDouble_abs, hr]
  obtain ⟨s1, s2⟩ := floorLog2_spec |x| ha
  have he : floorLog2 |x| < 1024 := by
    have : (2 : Rat) ^ floorLog2 |x| < (2 : Rat) ^ ((1024 : Nat) : Int) := by
      rw [zpow_natCast]; exact lt_of_le_of_lt s1 hb
    have := (zpow_lt_zpow_iff_right₀ (by norm_num : (1 : Rat) < 2)).1 this
    exact_mod_cast this
  by_cases h1023 : floorLog2 |x| = 1023
  · have hp : max (floorLog2 |x|) (-1022) - 52 = 971 := by rw [h1023]; norm_num
    have hform := roundDouble_pos_eq |x| ha
    rw [hp, hra] at hform
    have hp0 : (0 : Rat) < (2 : Rat) ^ (971 : Int) := zpow_pos (by norm_num) _
    have hlt : ((roundHalfEven (|x| / (2 : Rat) ^ (971 : Int)) : Nat) : Rat) < ((2 ^ 53 : Nat) : Rat) := by
      have : ((roundHalfEven (|x| / (2 : Rat) ^ (971 : Int)) : Nat) : Rat) * (2 : Rat) ^ (971 : Int)
          < ((2 ^ 53 : Nat) : Rat) * (2 : Rat) ^ (971 : Int) := by
        rw [← hform]
        refine lt_of_lt_of_le hb ?_
        norm_num
      exact lt_of_mul_lt_mul_right this (le_of_lt hp0)
    have hlt' : roundHalfEven (|x| / (2 : Rat) ^ (971 : Int)) < 2 ^ 53 := by exact_mod_cast hlt
    have hle : ((roundHalfEven (|x| / (2 : Rat) ^ (971 : Int)) : Nat) : Rat)
        ≤ ((2 ^ 53 - 1 : Nat) : Rat) := by
      have : roundHalfEven (|x| / (2 : Rat) ^ (971 : Int)) ≤ 2 ^ 53 - 1 := by omega
      exact_mod_cast this
    rw [hform]
    exact mul_le_mul_of_nonneg_right hle (le_of_lt hp0)
  · have h2 : floorLog2 |x| + 1 ≤ 1023 := by omega
    calc |x| ≤ (2 : Rat) ^ (floorLog2 |x| + 1) := le_of_lt s2
      _ ≤ (2 : Rat) ^ (1023 : Int) := zpow_le_zpow_right₀ (by norm_num) h2
      _ ≤ _ := by norm_num

/-- Adding one to a finite double gives a finite double: the largest double
absorbs the one. -/
theorem isDouble_round_succ (x : Rat) (h : IsDouble x) : IsDouble (roundDouble (x + 1)) := by
  obtain ⟨f1, f2, f3, f4⟩ := maxDouble_facts
  rw [isDouble_iff]
  refine ⟨roundDouble_idem _, ?_⟩
  rw [roundDouble_abs]
  have hx := isDouble_le_max x h
  by_cases h0 : x + 1 = 0
  · rw [h0]; simp [roundDouble_zero]
  have ha : 0 < |x + 1| := abs_pos.2 h0
  have hle : |x + 1| ≤ (((2 ^ 53 - 1 : Nat) : Rat) * (2 : Rat) ^ (971 : Int)) + 1 := by
    calc |x + 1| ≤ |x| + |1| := abs_add x 1
      _ ≤ _ := by rw [abs_one]; linarith
  exact lt_of_le_of_lt (roundDouble_le_max _ ha hle) f1

theorem Num.ext {a b : Num} (h : a.val = b.val) : a = b := by
  cases a; cases b; cases h; rfl

theorem Num.lt_def (a b : Num) : a < b ↔ a.val < b.val := Iff.rfl

theorem Num.le_def (a b : Num) : a ≤ b ↔ a.val ≤ b.val := Iff.rfl

/-- A finite double converts to itself. -/
theorem toDouble_val (x : Num) : toDouble x.val = JsNumber.fin x := by
  have h : IsDouble (roundDouble x.val) := by rw [x.isDouble.1]; exact x.isDouble
  unfold toDouble
  rw [dif_pos h]
  congr 1
  exact Num.ext x.isDouble.1

theorem toDouble_of_isDouble (q : Rat) (h : IsDouble q) : toDouble q = JsNumber.fin ⟨q, h⟩ :=
  toDouble_val ⟨q, h⟩

/-- The conversion gives an infinity exactly when the rounded value is not
below `2^1024` in magnitude. -/
theorem toDouble_cases (q : Rat) :
    (∃ x : Num, toDouble q = JsNumber.fin x ∧ x.val = roundDouble q) ∨
    (toDouble q = JsNumber.inf (decide (q < 0)) ∧ (2 : Rat) ^ 1024 ≤ |roundDouble q|) := by
  unfold toDouble
  by_cases h : IsDouble (roundDouble q)
  · left; rw [dif_pos h]; exact ⟨_, rfl, rfl⟩
  · right; rw [dif_neg h]
    refine ⟨rfl, ?_⟩
    by_contra hlt
    exact h ((isDouble_iff _).2 ⟨roundDouble_idem q, not_le.mp hlt⟩)

/-- `x + 1` is finite for every finite `x`. -/
theorem toDouble_succ (x : Num) :
    ∃ y : Num, toDouble (x.val + 1) = JsNumber.fin y ∧ y.val = roundDouble (x.val + 1) := by
  have h := isDouble_round_succ x.val x.isDouble
  refine ⟨⟨roundDouble (x.val + 1), h⟩, ?_, rfl⟩
  unfold toDouble
  rw [dif_pos h]

theorem Num.succ_val (x : Num) : (Num.succ x).val = roundDouble (x.val + 1) := by
  obtain ⟨y, hy, hv⟩ := toDouble_succ x
  unfold Num.succ
  rw [hy]
  exact hv

/-- The integers from `0` to `2^53` are doubles. -/
theorem isDouble_natCast (n : Nat) (h : n ≤ 2 ^ 53) : IsDouble (n : Rat) := by
  rw [isDouble_iff]
  constructor
  · by_cases h0 : n = 0
    · subst h0; simp [roundDouble_zero]
    · have := roundDouble_exact n 0 (by omega) h (by norm_num)
      simpa using this
  · have h1 : (n : Rat) ≤ ((2 ^ 53 : Nat) : Rat) := by exact_mod_cast h
    rw [abs_of_nonneg (Nat.cast_nonneg n)]
    refine lt_of_le_of_lt h1 ?_
    norm_num

/-- Below `2^53` the increment of an integer is exact. -/
theorem Num.succ_natCast (x : Num) (k : Nat) (hx : x.val = (k : Rat)) (hk : k < 2 ^ 53) :
    (Num.succ x).val = ((k + 1 : Nat) : Rat) := by
  rw [Num.succ_val, hx]
  have := (isDouble_natCast (k + 1) (by omega)).1
  push_cast at this ⊢
  exact this

theorem Num.ofNat_val (n : Nat) (h : n ≤ 2 ^ 53) : (Num.ofNat n).val = (n : Rat) := by
  unfold Num.ofNat
  rw [toDouble_of_isDouble _ (isDouble_natCast n h)]

theorem Num.zero_val : (0 : Num).val = 0 := by
  show (Num.ofNat 0).val = 0
  rw [Num.ofNat_val 0 (by norm_num)]; simp

theorem Num.one_val : (1 : Num).val = 1 := by
  show (Num.ofNat 1).val = 1
  rw [Num.ofNat_val 1 (by norm_num)]; simp

theorem Num.max_val (a b : Num) : (Num.max a b).val = Max.max a.val b.val := by
  unfold Num.max
  split
  · rename_i h; rw [max_eq_right (le_of_lt h)]
  · rename_i h; rw [max_eq_left (not_lt.mp h)]

/-! ## Lookup after add -/

theorem find_none_of_lt (ts : List Task) (n : Num) (h : ∀ t ∈ ts, t.id < n) :
    ts.find? (fun t => t.id.val == n.val) = none := by
  rw [List.find?_eq_none]
  intro t ht
  have := (Num.lt_def _ _).1 (h t ht)
  simp
  exact ne_of_lt this

/-- C1: in a state whose counter exceeds every task id, adding a title with a
non-blank trim and then looking up the id the counter held before the call
finds a task that is not done and whose title is the trimmed title. -/
theorem C1_add_then_find (s : State) (title : Str)
    (hinv : ∀ t ∈ s.tasks, t.id < s.nextId) (htitle : trim title ≠ []) :
    findTaskById s.nextId (addTask title s)
      = some { id := s.nextId, title := trim title, done := false } := by
  simp [findTaskById, addTask, htitle, print, save, List.find?_append, find_none_of_lt _ _ hinv]

theorem C1_add_then_find_witness :
    findTaskById (3 : Num) (addTask "  buy milk ".toList
        { tasks := [⟨1, "a".toList, true⟩, ⟨2, "b".toList, false⟩], nextId := 3,
          slot := none, output := [] })
      = some { id := 3, title := "buy milk".toList, done := false } :=
  C1_add_then_find
    { tasks := [⟨1, "a".toList, true⟩, ⟨2, "b".toList, false⟩], nextId := 3,
      slot := none, output := [] }
    "  buy milk ".toList (by decide!) (by decide!)

/-! ## Persistence -/

theorem asTask_taskJson (t : Task) : asTask (taskJson t) = some t := by
  simp [asTask, taskJson, List.lookup, toDouble_val]

theorem asTasks_map_taskJson (ts : List Task) : asTasks (ts.map taskJson) = some ts := by
  induction ts with
  | nil => rfl
  | cons t ts ih => simp [asTasks, asTask_taskJson, ih]

/-- C4: loading what `save` wrote for a state gives back the tasks and the
counter of that state, whatever the variables held when `load` started. -/
theorem C4_save_then_load (s s0 : State) :
    load { s0 with slot := (save s).slot }
      = some { s0 with tasks := s.tasks, nextId := s.nextId, slot := (save s).slot } := by
  simp [load, save, JSON.stringify, loadTry, JSON.parse, stateJson, getProp, List.lookup,
    asTasks_map_taskJson, toDouble_val]

theorem toDouble_seven : toDouble 7 = JsNumber.fin 7 := by decide!

theorem succ_zero : Num.succ 0 = 1 := by decide!

/-- C5, refuted as stated: the payload `\x7b"nextId": 7\x7d` does not have the
persisted layout, and `load` at boot keeps its counter `7` instead of
yielding the empty initial state. -/
theorem C5_counterexample :
    ¬ WellFormedPayload (Text.json (Json.obj [("nextId".toList, Json.num 7)])) ∧
    load (initial (some (Text.json (Json.obj [("nextId".toList, Json.num 7)])))) =
      some { tasks := [], nextId := 7,
             slot := some (Text.json (Json.obj [("nextId".toList, Json.num 7)])), output := [] } ∧
    (7 : Rat) ≠ 1 := by
  refine ⟨?_, ?_, by norm_num⟩
  · rintro ⟨ts, n, h⟩
    simp [JSON.stringify] at h
  · simp [load, initial, loadTry, JSON.parse, getProp, List.lookup, toDouble_seven]

/-- C5, amended: for a payload that `JSON.parse` rejects or reads as `null`,
and, when the task list in memory is empty as at boot, for a payload with
neither an array `tasks` nor a number `nextId`, `load` returns normally with
`tasks = []` and `nextId = 1`. -/
theorem C5_unreadable_payload_resets (s0 : State) (raw : Text) (h : ResetsOnLoad s0 raw) :
    load { s0 with slot := some raw }
      = some { s0 with tasks := [], nextId := 1, slot := some raw } := by
  rcases h with h | h | ⟨hts, v, hv, hnull, htasks, hnext⟩
  · subst h
    simp [load, loadTry, JSON.parse]
  · subst h
    simp [load, loadTry, JSON.parse, getProp]
  · subst hv
    cases v with
    | null => simp [Json.isNull] at hnull
    | obj fields =>
      simp only [getProp, ne_eq, Except.ok.injEq] at htasks hnext
      simp only [load, loadTry, JSON.parse, getProp]
      cases h1 : fields.lookup "tasks".toList with
      | none =>
        cases h2 : fields.lookup "nextId".toList with
        | none => simp [hts, succ_zero]
        | some n =>
          cases n <;> first | (exact absurd h2 (hnext _)) | simp [hts, succ_zero]
      | some t =>
        cases t <;> first | (exact absurd h1 (htasks _)) |
          (cases h2 : fields.lookup "nextId".toList with
            | none => simp [hts, succ_zero]
            | some n =>
              cases n <;> first | (exact absurd h2 (hnext _)) | simp [hts, succ_zero])
    | bool b => simp [load, loadTry, JSON.parse, getProp, hts, succ_zero]
    | num q => simp [load, loadTry, JSON.parse, getProp, hts, succ_zero]
    | str t => simp [load, loadTry, JSON.parse, getProp, hts, succ_zero]
    | arr items => simp [load, loadTry, JSON.parse, getProp, hts, succ_zero]

theorem C5_unreadable_payload_resets_witness :
    load { (initial none) with slot := some (Text.json (Json.obj [("tasks".toList, Json.num 5)])) }
      = some { tasks := [], nextId := 1,
               slot := some (Text.json (Json.obj [("tasks".toList, Json.num 5)])), output := [] } :=
  C5_unreadable_payload_resets (initial none) (Text.json (Json.obj [("tasks".toList, Json.num 5)]))
    (Or.inr (Or.inr ⟨rfl, Json.obj [("tasks".toList, Json.num 5)], rfl, rfl,
      by simp [getProp, List.lookup], by simp [getProp, List.lookup]⟩))

theorem foldl_max_ge (ts : List Task) (a : Num) :
    a ≤ ts.foldl (fun m t => Num.max m t.id) a ∧
      ∀ u ∈ ts, u.id ≤ ts.foldl (fun m t => Num.max m t.id) a := by
  induction ts generalizing a with
  | nil => exact ⟨le_refl a.val, by simp⟩
  | cons t ts ih =>
    simp only [List.foldl_cons, List.mem_cons, forall_eq_or_imp]
    obtain ⟨h1, h2⟩ := ih (Num.max a t.id)
    rw [Num.le_def, Num.max_val] at h1
    exact ⟨le_trans (le_max_left _ _) h1, le_trans (le_max_right _ _) h1, h2⟩

theorem foldl_max_mem (ts : List Task) (a : Num) :
    ts.foldl (fun m t => Num.max m t.id) a = a ∨
      ∃ t ∈ ts, ts.foldl (fun m t => Num.max m t.id) a = t.id := by
  induction ts generalizing a with
  | nil => simp
  | cons t ts ih =>
    simp only [List.foldl_cons, List.mem_cons]
    rcases ih (Num.max a t.id) with h | ⟨u, hu, h⟩
    · by_cases hlt : a.val < t.id.val
      · right
        refine ⟨t, Or.inl rfl, ?_⟩
        rw [h]; unfold Num.max; rw [if_pos hlt]
      · left
        rw [h]; unfold Num.max; rw [if_neg hlt]
    · right; exact ⟨u, Or.inr hu, h⟩

/-- C6, refuted as stated, at two inputs.  With one task of id `3` and the
counter field `1.5`, a number that is not an integer, `load` keeps `1.5`: it
does not recompute `3 + 1`, and the counter is below the loaded id.  With one
task of id `2^53` and no counter field, the recomputed counter is `2^53`
again, because `2^53 + 1` rounds to `2^53`. -/
theorem C6_counterexample :
    (load (initial (some (Text.json (Json.obj
        [("tasks".toList, Json.arr [taskJson ⟨3, "a".toList, false⟩]),
         ("nextId".toList, Json.num (3 / 2))]))))).map (fun s => (s.tasks, s.nextId.val))
      = some ([⟨3, "a".toList, false⟩], 3 / 2) ∧
    (3 / 2 : Rat) ≠ 3 + 1 ∧ ¬ ((3 : Rat) < 3 / 2) ∧ (3 / 2 : Rat).den ≠ 1 ∧
    (load (initial (some (Text.json (Json.obj
        [("tasks".toList, Json.arr [taskJson ⟨9007199254740992, "a".toList, false⟩])]))))).map
          (fun s => (s.tasks, s.nextId.val))
      = some ([⟨9007199254740992, "a".toList, false⟩], 9007199254740992) := by
  refine ⟨by decide!, by norm_num, by norm_num, by decide!, by decide!⟩

/-- C6, amended: for a payload whose `tasks` field is a non-empty list of
tasks whose ids are positive integers below `2^53` and whose `nextId` field is
absent or is not a number, `load` sets the counter to the largest loaded id
plus one, which exceeds every loaded id. -/
theorem C6_counter_recomputed (s0 : State) (fields : List (Str × Json)) (items : List Json)
    (ts : List Task)
    (htasks : fields.lookup "tasks".toList = some (Json.arr items))
    (hts : asTasks items = some ts) (hne : ts ≠ [])
    (hpos : ∀ t ∈ ts, ∃ k : Nat, t.id.val = (k : Rat) ∧ 0 < k ∧ k < 2 ^ 53)
    (hnext : ∀ q, fields.lookup "nextId".toList ≠ some (Json.num q)) :
    ∃ s1, load { s0 with slot := some (Text.json (Json.obj fields)) } = some s1 ∧
      s1.tasks = ts ∧
      (∃ t ∈ ts, s1.nextId.val = t.id.val + 1 ∧ ∀ u ∈ ts, u.id ≤ t.id) ∧
      ∀ u ∈ ts, u.id < s1.nextId := by
  have hmax : ∃ t ∈ ts, ts.foldl (fun m t => Num.max m t.id) 0 = t.id := by
    rcases foldl_max_mem ts 0 with h | h
    · obtain ⟨t, ht⟩ := List.exists_mem_of_ne_nil ts hne
      have h1 := (foldl_max_ge ts 0).2 t ht
      obtain ⟨k, hk, hk0, _⟩ := hpos t ht
      rw [h, Num.le_def, Num.zero_val, hk] at h1
      have : (0 : Rat) < (k : Rat) := by exact_mod_cast hk0
      exact absurd this (not_lt.mpr h1)
    · exact h
  obtain ⟨t, ht, hfold⟩ := hmax
  obtain ⟨k, hk, _, hk53⟩ := hpos t ht
  have hsucc : (Num.succ t.id).val = t.id.val + 1 := by
    rw [Num.succ_natCast t.id k hk hk53, hk]; push_cast; ring
  have hge : ∀ u ∈ ts, u.id ≤ t.id := by
    intro u hu
    rw [← hfold]
    exact (foldl_max_ge ts 0).2 u hu
  refine ⟨{ s0 with tasks := ts, nextId := Num.succ (ts.foldl (fun m t => Num.max m t.id) 0),
                    slot := some (Text.json (Json.obj fields)) }, ?_, rfl, ?_, ?_⟩
  · simp only [load, loadTry, JSON.parse, getProp, htasks, hts]
  · exact ⟨t, ht, by simp only [hfold, hsucc], hge⟩
  · intro u hu
    have := (Num.le_def _ _).1 (hge u hu)
    rw [Num.lt_def]
    simp only [hfold, hsucc]
    linarith

theorem C6_counter_recomputed_witness :
    ∃ s1, load { (initial none) with slot := some (Text.json (Json.obj
          [("tasks".toList, Json.arr [taskJson ⟨3, "a".toList, false⟩]),
           ("nextId".toList, Json.str "4".toList)])) } = some s1 ∧
      s1.tasks = [⟨3, "a".toList, false⟩] ∧
      (∃ t ∈ [(⟨3, "a".toList, false⟩ : Task)], s1.nextId.val = t.id.val + 1 ∧
        ∀ u ∈ [(⟨3, "a".toList, false⟩ : Task)], u.id ≤ t.id) ∧
      ∀ u ∈ [(⟨3, "a".toList, false⟩ : Task)], u.id < s1.nextId :=
  C6_counter_recomputed (initial none)
    [("tasks".toList, Json.arr [taskJson ⟨3, "a".toList, false⟩]),
     ("nextId".toList, Json.str "4".toList)]
    [taskJson ⟨3, "a".toList, false⟩] [⟨3, "a".toList, false⟩]
    (by simp [List.lookup]) (by simp [asTasks, asTask_taskJson]) (by simp)
    (by
      intro t ht
      simp only [List.mem_singleton] at ht
      subst ht
      exact ⟨3, by decide!, by norm_num, by norm_num⟩)
    (by intro q; simp [List.lookup])

/-- C7: with no data in the slot (the key is absent, or holds the empty
string), `load` run on the variables as the module initialises them, which is
how `boot` runs it, ends with `tasks = []` and `nextId = 1`. -/
theorem C7_load_without_data :
    load (initial none) = some (initial none) ∧
    (initial none).tasks = [] ∧ (initial none).nextId = 1 ∧
    load (initial (some Text.empty)) = some (initial (some Text.empty)) ∧
    (boot (initial none)).map (fun s => (s.tasks, s.nextId)) = some ([], 1) := by
  refine ⟨rfl, rfl, rfl, rfl, ?_⟩
  simp [boot, load, initial, printInfo, print]

/-! ## White space and trimming -/

theorem dropWhile_append_of_all {α : Type} (p : α → Bool) (x y : List α) (h : ∀ c ∈ x, p c = true) :
    (x ++ y).dropWhile p = y.dropWhile p := by
  induction x with
  | nil => rfl
  | cons c x ih =>
    have hc : p c = true := h c (List.mem_cons_self _ _)
    simp only [List.cons_append, List.dropWhile_cons, hc, if_true]
    exact ih (fun d hd => h d (List.mem_cons_of_mem _ hd))

theorem dropWhile_append_of_ne {α : Type} (p : α → Bool) (x y : List α) (h : x.dropWhile p ≠ []) :
    (x ++ y).dropWhile p = x.dropWhile p ++ y := by
  induction x with
  | nil => simp at h
  | cons c x ih =>
    by_cases hc : p c = true
    · simp only [List.cons_append, List.dropWhile_cons, hc, if_true] at h ⊢
      exact ih h
    · simp [List.dropWhile_cons, hc]

theorem takeWhile_append_of_all {α : Type} (p : α → Bool) (x y : List α) (h : ∀ c ∈ x, p c = true) :
    (x ++ y).takeWhile p = x ++ y.takeWhile p := by
  induction x with
  | nil => rfl
  | cons c x ih =>
    have hc : p c = true := h c (List.mem_cons_self _ _)
    simp only [List.cons_append, List.takeWhile_cons, hc, if_true]
    rw [ih (fun d hd => h d (List.mem_cons_of_mem _ hd))]

theorem trimStart_append_ws (w r : Str) (h : ∀ c ∈ w, isWhiteSpace c = true) :
    trimStart (w ++ r) = trimStart r :=
  dropWhile_append_of_all _ _ _ h

theorem trimStart_cons (c : Char) (r : Str) (h : isWhiteSpace c = false) :
    trimStart (c :: r) = c :: r := by
  simp [trimStart, List.dropWhile_cons, h]

theorem trimEnd_eq_nil_iff (s : Str) : trimEnd s = [] ↔ ∀ c ∈ s, isWhiteSpace c = true := by
  simp [trimEnd]

theorem trimEnd_append_of_ne (a b : Str) (h : trimEnd b ≠ []) :
    trimEnd (a ++ b) = a ++ trimEnd b := by
  unfold trimEnd at *
  rw [List.reverse_append, dropWhile_append_of_ne _ _ _ (by simpa using h)]
  simp

theorem trimEnd_append_ws (a w : Str) (h : ∀ c ∈ w, isWhiteSpace c = true) :
    trimEnd (a ++ w) = trimEnd a := by
  unfold trimEnd
  rw [List.reverse_append, dropWhile_append_of_all _ _ _ (by simpa using h)]

theorem trimEnd_concat_non (a : Str) (c : Char) (h : isWhiteSpace c = false) :
    trimEnd (a ++ [c]) = a ++ [c] := by
  simp [trimEnd, List.dropWhile_cons, h]

/-- A string that ends in a non-space character absorbs `trimEnd` of what follows. -/
theorem trimEnd_append_of_last (a : Str) (c : Char) (b : Str) (h : isWhiteSpace c = false) :
    trimEnd (a ++ c :: b) = a ++ c :: trimEnd b := by
  by_cases hb : trimEnd b = []
  · have hall := (trimEnd_eq_nil_iff b).1 hb
    have : a ++ c :: b = (a ++ [c]) ++ b := by simp
    rw [this, trimEnd_append_ws _ _ hall, trimEnd_concat_non _ _ h, hb]
  · have : a ++ c :: b = (a ++ [c]) ++ b := by simp
    rw [this, trimEnd_append_of_ne _ _ hb]
    simp

theorem trimEnd_is_prefix (s : Str) : ∃ w, s = trimEnd s ++ w ∧ ∀ c ∈ w, isWhiteSpace c = true := by
  induction s using List.reverseRecOn with
  | nil => exact ⟨[], rfl, by simp⟩
  | append_singleton a c ih =>
    by_cases hc : isWhiteSpace c = true
    · obtain ⟨w, hw, hall⟩ := ih
      refine ⟨w ++ [c], ?_, ?_⟩
      · rw [trimEnd_append_ws a [c] (by simpa using hc), ← List.append_assoc, ← hw]
      · intro d hd
        rcases List.mem_append.1 hd with hd | hd
        · exact hall d hd
        · simp at hd; rw [hd]; exact hc
    · refine ⟨[], ?_, by simp⟩
      rw [trimEnd_concat_non a c (by simpa using hc)]
      simp

/-- The head of `trimEnd r` is the head of `r`: empty, or white when `r` starts white. -/
theorem trimEnd_head_ws (r : Str) (h : ∀ c ∈ r.head?, isWhiteSpace c = true) :
    ∀ c ∈ (trimEnd r).head?, isWhiteSpace c = true := by
  obtain ⟨w, hw, _⟩ := trimEnd_is_prefix r
  intro c hc
  apply h
  rw [hw]
  cases ht : trimEnd r with
  | nil => rw [ht] at hc; simp at hc
  | cons d t => rw [ht] at hc; simpa using hc

theorem trim_ne_nil_iff (s : Str) : trim s ≠ [] ↔ ∃ c ∈ s, isWhiteSpace c = false := by
  unfold trim
  rw [Ne, trimEnd_eq_nil_iff]
  constructor
  · intro h
    push_neg at h
    obtain ⟨c, hc, hws⟩ := h
    exact ⟨c, (List.dropWhile_suffix _).subset hc, by simpa using hws⟩
  · rintro ⟨c, hc, hws⟩ hall
    have hsplit : s = s.takeWhile isWhiteSpace ++ trimStart s := (List.takeWhile_append_dropWhile _ _).symm
    rw [hsplit] at hc
    rcases List.mem_append.1 hc with h | h
    · have := List.mem_takeWhile_imp h
      rw [hws] at this
      exact absurd this (by simp)
    · have := hall c h
      rw [hws] at this
      exact absurd this (by simp)

/-- A string of the form blanks, a non-space character, anything: its trim. -/
theorem trim_shape (lead : Str) (c : Char) (r : Str) (hlead : ∀ d ∈ lead, isWhiteSpace d = true)
    (hc : isWhiteSpace c = false) : trim (lead ++ c :: r) = c :: trimEnd r := by
  unfold trim
  rw [trimStart_append_ws _ _ hlead, trimStart_cons _ _ hc]
  exact trimEnd_append_of_last [] c r hc

theorem trim_cases (s : Str) :
    trim s = [] ∨ ∃ c r, isWhiteSpace c = false ∧ trim s = c :: trimEnd r ∧
      ∃ lead, s = lead ++ c :: r ∧ ∀ d ∈ lead, isWhiteSpace d = true := by
  have hsplit : s = s.takeWhile isWhiteSpace ++ s.dropWhile isWhiteSpace :=
    (List.takeWhile_append_dropWhile _ _).symm
  cases hd : s.dropWhile isWhiteSpace with
  | nil => left; simp [trim, trimStart, hd, trimEnd]
  | cons c r =>
    right
    have hc : isWhiteSpace c = false := by
      have := List.head_dropWhile_not isWhiteSpace s (by rw [hd]; simp)
      simpa [hd] using this
    have hlead : ∀ d ∈ s.takeWhile isWhiteSpace, isWhiteSpace d = true :=
      fun d hd => List.mem_takeWhile_imp hd
    refine ⟨c, r, hc, ?_, s.takeWhile isWhiteSpace, by rw [← hd]; exact hsplit, hlead⟩
    rw [hsplit, hd]
    exact trim_shape _ c r hlead hc

theorem trimEnd_idem (s : Str) : trimEnd (trimEnd s) = trimEnd s :=
  List.rdropWhile_idempotent isWhiteSpace s

theorem trim_idem (s : Str) : trim (trim s) = trim s := by
  rcases trim_cases s with h | ⟨c, r, hc, h, _⟩
  · rw [h]; rfl
  · rw [h]
    have := trim_shape [] c (trimEnd r) (by simp) hc
    simp only [List.nil_append] at this
    rw [this, trimEnd_idem]

theorem trimStart_trimEnd (s : Str) : trimStart (trimEnd s) = trim s := by
  rcases trim_cases s with h | ⟨c, r, hc, h, lead, hs, hlead⟩
  · have h' := h
    unfold trim at h'
    rw [trimEnd_eq_nil_iff] at h'
    have hall : ∀ c ∈ s, isWhiteSpace c = true := by
      intro c hc
      have hsplit : s = s.takeWhile isWhiteSpace ++ trimStart s := (List.takeWhile_append_dropWhile _ _).symm
      rw [hsplit] at hc
      rcases List.mem_append.1 hc with h1 | h1
      · exact List.mem_takeWhile_imp h1
      · exact h' c h1
    rw [h, (trimEnd_eq_nil_iff s).2 hall]; rfl
  · rw [h, hs, trimEnd_append_of_last lead c r hc, trimStart_append_ws _ _ hlead, trimStart_cons _ _ hc]

/-! ## What each operation does to the variables -/

@[simp] theorem print_tasks (h : Str) (s : State) : (print h s).tasks = s.tasks := rfl
@[simp] theorem print_nextId (h : Str) (s : State) : (print h s).nextId = s.nextId := rfl
@[simp] theorem print_slot (h : Str) (s : State) : (print h s).slot = s.slot := rfl
@[simp] theorem print_output (h : Str) (s : State) : (print h s).output = s.output ++ [h] := rfl
@[simp] theorem printError_tasks (h : Str) (s : State) : (printError h s).tasks = s.tasks := rfl
@[simp] theorem printError_nextId (h : Str) (s : State) : (printError h s).nextId = s.nextId := rfl
@[simp] theorem printError_slot (h : Str) (s : State) : (printError h s).slot = s.slot := rfl
@[simp] theorem printError_output (h : Str) (s : State) :
    (printError h s).output = s.output ++ [errorLine h] := rfl
@[simp] theorem save_tasks (s : State) : (save s).tasks = s.tasks := rfl
@[simp] theorem save_nextId (s : State) : (save s).nextId = s.nextId := rfl
@[simp] theorem save_output (s : State) : (save s).output = s.output := rfl
@[simp] theorem showHelp_tasks (s : State) : (showHelp s).tasks = s.tasks := rfl
@[simp] theorem showHelp_nextId (s : State) : (showHelp s).nextId = s.nextId := rfl
@[simp] theorem showHelp_slot (s : State) : (showHelp s).slot = s.slot := rfl

@[simp] theorem renderTasks_tasks (s : State) : (renderTasks s).tasks = s.tasks := by
  unfold renderTasks; split <;> rfl
@[simp] theorem renderTasks_nextId (s : State) : (renderTasks s).nextId = s.nextId := by
  unfold renderTasks; split <;> rfl
@[simp] theorem renderTasks_slot (s : State) : (renderTasks s).slot = s.slot := by
  unfold renderTasks; split <;> rfl

/-- The two outcomes of `requireId`: an error line and nothing else, or the
first task with the id `Number(arg)`, the state being untouched. -/
theorem requireId_cases (arg : Option Str) (s : State) :
    (∃ txt, requireId arg s = (none, printError txt s)) ∨
    (∃ x task, Number arg = JsNumber.fin x ∧ x.val.den = 1 ∧ 0 < x.val ∧
      findTaskById x.val s = some task ∧ requireId arg s = (some task, s)) := by
  unfold requireId
  cases hN : Number arg with
  | nan => exact Or.inl ⟨_, rfl⟩
  | inf b => exact Or.inl ⟨_, rfl⟩
  | fin q =>
    simp only
    by_cases hq : (!(JsNumber.fin q).isInteger || decide (q.val ≤ 0)) = true
    · rw [if_pos hq]; exact Or.inl ⟨_, rfl⟩
    · rw [if_neg hq]
      cases hf : findTaskById q.val s with
      | none => exact Or.inl ⟨_, rfl⟩
      | some task =>
        right
        simp [JsNumber.isInteger] at hq
        exact ⟨q, task, rfl, hq.1, hq.2, hf, rfl⟩

theorem findTaskById_some {q : Rat} {s : State} {task : Task} (h : findTaskById q s = some task) :
    task ∈ s.tasks ∧ task.id.val = q := by
  unfold findTaskById at h
  have h1 := List.mem_of_find?_eq_some h
  have h2 := List.find?_some h
  exact ⟨h1, by simpa using h2⟩

theorem updateTask_map_id (task : Task) (f : Task → Task) (hf : ∀ t, (f t).id = t.id)
    (ts : List Task) : (updateTask task f ts).map Task.id = ts.map Task.id := by
  induction ts with
  | nil => rfl
  | cons t ts ih =>
    unfold updateTask
    split
    · simp [hf]
    · simp [ih]

theorem mem_updateTask (task : Task) (f : Task → Task) (ts : List Task) (u : Task)
    (hu : u ∈ updateTask task f ts) : u ∈ ts ∨ ∃ t ∈ ts, u = f t := by
  induction ts with
  | nil => simp [updateTask] at hu
  | cons t ts ih =>
    unfold updateTask at hu
    split at hu
    · rcases List.mem_cons.1 hu with h | h
      · exact Or.inr ⟨t, List.mem_cons_self _ _, h⟩
      · exact Or.inl (List.mem_cons_of_mem _ h)
    · rcases List.mem_cons.1 hu with h | h
      · exact Or.inl (h ▸ List.mem_cons_self _ _)
      · rcases ih h with h' | ⟨t', ht', h'⟩
        · exact Or.inl (List.mem_cons_of_mem _ h')
        · exact Or.inr ⟨t', List.mem_cons_of_mem _ ht', h'⟩

/-! ## The invariants -/

theorem Invariant_of_eq {s s' : State} (ht : s'.tasks = s.tasks) (hn : s'.nextId = s.nextId)
    (h : Invariant s) : Invariant s' := by
  unfold Invariant UniqueIds CounterAbove TitlesNonBlank at *
  rw [ht, hn]; exact h

theorem Num.lt_succ (x : Num) (k : Nat) (hx : x.val = (k : Rat)) (hk : k < 2 ^ 53) :
    x < Num.succ x := by
  rw [Num.lt_def, Num.succ_natCast x k hx hk, hx]
  exact_mod_cast Nat.lt_succ_self k

theorem Invariant_addTask (title : Str) (s : State) (k : Nat) (h : Invariant s)
    (hk : s.nextId.val = (k : Rat)) (hlt : k < 2 ^ 53) :
    Invariant (addTask title s) := by
  unfold addTask
  by_cases ht : trim title = []
  · simp only [ht, if_true]
    exact Invariant_of_eq rfl rfl h
  · simp only [ht, if_false]
    obtain ⟨h1, h2, h3⟩ := h
    refine ⟨?_, ?_, ?_⟩
    · unfold UniqueIds at *
      simp only [print_tasks, save_tasks, List.map_append, List.map_cons, List.map_nil]
      rw [List.nodup_append]
      refine ⟨h1, List.nodup_singleton _, ?_⟩
      intro a ha hb
      simp only [List.mem_singleton] at hb
      obtain ⟨t, ht1, ht2⟩ := List.mem_map.1 ha
      have := h2 t ht1
      rw [ht2, hb, Num.lt_def] at this
      exact lt_irrefl _ this
    · intro t ht'
      simp only [print_tasks, save_tasks, print_nextId, save_nextId, List.mem_append,
        List.mem_singleton] at ht' ⊢
      have hs := (Num.lt_def _ _).1 (Num.lt_succ s.nextId k hk hlt)
      rcases ht' with h' | h'
      · have := (Num.lt_def _ _).1 (h2 t h')
        rw [Num.lt_def]; linarith
      · rw [h', Num.lt_def]; exact hs
    · intro t ht'
      simp only [print_tasks, save_tasks, List.mem_append, List.mem_singleton] at ht'
      rcases ht' with h' | h'
      · exact h3 t h'
      · rw [h']; simp only; rw [trim_idem]; exact ht

theorem Invariant_setDone (arg : Option Str) (d : Bool) (s : State) (h : Invariant s) :
    Invariant (setDone arg d s) := by
  unfold setDone
  rcases requireId_cases arg s with ⟨txt, hr⟩ | ⟨q, task, _, _, _, hf, hr⟩
  · rw [hr]; exact Invariant_of_eq rfl rfl h
  · rw [hr]
    obtain ⟨h1, h2, h3⟩ := h
    refine ⟨?_, ?_, ?_⟩
    · unfold UniqueIds at *
      simp only [print_tasks, save_tasks]
      rw [updateTask_map_id task (fun t => { t with done := d }) (fun _ => rfl)]; exact h1
    · intro t ht
      simp only [print_tasks, save_tasks, print_nextId, save_nextId] at ht ⊢
      rcases mem_updateTask _ _ _ _ ht with h' | ⟨t', ht', h'⟩
      · exact h2 t h'
      · rw [h']; exact h2 t' ht'
    · intro t ht
      simp only [print_tasks, save_tasks] at ht
      rcases mem_updateTask _ _ _ _ ht with h' | ⟨t', ht', h'⟩
      · exact h3 t h'
      · rw [h']; exact h3 t' ht'

theorem Invariant_editTask (arg : Option Str) (text : Str) (s : State) (h : Invariant s) :
    Invariant (editTask arg text s) := by
  unfold editTask
  rcases requireId_cases arg s with ⟨txt, hr⟩ | ⟨q, task, _, _, _, hf, hr⟩
  · rw [hr]; exact Invariant_of_eq rfl rfl h
  · rw [hr]
    simp only
    by_cases ht : trim text = []
    · simp only [ht, if_true]; exact Invariant_of_eq rfl rfl h
    · simp only [ht, if_false]
      obtain ⟨h1, h2, h3⟩ := h
      refine ⟨?_, ?_, ?_⟩
      · unfold UniqueIds at *
        simp only [print_tasks, save_tasks]
        rw [updateTask_map_id task (fun t => { t with title := trim text }) (fun _ => rfl)]
        exact h1
      · intro t ht
        simp only [print_tasks, save_tasks, print_nextId, save_nextId] at ht ⊢
        rcases mem_updateTask _ _ _ _ ht with h' | ⟨t', ht', h'⟩
        · exact h2 t h'
        · rw [h']; exact h2 t' ht'
      · intro t ht'
        simp only [print_tasks, save_tasks] at ht'
        rcases mem_updateTask _ _ _ _ ht' with h' | ⟨t', _, h'⟩
        · exact h3 t h'
        · rw [h']; simp only; rw [trim_idem]; exact ht

theorem Invariant_removeTask (arg : Option Str) (s : State) (h : Invariant s) :
    Invariant (removeTask arg s) := by
  unfold removeTask
  rcases requireId_cases arg s with ⟨txt, hr⟩ | ⟨q, task, _, _, _, hf, hr⟩
  · rw [hr]; exact Invariant_of_eq rfl rfl h
  · rw [hr]
    obtain ⟨h1, h2, h3⟩ := h
    refine ⟨?_, ?_, ?_⟩
    · unfold UniqueIds at *
      simp only [print_tasks, save_tasks]
      exact List.Nodup.sublist (List.Sublist.map _ (List.filter_sublist _)) h1
    · intro t ht
      simp only [print_tasks, save_tasks, print_nextId, save_nextId] at ht ⊢
      exact h2 t (List.mem_of_mem_filter ht)
    · intro t ht
      simp only [print_tasks, save_tasks] at ht
      exact h3 t (List.mem_of_mem_filter ht)

theorem Invariant_clearTasks (s : State) : Invariant (clearTasks s) := by
  unfold clearTasks Invariant UniqueIds CounterAbove TitlesNonBlank
  simp

theorem Invariant_initial (slot : Option Text) : Invariant (initial slot) := by
  unfold initial Invariant UniqueIds CounterAbove TitlesNonBlank
  simp

/-- C3, refuted as stated: with the counter at `2^53` the invariants hold, and
after `add a` they do not.  The new task gets the id `2^53`, and the counter,
incremented in double arithmetic, is `2^53` again: it is not above that id. -/
theorem C3_counterexample :
    Invariant counterAtLimit ∧
    (handle "add a".toList counterAtLimit).tasks = [⟨9007199254740992, "a".toList, false⟩] ∧
    (handle "add a".toList counterAtLimit).nextId = 9007199254740992 ∧
    ¬ CounterAbove (handle "add a".toList counterAtLimit) ∧
    ¬ Invariant (handle "add a".toList counterAtLimit) := by
  have h1 : (handle "add a".toList counterAtLimit).tasks
      = [⟨9007199254740992, "a".toList, false⟩] := by decide!
  have h2 : (handle "add a".toList counterAtLimit).nextId = 9007199254740992 := by decide!
  have h3 : ¬ CounterAbove (handle "add a".toList counterAtLimit) := by
    intro h
    have := h ⟨9007199254740992, "a".toList, false⟩ (by rw [h1]; exact List.mem_singleton.2 rfl)
    rw [h2, Num.lt_def] at this
    exact lt_irrefl _ this
  refine ⟨⟨?_, ?_, ?_⟩, h1, h2, h3, fun h => h3 h.2.1⟩
  · unfold UniqueIds counterAtLimit; simp
  · unfold CounterAbove counterAtLimit; simp
  · unfold TitlesNonBlank counterAtLimit; simp

/-- C3, amended: while the counter is an integer below `2^53`, the conjunction
of the three invariants (distinct ids, counter above every id, no blank title)
holds after `handle` of any line whenever it held before; and it holds in the
empty initial state. -/
theorem C3_handle_preserves_invariant (s : State) (line : Str) (k : Nat) (h : Invariant s)
    (hk : s.nextId.val = (k : Rat)) (hlt : k < 2 ^ 53) :
    Invariant (handle line s) ∧ ∀ slot, Invariant (initial slot) := by
  refine ⟨?_, Invariant_initial⟩
  unfold handle
  simp only
  split_ifs
  · exact h
  · exact Invariant_of_eq rfl rfl h
  · exact Invariant_addTask _ _ k h hk hlt
  · exact Invariant_of_eq (renderTasks_tasks s) (renderTasks_nextId s) h
  · exact Invariant_setDone _ _ _ h
  · exact Invariant_setDone _ _ _ h
  · exact Invariant_of_eq rfl rfl h
  · exact Invariant_editTask _ _ _ h
  · exact Invariant_removeTask _ _ h
  · exact Invariant_clearTasks _
  · exact Invariant_of_eq rfl rfl h

theorem C3_handle_preserves_invariant_witness :
    Invariant (handle "add feed the cat".toList
      { tasks := [⟨1, "a".toList, true⟩, ⟨2, "b".toList, false⟩], nextId := 3,
        slot := none, output := [] }) ∧ ∀ slot, Invariant (initial slot) :=
  C3_handle_preserves_invariant
    { tasks := [⟨1, "a".toList, true⟩, ⟨2, "b".toList, false⟩], nextId := 3,
      slot := none, output := [] }
    "add feed the cat".toList 3
    ⟨by unfold UniqueIds; decide!, by unfold CounterAbove; decide!,
      by unfold TitlesNonBlank; decide!⟩
    (by decide!) (by norm_num)

/-! ## Sequences of adds and removes -/

theorem assigned_add (title : Str) (s : State) :
    (StoreOp.add title).assigned s = if trim title = [] then [] else [s.nextId] := by
  simp only [StoreOp.assigned, StoreOp.apply, addTask]
  by_cases ht : trim title = []
  · simp [ht]
  · simp [ht]

theorem CounterAbove_apply (op : StoreOp) (s : State) (k : Nat) (h : CounterAbove s)
    (hk : s.nextId.val = (k : Rat)) (hlt : k < 2 ^ 53) :
    CounterAbove (op.apply s) ∧
      (∃ j : Nat, (op.apply s).nextId.val = (j : Rat) ∧ k ≤ j ∧ j ≤ k + 1) ∧
      ∀ i ∈ op.assigned s, s.nextId ≤ i ∧ i < (op.apply s).nextId := by
  cases op with
  | add title =>
    rw [assigned_add]
    simp only [StoreOp.apply, addTask]
    by_cases ht : trim title = []
    · simp only [ht, if_true]
      exact ⟨h, ⟨k, hk, le_refl _, Nat.le_succ _⟩, by simp⟩
    · simp only [ht, if_false]
      have hs := Num.lt_succ s.nextId k hk hlt
      refine ⟨?_, ⟨k + 1, ?_, Nat.le_succ _, le_refl _⟩, ?_⟩
      · intro t ht'
        simp only [print_tasks, save_tasks, print_nextId, save_nextId, List.mem_append,
          List.mem_singleton] at ht' ⊢
        rcases ht' with h' | h'
        · have := (Num.lt_def _ _).1 (h t h')
          have := (Num.lt_def _ _).1 hs
          rw [Num.lt_def]; linarith
        · rw [h']; exact hs
      · simp only [print_nextId, save_nextId]
        exact Num.succ_natCast s.nextId k hk hlt
      · intro i hi
        simp only [List.mem_singleton] at hi
        subst hi
        exact ⟨le_refl s.nextId.val, hs⟩
  | remove arg =>
    simp only [StoreOp.apply, StoreOp.assigned, removeTask]
    rcases requireId_cases arg s with ⟨txt, hr⟩ | ⟨q, task, _, _, _, hf, hr⟩
    · rw [hr]; exact ⟨h, ⟨k, hk, le_refl _, Nat.le_succ _⟩, by simp⟩
    · rw [hr]
      refine ⟨?_, ⟨k, hk, le_refl _, Nat.le_succ _⟩, by simp⟩
      intro t ht
      simp only [print_tasks, save_tasks, print_nextId, save_nextId] at ht ⊢
      exact h t (List.mem_of_mem_filter ht)

theorem CounterAbove_runOps (ops : List StoreOp) (s : State) (k : Nat) (h : CounterAbove s)
    (hk : s.nextId.val = (k : Rat)) (hlen : k + ops.length ≤ 2 ^ 53) :
    CounterAbove (runOps ops s) ∧
      ∃ j : Nat, (runOps ops s).nextId.val = (j : Rat) ∧ k ≤ j ∧ j ≤ k + ops.length := by
  induction ops generalizing s k with
  | nil => exact ⟨h, k, hk, le_refl _, le_refl _⟩
  | cons op ops ih =>
    simp only [List.length_cons] at hlen
    obtain ⟨h1, ⟨j, hj, hkj, hjk⟩, _⟩ := CounterAbove_apply op s k h hk (by omega)
    obtain ⟨h2, i, hi, hji, hij⟩ := ih (op.apply s) j h1 hj (by omega)
    exact ⟨h2, i, hi, by omega, by simp only [List.length_cons]; omega⟩

theorem assignedIds_ge (ops : List StoreOp) (s : State) (k : Nat) (h : CounterAbove s)
    (hk : s.nextId.val = (k : Rat)) (hlen : k + ops.length ≤ 2 ^ 53) :
    ∀ i ∈ assignedIds ops s, s.nextId ≤ i := by
  induction ops generalizing s k with
  | nil => simp [assignedIds]
  | cons op ops ih =>
    simp only [List.length_cons] at hlen
    obtain ⟨h1, ⟨j, hj, hkj, hjk⟩, h3⟩ := CounterAbove_apply op s k h hk (by omega)
    intro i hi
    simp only [assignedIds, List.mem_append] at hi
    rcases hi with hi | hi
    · exact (h3 i hi).1
    · have h4 := (Num.le_def _ _).1 (ih (op.apply s) j h1 hj (by omega) i hi)
      rw [Num.le_def, hk]
      rw [hj] at h4
      have : (k : Rat) ≤ (j : Rat) := by exact_mod_cast hkj
      linarith

theorem assigned_pairwise (op : StoreOp) (s : State) : (op.assigned s).Pairwise (· < ·) := by
  cases op with
  | add title => rw [assigned_add]; split <;> simp
  | remove arg => simp [StoreOp.assigned]

/-- C2, refuted as stated: from the empty list with the counter at `2^53`, a
state whose counter exceeds every task id, two adds assign the same id `2^53`.
The assigned ids are not strictly increasing, and the task the first add left
in the list has the id the second add assigns. -/
theorem C2_counterexample :
    CounterAbove counterAtLimit ∧
    assignedIds [StoreOp.add "a".toList, StoreOp.add "b".toList] counterAtLimit
      = [9007199254740992, 9007199254740992] ∧
    ¬ (assignedIds [StoreOp.add "a".toList, StoreOp.add "b".toList] counterAtLimit).Pairwise
        (· < ·) ∧
    (runOps [StoreOp.add "a".toList] counterAtLimit).tasks.map Task.id = [9007199254740992] ∧
    assignedIds [StoreOp.add "b".toList] (runOps [StoreOp.add "a".toList] counterAtLimit)
      = [9007199254740992] := by
  have h : assignedIds [StoreOp.add "a".toList, StoreOp.add "b".toList] counterAtLimit
      = [9007199254740992, 9007199254740992] := by decide!
  refine ⟨?_, h, ?_, by decide!, by decide!⟩
  · unfold CounterAbove counterAtLimit; simp
  · rw [h]
    intro hp
    have := List.rel_of_pairwise_cons hp (List.mem_singleton.2 rfl)
    exact lt_irrefl _ ((Num.lt_def _ _).1 this)

/-- C2, amended: from a state whose counter is an integer `k` and exceeds every
task id, along any sequence of adds and removes that keeps the counter within
`2^53` (`k` plus the number of operations is at most `2^53`), the ids assigned
by the adds are strictly increasing, and at every point of the sequence each
task present has an id strictly below, hence different from, every id assigned
from that point on. -/
theorem C2_ids_increase_never_reused (s : State) (ops : List StoreOp) (k : Nat)
    (h : CounterAbove s) (hk : s.nextId.val = (k : Rat)) (hlen : k + ops.length ≤ 2 ^ 53) :
    (assignedIds ops s).Pairwise (· < ·) ∧
    ∀ pre post, ops = pre ++ post →
      ∀ i ∈ assignedIds post (runOps pre s), ∀ t ∈ (runOps pre s).tasks, t.id < i := by
  constructor
  · induction ops generalizing s k with
    | nil => simp [assignedIds]
    | cons op ops ih =>
      simp only [List.length_cons] at hlen
      obtain ⟨h1, ⟨j, hj, hkj, hjk⟩, h3⟩ := CounterAbove_apply op s k h hk (by omega)
      simp only [assignedIds]
      rw [List.pairwise_append]
      refine ⟨assigned_pairwise op s, ih _ j h1 hj (by omega), ?_⟩
      intro a ha b hb
      have h4 := (Num.lt_def _ _).1 (h3 a ha).2
      have h5 := (Num.le_def _ _).1 (assignedIds_ge ops _ j h1 hj (by omega) b hb)
      rw [Num.lt_def]
      exact lt_of_lt_of_le h4 h5
  · intro pre post hops i hi t ht
    subst hops
    simp only [List.length_append] at hlen
    obtain ⟨hc, j, hj, hkj, hjk⟩ := CounterAbove_runOps pre s k h hk (by omega)
    have h4 := (Num.lt_def _ _).1 (hc t ht)
    have h5 := (Num.le_def _ _).1 (assignedIds_ge post _ j hc hj (by omega) i hi)
    rw [Num.lt_def]
    exact lt_of_lt_of_le h4 h5

theorem C2_ids_increase_never_reused_witness :
    (assignedIds [StoreOp.add "a".toList, StoreOp.add "b".toList,
        StoreOp.remove (some "2".toList), StoreOp.add "c".toList] (initial none)).Pairwise (· < ·) ∧
    ∀ pre post, [StoreOp.add "a".toList, StoreOp.add "b".toList,
        StoreOp.remove (some "2".toList), StoreOp.add "c".toList] = pre ++ post →
      ∀ i ∈ assignedIds post (runOps pre (initial none)),
        ∀ t ∈ (runOps pre (initial none)).tasks, t.id < i :=
  C2_ids_increase_never_reused (initial none) _ 1 (by unfold CounterAbove; decide!)
    (by decide!) (by norm_num)

/-- The run of the witness: three adds around a remove assign `1`, `2`, `3`,
and the removed id `2` is not given out again. -/
theorem assignedIds_example :
    assignedIds [StoreOp.add "a".toList, StoreOp.add "b".toList,
        StoreOp.remove (some "2".toList), StoreOp.add "c".toList] (initial none) = [1, 2, 3] ∧
    (runOps [StoreOp.add "a".toList, StoreOp.add "b".toList,
        StoreOp.remove (some "2".toList), StoreOp.add "c".toList] (initial none)).tasks.map Task.id = [1, 3] := by
  constructor <;> decide!

/-! ## Decimal numerals -/

theorem digitChar_isDigit (d : Nat) (h : d < 10) : (digitChar d).isDigit = true := by
  interval_cases d <;> decide

theorem digitVal_digitChar (d : Nat) (h : d < 10) : digitVal (digitChar d) = d := by
  interval_cases d <;> decide

theorem isDigit_not_ws (c : Char) (h : c.isDigit = true) : isWhiteSpace c = false := by
  simp only [Char.isDigit, Bool.and_eq_true, decide_eq_true_eq] at h
  have h1 : 48 ≤ c.toNat := by
    have := h.1; simpa [UInt32.le_def, Char.toNat] using this
  have h2 : c.toNat ≤ 57 := by
    have := h.2; simpa [UInt32.le_def, Char.toNat] using this
  unfold isWhiteSpace
  simp only [Bool.or_eq_false_iff, beq_eq_false_iff_ne, Bool.and_eq_false_iff, decide_eq_false_iff_not]
  omega


theorem digitsVal_append_singleton (a : Str) (c : Char) :
    digitsVal (a ++ [c]) = 10 * digitsVal a + digitVal c := by
  simp [digitsVal, List.foldl_append]

theorem decDigits_spec (fuel n : Nat) (h : n < fuel) :
    digitsVal (decDigits fuel n) = n ∧ decDigits fuel n ≠ [] ∧
      ∀ c ∈ decDigits fuel n, c.isDigit = true := by
  induction fuel generalizing n with
  | zero => omega
  | succ fuel ih =>
    unfold decDigits
    by_cases hn : n < 10
    · simp only [hn, if_true]
      refine ⟨?_, by simp, ?_⟩
      · simp [digitsVal, digitVal_digitChar n hn]
      · intro c hc
        simp only [List.mem_singleton] at hc
        rw [hc]; exact digitChar_isDigit n hn
    · simp only [hn, if_false]
      have hlt : n / 10 < fuel := by omega
      obtain ⟨h1, h2, h3⟩ := ih (n / 10) hlt
      have hm : n % 10 < 10 := Nat.mod_lt _ (by norm_num)
      refine ⟨?_, by simp, ?_⟩
      · rw [digitsVal_append_singleton, h1, digitVal_digitChar _ hm]; omega
      · intro c hc
        rcases List.mem_append.1 hc with hc | hc
        · exact h3 c hc
        · simp only [List.mem_singleton] at hc
          rw [hc]; exact digitChar_isDigit _ hm

theorem natToStr_spec (n : Nat) :
    digitsVal (natToStr n) = n ∧ natToStr n ≠ [] ∧ ∀ c ∈ natToStr n, c.isDigit = true :=
  decDigits_spec (n + 1) n (Nat.lt_succ_self n)

theorem natToStr_no_ws (n : Nat) : ∀ c ∈ natToStr n, isWhiteSpace c = false :=
  fun c hc => isDigit_not_ws c ((natToStr_spec n).2.2 c hc)

theorem trim_of_no_ws (s : Str) (h : ∀ c ∈ s, isWhiteSpace c = false) : trim s = s := by
  cases s with
  | nil => rfl
  | cons c r =>
    have hc := h c (List.mem_cons_self _ _)
    have := trim_shape [] c r (by simp) hc
    simp only [List.nil_append] at this
    rw [this]
    congr 1
    have hr : ∀ d ∈ r, isWhiteSpace d = false := fun d hd => h d (List.mem_cons_of_mem _ hd)
    clear this h hc
    induction r using List.reverseRecOn with
    | nil => rfl
    | append_singleton a d _ =>
      exact trimEnd_concat_non a d (hr d (by simp))

theorem unsignedDecimal_digits (ds : Str) (hne : ds ≠ []) (h : ∀ c ∈ ds, c.isDigit = true) :
    unsignedDecimal ds = some (digitsVal ds : Rat) := by
  have h1 : ds.takeWhile Char.isDigit = ds := List.takeWhile_eq_self_iff.2 h
  have h2 : ds.dropWhile Char.isDigit = [] := List.dropWhile_eq_nil_iff.2 h
  unfold unsignedDecimal
  simp [h1, h2, hne, pow10_eq]

theorem stringToNumber_digits (ds : Str) (hne : ds ≠ []) (h : ∀ c ∈ ds, c.isDigit = true) :
    stringToNumber ds = toDouble (digitsVal ds : Rat) := by
  have hws : ∀ c ∈ ds, isWhiteSpace c = false := fun c hc => isDigit_not_ws c (h c hc)
  unfold stringToNumber
  simp only [trim_of_no_ws ds hws, hne, if_false]
  have hnd : nonDecimalLiteral ds = none := by
    unfold nonDecimalLiteral
    split
    · rename_i p rest
      have hp : p.isDigit = true := h p (by simp)
      have e1 : p ≠ 'x' := by rintro rfl; simp at hp
      have e2 : p ≠ 'X' := by rintro rfl; simp at hp
      have e3 : p ≠ 'o' := by rintro rfl; simp at hp
      have e4 : p ≠ 'O' := by rintro rfl; simp at hp
      have e5 : p ≠ 'b' := by rintro rfl; simp at hp
      have e6 : p ≠ 'B' := by rintro rfl; simp at hp
      simp [e1, e2, e3, e4, e5, e6]
    · rfl
  rw [hnd]
  simp only
  have hul : unsignedLiteral ds = MathValue.finite (digitsVal ds : Rat) := by
    unfold unsignedLiteral
    have : ds ≠ "Infinity".toList := by
      rintro rfl
      have := h 'I' (by decide)
      simp at this
    rw [if_neg this, unsignedDecimal_digits ds hne h]
  split
  · rename_i r
    have := h '+' (by simp)
    simp at this
  · rename_i r
    have := h '-' (by simp)
    simp at this
  · rw [hul]; simp [MathValue.toNumber]

/-- The number of a decimal numeral is its value rounded to a double. -/
theorem Number_natToStr (n : Nat) : Number (some (natToStr n)) = toDouble (n : Rat) := by
  obtain ⟨h1, h2, h3⟩ := natToStr_spec n
  simp only [Number]
  rw [stringToNumber_digits _ h2 h3, h1]

/-- The numeral of the value of a double that is a natural number reads as
that double. -/
theorem Number_natToStr_of_val (n : Nat) (x : Num) (hx : x.val = (n : Rat)) :
    Number (some (natToStr n)) = JsNumber.fin x := by
  rw [Number_natToStr, ← hx, toDouble_val]

/-- Up to `2^53` every natural number is a double, and its numeral reads as it. -/
theorem Number_natToStr_of_le (n : Nat) (hn : n ≤ 2 ^ 53) :
    Number (some (natToStr n)) = JsNumber.fin (Num.ofNat n) :=
  Number_natToStr_of_val n _ (Num.ofNat_val n hn)

theorem numToString_natCast (x : Num) (n : Nat) (hx : x.val = (n : Rat)) (hn : n ≤ 2 ^ 53) :
    numToString x = natToStr n := by
  unfold numToString
  have h1 : ¬ ((n : Rat) < 0) := not_lt.mpr (Nat.cast_nonneg n)
  have h2 : magnitude (n : Rat) = (n : Rat) := by
    rw [magnitude_eq, abs_of_nonneg (Nat.cast_nonneg n)]
  rw [hx]
  by_cases h0 : n = 0
  · subst h0; simp [natToStr, decDigits, digitChar]
  · have h3 : ¬ ((n : Rat) = 0) := by exact_mod_cast h0
    simp [h1, h2, h3]
    intro h5
    have h4 : n ≤ 9007199254740992 := hn
    omega

theorem notFoundText_natCast (x : Num) (n : Nat) (hx : x.val = (n : Rat)) (hn : n ≤ 2 ^ 53) :
    notFoundText x = "Task ".toList ++ natToStr n ++ " not found.".toList := by
  unfold notFoundText
  rw [numToString_natCast x n hx hn]

/-- The outcome of `requireId` when `Number(arg)` is a positive integer: the
lookup decides between the not-found error and the task. -/
theorem requireId_fin (arg : Option Str) (x : Num) (hN : Number arg = JsNumber.fin x)
    (hden : x.val.den = 1) (hpos : 0 < x.val) (s : State) :
    requireId arg s =
      match findTaskById x.val s with
      | none => (none, printError (notFoundText x) s)
      | some task => (some task, s) := by
  unfold requireId
  rw [hN]
  have hpos2 : ¬ (x.val ≤ 0) := not_le.mpr hpos
  simp only [JsNumber.isInteger, hden, beq_self_eq_true, Bool.not_true, Bool.false_or,
    decide_eq_true_eq, hpos2, if_false]

theorem requireId_natToStr_found (n : Nat) (hn : 0 < n) (s : State) (task : Task)
    (hfind : findTaskById (n : Rat) s = some task) :
    requireId (some (natToStr n)) s = (some task, s) := by
  have hid : task.id.val = (n : Rat) := (findTaskById_some hfind).2
  rw [requireId_fin _ task.id (Number_natToStr_of_val n task.id hid)
    (by rw [hid]; exact Rat.den_natCast n) (by rw [hid]; exact_mod_cast hn), hid, hfind]

/-! ## The parse of a command line -/

theorem splitWs_ne_nil (s : Str) : splitWs s ≠ [] := by
  induction s with
  | nil => simp [splitWs]
  | cons c cs ih =>
    rw [splitWs]
    split
    · split
      · exact ih
      · simp
    · cases splitWs cs <;> simp [consFirst]

theorem splitWs_tok (tok r : Str) (htok : ∀ c ∈ tok, isWhiteSpace c = false) :
    splitWs (tok ++ r) = (tok ++ (splitWs r).headD []) :: (splitWs r).tail := by
  induction tok with
  | nil =>
    cases h : splitWs r with
    | nil => exact absurd h (splitWs_ne_nil r)
    | cons a b => simp [h]
  | cons c tok ih =>
    have hc := htok c (List.mem_cons_self _ _)
    have ih' := ih (fun d hd => htok d (List.mem_cons_of_mem _ hd))
    simp only [List.cons_append]
    rw [splitWs]
    simp only [hc, Bool.false_eq_true, if_false]
    rw [ih']
    simp [consFirst]

theorem splitWs_head_ws (r : Str) (h : ∀ c ∈ r.head?, isWhiteSpace c = true) :
    (splitWs r).headD [] = [] := by
  induction r with
  | nil => simp [splitWs]
  | cons c cs ih =>
    have hc : isWhiteSpace c = true := h c (by simp)
    rw [splitWs]
    simp only [hc, if_true]
    by_cases hs : startsWithSpace cs = true
    · simp only [hs, if_true]
      apply ih
      cases cs with
      | nil => simp
      | cons d ds => intro e he; simp at he; rw [← he]; exact hs
    · simp [hs]

theorem splitWs_ws_then (w : Str) (c : Char) (r : Str) (hne : w ≠ [])
    (hw : ∀ d ∈ w, isWhiteSpace d = true) (hc : isWhiteSpace c = false) :
    splitWs (w ++ c :: r) = [] :: splitWs (c :: r) := by
  induction w with
  | nil => exact absurd rfl hne
  | cons a w ih =>
    have ha := hw a (List.mem_cons_self _ _)
    cases w with
    | nil =>
      simp only [List.cons_append, List.nil_append]
      rw [splitWs]
      simp [ha, hc, startsWithSpace]
    | cons b w' =>
      have hb := hw b (by simp)
      simp only [List.cons_append]
      rw [splitWs]
      simp only [ha, if_true, startsWithSpace, hb]
      exact ih (by simp) (fun d hd => hw d (List.mem_cons_of_mem _ hd))

theorem trimEnd_tok_append (tk r : Str) (htk : ∀ c ∈ tk, isWhiteSpace c = false) :
    trimEnd (tk ++ r) = tk ++ trimEnd r := by
  induction tk using List.reverseRecOn with
  | nil => rfl
  | append_singleton a c _ =>
    have hc := htk c (by simp)
    have : a ++ [c] ++ r = a ++ c :: r := by simp
    rw [this, trimEnd_append_of_last a c r hc]
    simp

theorem trim_tok_shape (lead tok r : Str) (hlead : ∀ d ∈ lead, isWhiteSpace d = true)
    (htok : ∀ c ∈ tok, isWhiteSpace c = false) (hne : tok ≠ []) :
    trim (lead ++ tok ++ r) = tok ++ trimEnd r := by
  cases tok with
  | nil => exact absurd rfl hne
  | cons c tk =>
    have hc := htok c (List.mem_cons_self _ _)
    have : lead ++ c :: tk ++ r = lead ++ c :: (tk ++ r) := by simp
    rw [this, trim_shape lead c (tk ++ r) hlead hc,
      trimEnd_tok_append tk r (fun d hd => htok d (List.mem_cons_of_mem _ hd))]
    simp

theorem startsWith_self_append (tok r : Str) : startsWith (tok ++ r) tok = true := by
  induction tok with
  | nil => cases r <;> simp [startsWith]
  | cons c tok ih => simp [startsWith, ih]

theorem indexOfFrom_shape (lead tok r : Str) (i : Nat) (hlead : ∀ d ∈ lead, isWhiteSpace d = true)
    (htok : ∀ c ∈ tok, isWhiteSpace c = false) (hne : tok ≠ []) :
    indexOfFrom (lead ++ tok ++ r) tok i = ((i + lead.length : Nat) : Int) := by
  induction lead generalizing i with
  | nil =>
    cases tok with
    | nil => exact absurd rfl hne
    | cons c tk =>
      have := startsWith_self_append (c :: tk) r
      simp only [List.cons_append] at this
      simp only [List.nil_append, List.cons_append]
      rw [indexOfFrom, if_pos this]
      simp
  | cons a lead ih =>
    cases tok with
    | nil => exact absurd rfl hne
    | cons c tk =>
      have ha := hlead a (List.mem_cons_self _ _)
      have hc := htok c (List.mem_cons_self _ _)
      have hac : a ≠ c := by rintro rfl; rw [ha] at hc; exact absurd hc (by simp)
      have hbeq : (a == c) = false := by simpa using hac
      have := ih (i + 1) (fun d hd => hlead d (List.mem_cons_of_mem _ hd))
      simp only [List.cons_append, List.append_assoc] at this ⊢
      rw [indexOfFrom, startsWith]
      simp only [hbeq, Bool.false_and, Bool.false_eq_true, if_false]
      rw [this]
      simp only [List.length_cons]
      congr 1
      omega

/-- The parse of a line made of blanks, a command token and a remainder that is
empty or starts with white space. -/
theorem parse_shape (lead tok r : Str) (hlead : ∀ d ∈ lead, isWhiteSpace d = true)
    (htok : ∀ c ∈ tok, isWhiteSpace c = false) (hne : tok ≠ [])
    (hr : ∀ c ∈ r.head?, isWhiteSpace c = true) :
    cmdOf (lead ++ tok ++ r) = tok ∧
    restOf (lead ++ tok ++ r) = (splitWs (trimEnd r)).tail ∧
    tailOf (lead ++ tok ++ r) = trim r := by
  have hsplit : splitWs (trim (lead ++ tok ++ r)) = tok :: (splitWs (trimEnd r)).tail := by
    rw [trim_tok_shape lead tok r hlead htok hne, splitWs_tok tok _ htok,
      splitWs_head_ws _ (trimEnd_head_ws r hr)]
    simp
  have hcmd : cmdOf (lead ++ tok ++ r) = tok := by
    unfold cmdOf; rw [hsplit]; rfl
  refine ⟨hcmd, ?_, ?_⟩
  · unfold restOf; rw [hsplit]; rfl
  · unfold tailOf
    simp only [hcmd]
    unfold indexOf
    rw [indexOfFrom_shape lead tok r 0 hlead htok hne]
    unfold slice
    have hlen : ((lead ++ tok ++ r).length : Int) = lead.length + tok.length + r.length := by
      simp only [List.length_append]; push_cast; ring
    have hnn : ¬ (((0 + lead.length : Nat) : Int) + (tok.length : Int) < 0) := by
      push_neg; positivity
    simp only [hnn, if_false, hlen]
    have hmin : min (((0 + lead.length : Nat) : Int) + (tok.length : Int))
        ((lead.length : Int) + tok.length + r.length) = ((lead.length + tok.length : Nat) : Int) := by
      rw [min_eq_left] <;> push_cast <;> omega
    rw [hmin, Int.toNat_natCast, List.append_assoc, List.drop_append]
    simp

/-! ## Edit -/

theorem toLower_of_ws (c : Char) (h : isWhiteSpace c = true) : c.toLower = c := by
  unfold Char.toLower
  have hn : ¬ (c.toNat ≥ 65 ∧ c.toNat ≤ 90) := by
    rintro ⟨h1', h2'⟩
    unfold isWhiteSpace at h
    simp only [Bool.or_eq_true, beq_iff_eq, Bool.and_eq_true, decide_eq_true_eq] at h
    omega
  simp only [hn, if_false]

theorem no_ws_of_toLowerCase (cmd word : Str) (h : toLowerCase cmd = word)
    (hword : ∀ c ∈ word, isWhiteSpace c = false) : ∀ c ∈ cmd, isWhiteSpace c = false := by
  intro c hc
  by_contra hws
  have hws' : isWhiteSpace c = true := by simpa using hws
  have hmem : c.toLower ∈ word := by
    rw [← h]; exact List.mem_map.2 ⟨c, hc, rfl⟩
  rw [toLower_of_ws c hws'] at hmem
  rw [hword c hmem] at hws'
  exact absurd hws' (by simp)

theorem stripFirstToken_shape (tok r : Str) (htok : ∀ c ∈ tok, isWhiteSpace c = false)
    (hne : tok ≠ []) (hr : ∀ c ∈ r.head?, isWhiteSpace c = true) :
    stripFirstToken (tok ++ r) = if r = [] then tok else trimStart r := by
  have htake : (tok ++ r).takeWhile isNonSpace = tok := by
    rw [takeWhile_append_of_all _ _ _ (by intro c hc; simp [isNonSpace, htok c hc])]
    cases r with
    | nil => simp
    | cons d r' =>
      have hd : isWhiteSpace d = true := hr d (by simp)
      simp [List.takeWhile_cons, isNonSpace, hd]
  have hdrop : (tok ++ r).dropWhile isNonSpace = r := by
    rw [dropWhile_append_of_all _ _ _ (by intro c hc; simp [isNonSpace, htok c hc])]
    cases r with
    | nil => simp
    | cons d r' =>
      have hd : isWhiteSpace d = true := hr d (by simp)
      simp [List.dropWhile_cons, isNonSpace, hd]
  unfold stripFirstToken
  simp only [htake, hdrop]
  cases r with
  | nil => simp
  | cons d r' =>
    have hd : isWhiteSpace d = true := hr d (by simp)
    simp [List.takeWhile_cons, hd, hne, trimStart]

/-- What `handle` does with a line made of blanks, a token that lowercases to
`edit`, white space, an id token, and a remainder that is empty or starts with
white space: the text passed on is the trimmed remainder, or the id token
itself when the remainder is blank. -/
theorem handle_edit_shape (lead cmd ws1 idTok r2 : Str) (s : State)
    (hlead : ∀ d ∈ lead, isWhiteSpace d = true) (hcmd : toLowerCase cmd = "edit".toList)
    (hws1 : ws1 ≠ [] ∧ ∀ d ∈ ws1, isWhiteSpace d = true)
    (hid : idTok ≠ [] ∧ ∀ c ∈ idTok, isWhiteSpace c = false)
    (hr2 : ∀ c ∈ r2.head?, isWhiteSpace c = true) :
    handle (lead ++ cmd ++ (ws1 ++ idTok ++ r2)) s =
      editTask (some idTok) (if trimEnd r2 = [] then idTok else trim r2) s := by
  have hcmdws : ∀ c ∈ cmd, isWhiteSpace c = false :=
    no_ws_of_toLowerCase cmd _ hcmd (by decide)
  have hcne : cmd ≠ [] := by rintro rfl; simp [toLowerCase] at hcmd
  obtain ⟨i0, itk, hi0⟩ : ∃ c tk, idTok = c :: tk := by
    cases idTok with
    | nil => exact absurd rfl hid.1
    | cons c tk => exact ⟨c, tk, rfl⟩
  have hi0ws : isWhiteSpace i0 = false := hid.2 i0 (by rw [hi0]; simp)
  have hrhead : ∀ c ∈ (ws1 ++ idTok ++ r2).head?, isWhiteSpace c = true := by
    cases hw : ws1 with
    | nil => exact absurd hw hws1.1
    | cons a w => intro c hc; simp at hc; rw [← hc]; exact hws1.2 a (by rw [hw]; simp)
  obtain ⟨p1, p2, p3⟩ := parse_shape lead cmd (ws1 ++ idTok ++ r2) hlead hcmdws hcne hrhead
  have htrimEnd : trimEnd (ws1 ++ idTok ++ r2) = ws1 ++ (idTok ++ trimEnd r2) := by
    rw [List.append_assoc, trimEnd_append_of_ne ws1 (idTok ++ r2), trimEnd_tok_append _ _ hid.2]
    rw [trimEnd_tok_append _ _ hid.2]
    simp [hid.1]
  have hrest : restOf (lead ++ cmd ++ (ws1 ++ idTok ++ r2)) =
      idTok :: (splitWs (trimEnd r2)).tail := by
    rw [p2, htrimEnd, hi0, List.cons_append, splitWs_ws_then ws1 i0 _ hws1.1 hws1.2 hi0ws]
    simp only [List.tail_cons]
    have := splitWs_tok (i0 :: itk) (trimEnd r2) (by rw [← hi0]; exact hid.2)
    simp only [List.cons_append] at this
    rw [this, splitWs_head_ws _ (trimEnd_head_ws r2 hr2)]
    simp
  have htail : tailOf (lead ++ cmd ++ (ws1 ++ idTok ++ r2)) = idTok ++ trimEnd r2 := by
    rw [p3]
    exact trim_tok_shape ws1 idTok r2 hws1.2 hid.2 hid.1
  have hstrip : stripFirstToken (idTok ++ trimEnd r2) =
      if trimEnd r2 = [] then idTok else trim r2 := by
    rw [stripFirstToken_shape idTok (trimEnd r2) hid.2 hid.1 (trimEnd_head_ws r2 hr2),
      trimStart_trimEnd]
  unfold handle
  simp only [p1, hrest, htail, hcmd, hstrip]
  simp only [List.head?_cons, List.length_cons]
  have e1 : ¬ ("edit".toList = "".toList) := by decide
  have e2 : ¬ ("edit".toList = "help".toList ∨ "edit".toList = "?".toList) := by decide
  have e3 : ¬ ("edit".toList = "add".toList) := by decide
  have e4 : ¬ ("edit".toList = "list".toList ∨ "edit".toList = "ls".toList) := by decide
  have e5 : ¬ ("edit".toList = "done".toList) := by decide
  have e6 : ¬ ("edit".toList = "undone".toList ∨ "edit".toList = "open".toList) := by decide
  rw [if_neg e1, if_neg e2, if_neg e3, if_neg e4, if_neg e5, if_neg e6, if_pos trivial,
    if_neg (by omega)]

theorem updateTask_of_find (ts : List Task) (q : Rat) (task : Task) (f : Task → Task)
    (h : ts.find? (fun t => t.id.val == q) = some task) :
    ∃ pre post, ts = pre ++ task :: post ∧ (∀ u ∈ pre, u.id.val ≠ q) ∧ task.id.val = q ∧
      updateTask task f ts = pre ++ f task :: post := by
  induction ts with
  | nil => simp at h
  | cons t ts ih =>
    by_cases ht : t.id.val = q
    · have : (t.id.val == q) = true := by simpa using ht
      simp only [List.find?_cons, this] at h
      have htt : t = task := by simpa using h
      subst htt
      exact ⟨[], ts, rfl, by simp, ht, by simp [updateTask]⟩
    · have hb : (t.id.val == q) = false := by simpa using ht
      simp only [List.find?_cons, hb] at h
      obtain ⟨pre, post, h1, h2, h3, h4⟩ := ih h
      refine ⟨t :: pre, post, by simp [h1], ?_, h3, ?_⟩
      · intro u hu
        rcases List.mem_cons.1 hu with hu | hu
        · rw [hu]; exact ht
        · exact h2 u hu
      · have hne : ¬ (t.id = task.id) := by
          intro he
          rw [he, h3] at ht
          exact ht rfl
        rw [updateTask, if_neg hne, h4]
        simp

/-- C8, the behaviour at the failing input: for the one-task list `1. a`, the
line `edit 1` is not rejected; the task is renamed to `1` and a success line is
printed. -/
theorem C8_edit_without_text_renames :
    (handle "edit 1".toList
      { tasks := [⟨1, "a".toList, false⟩], nextId := 2, slot := none, output := [] }).tasks
        = [⟨1, "1".toList, false⟩] ∧
    (handle "edit 1".toList
      { tasks := [⟨1, "a".toList, false⟩], nextId := 2, slot := none, output := [] }).output
        = ["<span class=\"prefix success\">edited</span><span class=\"content\">1. 1</span>".toList] := by
  constructor <;> decide!

/-- C9: for a line made of optional blanks, a token that lowercases to `edit`,
white space, the decimal numeral of a positive id `n`, white space and a text
with a non-space character, and a state in which `findTaskById n` finds `task`:
after `handle` the list is the old one with that task's title replaced by the
text trimmed at both ends, id and done flag kept, every other task and the
order kept, and `nextId` is unchanged. -/
theorem C9_edit_sets_trimmed_title (s : State) (n : Nat) (task : Task)
    (lead cmd ws1 ws2 text : Str) (hn : 0 < n)
    (hfind : findTaskById (n : Rat) s = some task)
    (hlead : ∀ d ∈ lead, isWhiteSpace d = true) (hcmd : toLowerCase cmd = "edit".toList)
    (hws1 : ws1 ≠ [] ∧ ∀ d ∈ ws1, isWhiteSpace d = true)
    (hws2 : ws2 ≠ [] ∧ ∀ d ∈ ws2, isWhiteSpace d = true)
    (htext : ∃ c ∈ text, isWhiteSpace c = false) :
    ∃ pre post, s.tasks = pre ++ task :: post ∧ (∀ u ∈ pre, u.id.val ≠ (n : Rat)) ∧
      (handle (lead ++ cmd ++ (ws1 ++ natToStr n ++ (ws2 ++ text))) s).tasks
        = pre ++ { id := task.id, title := trim text, done := task.done } :: post ∧
      (handle (lead ++ cmd ++ (ws1 ++ natToStr n ++ (ws2 ++ text))) s).nextId = s.nextId := by
  have hr2 : ∀ c ∈ (ws2 ++ text).head?, isWhiteSpace c = true := by
    cases hw : ws2 with
    | nil => exact absurd hw hws2.1
    | cons a w => intro c hc; simp at hc; rw [← hc]; exact hws2.2 a (by rw [hw]; simp)
  have htrim : trim (ws2 ++ text) = trim text := by
    unfold trim; rw [trimStart_append_ws _ _ hws2.2]
  have hnb : trim text ≠ [] := (trim_ne_nil_iff text).2 htext
  have hte : trimEnd (ws2 ++ text) ≠ [] := by
    rw [Ne, trimEnd_eq_nil_iff]
    obtain ⟨c, hc, hcw⟩ := htext
    intro hall
    have := hall c (List.mem_append_right _ hc)
    rw [hcw] at this
    exact absurd this (by simp)
  rw [handle_edit_shape lead cmd ws1 (natToStr n) (ws2 ++ text) s hlead hcmd hws1
    ⟨(natToStr_spec n).2.1, natToStr_no_ws n⟩ hr2]
  simp only [hte, if_false, htrim]
  unfold editTask
  rw [requireId_natToStr_found n hn s task hfind]
  simp only [trim_idem, hnb, if_false, print_tasks, save_tasks, print_nextId, save_nextId]
  obtain ⟨pre, post, h1, h2, h3, h4⟩ :=
    updateTask_of_find s.tasks n task (fun t => { t with title := trim text }) hfind
  exact ⟨pre, post, h1, h2, h4, trivial⟩

theorem C9_edit_sets_trimmed_title_witness :
    ∃ pre post,
      [(⟨1, "a".toList, true⟩ : Task), ⟨2, "b".toList, true⟩, ⟨3, "c".toList, false⟩]
        = pre ++ (⟨2, "b".toList, true⟩ : Task) :: post ∧
      (∀ u ∈ pre, u.id.val ≠ ((2 : Nat) : Rat)) ∧
      (handle ("  ".toList ++ "Edit".toList ++ (" ".toList ++ natToStr 2 ++
          ("  ".toList ++ "feed  the cat ".toList)))
        { tasks := [⟨1, "a".toList, true⟩, ⟨2, "b".toList, true⟩, ⟨3, "c".toList, false⟩],
          nextId := 4, slot := none, output := [] }).tasks
        = pre ++ { id := 2, title := trim "feed  the cat ".toList, done := true } :: post ∧
      (handle ("  ".toList ++ "Edit".toList ++ (" ".toList ++ natToStr 2 ++
          ("  ".toList ++ "feed  the cat ".toList)))
        { tasks := [⟨1, "a".toList, true⟩, ⟨2, "b".toList, true⟩, ⟨3, "c".toList, false⟩],
          nextId := 4, slot := none, output := [] }).nextId = 4 :=
  C9_edit_sets_trimmed_title
    { tasks := [⟨1, "a".toList, true⟩, ⟨2, "b".toList, true⟩, ⟨3, "c".toList, false⟩],
      nextId := 4, slot := none, output := [] }
    2 ⟨2, "b".toList, true⟩ "  ".toList "Edit".toList " ".toList "  ".toList
    "feed  the cat ".toList (by decide) (by decide!) (by decide) (by decide)
    ⟨by decide, by decide⟩ ⟨by decide, by decide⟩ ⟨'f', by decide, by decide⟩

/-! ## Remove and done -/

theorem find_eq_none_iff (s : State) (q : Rat) :
    findTaskById q s = none ↔ ∀ t ∈ s.tasks, t.id.val ≠ q := by
  unfold findTaskById
  rw [List.find?_eq_none]
  simp

theorem Num.ne_iff (a b : Num) : a ≠ b ↔ a.val ≠ b.val :=
  ⟨fun h hv => h (Num.ext hv), fun h he => h (by rw [he])⟩

theorem find_none_of_ne (s : State) (x : Num) (h : ∀ t ∈ s.tasks, t.id ≠ x) :
    findTaskById x.val s = none :=
  (find_eq_none_iff s x.val).2 (fun t ht => (Num.ne_iff _ _).1 (h t ht))

theorem filter_ne_length (ts : List Task) (q : Num) (hnd : (ts.map Task.id).Nodup)
    (hmem : ∃ t ∈ ts, t.id = q) :
    (ts.filter (fun t => t.id != q)).length + 1 = ts.length := by
  induction ts with
  | nil => simp at hmem
  | cons t ts ih =>
    simp only [List.map_cons, List.nodup_cons] at hnd
    by_cases ht : t.id = q
    · have hall : ∀ u ∈ ts, (u.id != q) = true := by
        intro u hu
        have : u.id ≠ q := by
          intro hq
          exact hnd.1 (List.mem_map.2 ⟨u, hu, by rw [hq, ht]⟩)
        simpa using this
      have hb : (t.id != q) = false := by simpa using ht
      rw [List.filter_cons, hb]
      simp only [Bool.false_eq_true, if_false, List.length_cons]
      rw [List.filter_eq_self.2 hall]
    · have hb : (t.id != q) = true := by simpa using ht
      rw [List.filter_cons, hb]
      simp only [if_true, List.length_cons]
      have hmem' : ∃ u ∈ ts, u.id = q := by
        obtain ⟨u, hu, hq⟩ := hmem
        rcases List.mem_cons.1 hu with h | h
        · rw [h] at hq; exact absurd hq ht
        · exact ⟨u, h, hq⟩
      rw [ih hnd.2 hmem']

/-- C10: for an argument whose `Number` is a positive integer id `x` (a
double; the decimal numeral of `x` is such an argument).  If no task has id
`x`, `removeTask` prints the not-found error for `x` and tasks, counter and
slot are unchanged.  Otherwise the new list is the old list without the tasks
of id `x`, the others in their order, the counter is unchanged, a lookup of
`x` finds nothing, and with distinct ids exactly one task is gone.  Up to
`2^53` the error text shows the decimal numeral of the id. -/
theorem C10_remove (s : State) (arg : Option Str) (x : Num)
    (hN : Number arg = JsNumber.fin x) (hden : x.val.den = 1) (hpos : 0 < x.val) :
    ((∀ t ∈ s.tasks, t.id ≠ x) →
      removeTask arg s = printError (notFoundText x) s ∧
      (removeTask arg s).tasks = s.tasks ∧
      (removeTask arg s).nextId = s.nextId ∧
      (removeTask arg s).slot = s.slot) ∧
    ((∃ t ∈ s.tasks, t.id = x) →
      (removeTask arg s).tasks = s.tasks.filter (fun t => t.id != x) ∧
      (removeTask arg s).tasks.Sublist s.tasks ∧
      (removeTask arg s).nextId = s.nextId ∧
      findTaskById x (removeTask arg s) = none ∧
      (UniqueIds s → (removeTask arg s).tasks.length + 1 = s.tasks.length)) ∧
    (∀ n : Nat, x.val = (n : Rat) →
      Number (some (natToStr n)) = JsNumber.fin x ∧
      (n ≤ 2 ^ 53 →
        notFoundText x = "Task ".toList ++ natToStr n ++ " not found.".toList)) := by
  refine ⟨?_, ?_, ?_⟩
  · intro h
    have hf := find_none_of_ne s x h
    have : removeTask arg s = printError (notFoundText x) s := by
      unfold removeTask
      rw [requireId_fin arg x hN hden hpos, hf]
    rw [this]
    exact ⟨rfl, rfl, rfl, rfl⟩
  · intro h
    cases hf : findTaskById x.val s with
    | none =>
      obtain ⟨t, ht, hq⟩ := h
      exact absurd (by rw [hq]) ((find_eq_none_iff s x.val).1 hf t ht)
    | some task =>
      have hid : task.id = x := Num.ext (findTaskById_some hf).2
      have htasks : (removeTask arg s).tasks = s.tasks.filter (fun t => t.id != x) := by
        unfold removeTask
        rw [requireId_fin arg x hN hden hpos, hf]
        simp only [print_tasks, save_tasks, hid]
      have hnext : (removeTask arg s).nextId = s.nextId := by
        unfold removeTask
        rw [requireId_fin arg x hN hden hpos, hf]
        rfl
      refine ⟨htasks, ?_, hnext, ?_, ?_⟩
      · rw [htasks]; exact List.filter_sublist _
      · rw [find_eq_none_iff, htasks]
        intro t ht
        have := (List.mem_filter.1 ht).2
        exact (Num.ne_iff _ _).1 (by simpa using this)
      · intro hu
        rw [htasks]
        exact filter_ne_length s.tasks x hu h
  · intro n hn
    exact ⟨Number_natToStr_of_val n x hn, fun hle => notFoundText_natCast x n hn hle⟩

theorem C10_remove_witness :
    (removeTask (some "3".toList)
        ⟨[⟨1, "a".toList, true⟩, ⟨2, "b".toList, false⟩], 3, none, []⟩).tasks
          = [⟨1, "a".toList, true⟩, ⟨2, "b".toList, false⟩] ∧
    (removeTask (some "2".toList)
        ⟨[⟨1, "a".toList, true⟩, ⟨2, "b".toList, false⟩], 3, none, []⟩).tasks
          = [⟨1, "a".toList, true⟩] :=
  ⟨((C10_remove ⟨[⟨1, "a".toList, true⟩, ⟨2, "b".toList, false⟩], 3, none, []⟩
      (some "3".toList) 3 (by decide!) (by decide!) (by decide!)).1 (by decide!)).2.1,
   ((C10_remove ⟨[⟨1, "a".toList, true⟩, ⟨2, "b".toList, false⟩], 3, none, []⟩
      (some "2".toList) 2 (by decide!) (by decide!) (by decide!)).2.1
        ⟨⟨2, "b".toList, false⟩, by simp, rfl⟩).1.trans (by decide!)⟩

/-- The same id reached by arguments that are not its numeral: `2.0`, `2e0`
and `0x2` remove task `2`, and so does `9007199254740993` remove the task of
id `2^53`, the double it rounds to. -/
theorem removeTask_examples :
    (removeTask (some "2.0".toList)
        ⟨[⟨1, "a".toList, true⟩, ⟨2, "b".toList, false⟩], 3, none, []⟩).tasks.map Task.id = [1] ∧
    (removeTask (some "2e0".toList)
        ⟨[⟨1, "a".toList, true⟩, ⟨2, "b".toList, false⟩], 3, none, []⟩).tasks.map Task.id = [1] ∧
    (removeTask (some "0x2".toList)
        ⟨[⟨1, "a".toList, true⟩, ⟨2, "b".toList, false⟩], 3, none, []⟩).tasks.map Task.id = [1] ∧
    Number (some "9007199254740993".toList) = JsNumber.fin 9007199254740992 ∧
    (removeTask (some "9007199254740993".toList)
        ⟨[⟨9007199254740992, "a".toList, true⟩], 1, none, []⟩).tasks = [] ∧
    notFoundText (Num.ofNat (10 ^ 21)) = "Task 1e+21 not found.".toList := by
  refine ⟨by decide!, by decide!, by decide!, by decide!, by decide!, by decide!⟩

/-- C11: for an argument whose `Number` is a positive integer id `x` (a
double; the decimal numeral of `x` is such an argument), and a boolean `d`.
If `findTaskById x` finds `task`, the new list is the old one with the done
flag of that task set to `d`, its id and title kept, every other task, the
order and the length kept, and the counter is unchanged.  If no task has id
`x`, the not-found error for `x` is printed and tasks, counter and slot are
unchanged.  Up to `2^53` the error text shows the decimal numeral of the id. -/
theorem C11_setDone_frame (s : State) (arg : Option Str) (x : Num) (d : Bool)
    (hN : Number arg = JsNumber.fin x) (hden : x.val.den = 1) (hpos : 0 < x.val) :
    (∀ task, findTaskById x s = some task →
      ∃ pre post, s.tasks = pre ++ task :: post ∧ (∀ u ∈ pre, u.id ≠ x) ∧ task.id = x ∧
        (setDone arg d s).tasks
          = pre ++ { id := task.id, title := task.title, done := d } :: post ∧
        (setDone arg d s).tasks.length = s.tasks.length ∧
        (setDone arg d s).nextId = s.nextId) ∧
    ((∀ t ∈ s.tasks, t.id ≠ x) →
      setDone arg d s = printError (notFoundText x) s ∧
      (setDone arg d s).tasks = s.tasks ∧
      (setDone arg d s).nextId = s.nextId ∧
      (setDone arg d s).slot = s.slot) ∧
    (∀ n : Nat, x.val = (n : Rat) →
      Number (some (natToStr n)) = JsNumber.fin x ∧
      (n ≤ 2 ^ 53 →
        notFoundText x = "Task ".toList ++ natToStr n ++ " not found.".toList)) := by
  refine ⟨?_, ?_, ?_⟩
  · intro task hfind
    obtain ⟨pre, post, h1, h2, h3, h4⟩ :=
      updateTask_of_find s.tasks x.val task (fun t => { t with done := d }) hfind
    have htasks : (setDone arg d s).tasks
        = pre ++ { id := task.id, title := task.title, done := d } :: post := by
      unfold setDone
      rw [requireId_fin arg x hN hden hpos, hfind]
      simp only [print_tasks, save_tasks]
      exact h4
    refine ⟨pre, post, h1, fun u hu => (Num.ne_iff _ _).2 (h2 u hu), Num.ext h3, htasks, ?_, ?_⟩
    · rw [htasks, h1]; simp
    · unfold setDone
      rw [requireId_fin arg x hN hden hpos, hfind]
      rfl
  · intro h
    have hf := find_none_of_ne s x h
    have : setDone arg d s = printError (notFoundText x) s := by
      unfold setDone
      rw [requireId_fin arg x hN hden hpos, hf]
    rw [this]
    exact ⟨rfl, rfl, rfl, rfl⟩
  · intro n hn
    exact ⟨Number_natToStr_of_val n x hn, fun hle => notFoundText_natCast x n hn hle⟩

theorem C11_setDone_frame_witness :
    (∃ pre post,
      [(⟨1, "a".toList, true⟩ : Task), ⟨2, "b".toList, false⟩] = pre ++ ⟨2, "b".toList, false⟩ :: post ∧
      (∀ u ∈ pre, u.id ≠ (2 : Num)) ∧ (2 : Num) = 2 ∧
      (setDone (some "2".toList) true
        ⟨[⟨1, "a".toList, true⟩, ⟨2, "b".toList, false⟩], 3, none, []⟩).tasks
          = pre ++ { id := 2, title := "b".toList, done := true } :: post ∧
      (setDone (some "2".toList) true
        ⟨[⟨1, "a".toList, true⟩, ⟨2, "b".toList, false⟩], 3, none, []⟩).tasks.length = 2 ∧
      (setDone (some "2".toList) true
        ⟨[⟨1, "a".toList, true⟩, ⟨2, "b".toList, false⟩], 3, none, []⟩).nextId = 3) ∧
    (setDone (some "3".toList) true
        ⟨[⟨1, "a".toList, true⟩, ⟨2, "b".toList, false⟩], 3, none, []⟩).tasks
          = [⟨1, "a".toList, true⟩, ⟨2, "b".toList, false⟩] :=
  ⟨(C11_setDone_frame ⟨[⟨1, "a".toList, true⟩, ⟨2, "b".toList, false⟩], 3, none, []⟩
      (some "2".toList) 2 true (by decide!) (by decide!) (by decide!)).1
        ⟨2, "b".toList, false⟩ (by decide!),
   ((C11_setDone_frame ⟨[⟨1, "a".toList, true⟩, ⟨2, "b".toList, false⟩], 3, none, []⟩
      (some "3".toList) 3 true (by decide!) (by decide!) (by decide!)).2.1 (by decide!)).2.1⟩

/-! ## Clear, id validation, and a session -/

/-- C12: `clearTasks` leaves `tasks = []` and `nextId = 1` in every state, and
`addTask("x")` after it leaves exactly one task, with id `1`, title `x` and
done flag `false`. -/
theorem C12_clear_then_add (s : State) :
    (clearTasks s).tasks = [] ∧ (clearTasks s).nextId = 1 ∧
    (addTask "x".toList (clearTasks s)).tasks = [⟨1, "x".toList, false⟩] := by
  refine ⟨rfl, rfl, ?_⟩
  have ht : trim "x".toList = "x".toList := by decide
  simp only [addTask, ht]
  rw [if_neg (by decide)]
  rfl

theorem requireId_invalid (s : State) (arg : Option Str)
    (h : Number arg = JsNumber.nan ∨ (∃ b, Number arg = JsNumber.inf b) ∨
      (∃ y, Number arg = JsNumber.fin y ∧ (y.val.den ≠ 1 ∨ y.val ≤ 0))) :
    requireId arg s = (none, printError "Please provide a valid numeric id.".toList s) := by
  rcases h with h | ⟨b, h⟩ | ⟨q, h, hq⟩
  · unfold requireId; rw [h]; rfl
  · unfold requireId; rw [h]; rfl
  · unfold requireId; rw [h]
    have : (!(JsNumber.fin q).isInteger || decide (q.val ≤ 0)) = true := by
      rcases hq with hq | hq
      · simp [JsNumber.isInteger, hq]
      · simp [hq]
    simp only [this, if_true]
    rfl

theorem nonDecimalLiteral_none_of_head (t : Str) (h : t.head? ≠ some '0') :
    nonDecimalLiteral t = none := by
  unfold nonDecimalLiteral
  split
  · simp at h
  · rfl

theorem nonDecimalLiteral_none_of_all (t : Str) (h : ∀ c ∈ t, c.isDigit = true ∨ c = '.') :
    nonDecimalLiteral t = none := by
  unfold nonDecimalLiteral
  split
  · rename_i p rest
    have hp : p.isDigit = true ∨ p = '.' := h p (by simp)
    have e1 : p ≠ 'x' := by rintro rfl; simp at hp
    have e2 : p ≠ 'X' := by rintro rfl; simp at hp
    have e3 : p ≠ 'o' := by rintro rfl; simp at hp
    have e4 : p ≠ 'O' := by rintro rfl; simp at hp
    have e5 : p ≠ 'b' := by rintro rfl; simp at hp
    have e6 : p ≠ 'B' := by rintro rfl; simp at hp
    simp [e1, e2, e3, e4, e5, e6]
  · rfl

/-- A string whose first character after trimming is no digit, sign or point
and not the `I` of `Infinity` is not numeric. -/
theorem stringToNumber_nan_of_head (a : Str) (c : Char) (r : Str) (ht : trim a = c :: r)
    (hd : c.isDigit = false) (h1 : c ≠ '+') (h2 : c ≠ '-') (h3 : c ≠ '.') (h4 : c ≠ 'I') :
    stringToNumber a = JsNumber.nan := by
  have h0 : (c :: r).head? ≠ some '0' := by
    simp only [List.head?_cons, ne_eq, Option.some.injEq]
    rintro rfl
    simp at hd
  have hI : c :: r ≠ "Infinity".toList := by
    intro h
    have := congrArg List.head? h
    simp at this
    exact h4 this
  have hud : unsignedDecimal (c :: r) = none := by
    unfold unsignedDecimal
    simp [List.takeWhile, List.dropWhile, hd, h3]
  have hul : unsignedLiteral (c :: r) = MathValue.notNumeric := by
    unfold unsignedLiteral
    rw [if_neg hI, hud]
  unfold stringToNumber
  simp only [ht]
  rw [if_neg (by simp), nonDecimalLiteral_none_of_head _ h0]
  simp only
  split
  · rename_i r' heq
    simp at heq
    exact absurd heq.1 h1
  · rename_i r' heq
    simp at heq
    exact absurd heq.1 h2
  · rw [hul]; rfl

theorem unsignedLiteral_digits (ds : Str) (hne : ds ≠ []) (h : ∀ c ∈ ds, c.isDigit = true) :
    unsignedLiteral ds = MathValue.finite (digitsVal ds : Rat) := by
  unfold unsignedLiteral
  have : ds ≠ "Infinity".toList := by
    rintro rfl
    have := h 'I' (by decide)
    simp at this
  rw [if_neg this, unsignedDecimal_digits ds hne h]

theorem roundDouble_nonneg (q : Rat) (h : 0 ≤ q) : 0 ≤ roundDouble q := by
  have := roundDouble_abs q
  rw [abs_of_nonneg h] at this
  rw [← this]
  exact abs_nonneg _

/-- The number of a minus sign and a decimal numeral is the negated value
rounded to a double. -/
theorem Number_neg_natToStr (n : Nat) :
    Number (some ('-' :: natToStr n)) = toDouble (-(n : Rat)) := by
  obtain ⟨h1, h2, h3⟩ := natToStr_spec n
  have hws : ∀ c ∈ '-' :: natToStr n, isWhiteSpace c = false := by
    intro c hc
    rcases List.mem_cons.1 hc with hc | hc
    · rw [hc]; decide
    · exact natToStr_no_ws n c hc
  simp only [Number]
  unfold stringToNumber
  simp only [trim_of_no_ws _ hws]
  rw [if_neg (by simp), nonDecimalLiteral_none_of_head _ (by simp)]
  simp only [unsignedLiteral_digits _ h2 h3, MathValue.toNumber, h1, if_true]

/-- The outcome of the conversion is never a positive number when the value
is not positive. -/
theorem toDouble_nonpos (q : Rat) (h : q ≤ 0) :
    (∃ b, toDouble q = JsNumber.inf b) ∨ ∃ y, toDouble q = JsNumber.fin y ∧ y.val ≤ 0 := by
  rcases toDouble_cases q with ⟨x, hx, hv⟩ | ⟨hinf, _⟩
  · right
    refine ⟨x, hx, ?_⟩
    rw [hv]
    have := roundDouble_nonneg (-q) (by linarith)
    rw [roundDouble_neg] at this
    linarith
  · exact Or.inl ⟨_, hinf⟩

theorem isDouble_half (n : Nat) (hn : n < 2 ^ 52) : IsDouble ((n : Rat) + 1 / 2) := by
  have he : ((2 * n + 1 : Nat) : Rat) * (2 : Rat) ^ (-1 : Int) = (n : Rat) + 1 / 2 := by
    push_cast
    rw [zpow_neg_one]
    ring
  rw [isDouble_iff]
  constructor
  · have := roundDouble_exact (2 * n + 1) (-1) (by omega) (by omega) (by norm_num)
    rw [he] at this
    exact this
  · have h1 : (n : Rat) < ((2 ^ 52 : Nat) : Rat) := by exact_mod_cast hn
    have h2 : (0 : Rat) ≤ (n : Rat) := Nat.cast_nonneg n
    rw [abs_of_nonneg (by linarith)]
    have h3 : (((2 ^ 52 : Nat) : Rat)) + 1 / 2 < (2 : Rat) ^ 1024 := by norm_num
    exact lt_trans (add_lt_add_right h1 _) h3

theorem half_den (n : Nat) : ((n : Rat) + 1 / 2).den ≠ 1 := by
  intro h
  have h1 : (((n : Rat) + 1 / 2).num : Rat) = (n : Rat) + 1 / 2 := by
    have := Rat.num_div_den ((n : Rat) + 1 / 2)
    rw [h] at this
    simpa using this
  have h2 : (2 * ((n : Rat) + 1 / 2).num : Rat) = ((2 * n + 1 : Int) : Rat) := by
    rw [h1]; push_cast; ring
  have h3 : 2 * ((n : Rat) + 1 / 2).num = (2 * n + 1 : Int) := by exact_mod_cast h2
  omega

/-- The number of a decimal numeral followed by `.5` is the half-integer,
which is a double below `2^52`. -/
theorem Number_half (n : Nat) (hn : n < 2 ^ 52) :
    Number (some (natToStr n ++ ".5".toList))
      = JsNumber.fin ⟨(n : Rat) + 1 / 2, isDouble_half n hn⟩ := by
  obtain ⟨h1, h2, h3⟩ := natToStr_spec n
  have hws : ∀ c ∈ natToStr n ++ ".5".toList, isWhiteSpace c = false := by
    intro c hc
    rcases List.mem_append.1 hc with hc | hc
    · exact natToStr_no_ws n c hc
    · simp at hc
      rcases hc with rfl | rfl <;> decide
  have hall : ∀ c ∈ natToStr n ++ ".5".toList, c.isDigit = true ∨ c = '.' := by
    intro c hc
    rcases List.mem_append.1 hc with hc | hc
    · exact Or.inl (h3 c hc)
    · simp at hc
      rcases hc with rfl | rfl
      · exact Or.inr rfl
      · exact Or.inl (by decide)
  have hne : natToStr n ++ ".5".toList ≠ [] := by simp [h2]
  have hInf : natToStr n ++ ".5".toList ≠ "Infinity".toList := by
    intro h
    have := hall 'I' (by rw [h]; decide)
    simp at this
  have htake : (natToStr n ++ ".5".toList).takeWhile Char.isDigit = natToStr n := by
    rw [List.takeWhile_append_of_pos h3]
    simp [List.takeWhile]
  have hdrop : (natToStr n ++ ".5".toList).dropWhile Char.isDigit = ".5".toList := by
    rw [List.dropWhile_append_of_pos h3]
    simp [List.dropWhile]
  have hud : unsignedDecimal (natToStr n ++ ".5".toList) = some ((n : Rat) + 1 / 2) := by
    unfold unsignedDecimal
    simp only [htake, hdrop]
    have e1 : ".5".toList = '.' :: ['5'] := rfl
    rw [e1]
    simp only [List.takeWhile, List.dropWhile]
    have e2 : Char.isDigit '5' = true := by decide
    simp only [e2]
    rw [if_neg (by simp [h2])]
    simp only [digitsVal_append_singleton, h1, List.length_singleton, pow10_eq]
    have e3 : digitVal '5' = 5 := by decide
    rw [e3]
    congr 1
    push_cast
    ring
  simp only [Number]
  unfold stringToNumber
  simp only [trim_of_no_ws _ hws]
  rw [if_neg hne, nonDecimalLiteral_none_of_all _ hall]
  have hul : unsignedLiteral (natToStr n ++ ".5".toList)
      = MathValue.finite ((n : Rat) + 1 / 2) := by
    unfold unsignedLiteral
    rw [if_neg hInf, hud]
  simp only
  split
  · rename_i r heq
    have := hall '+' (by rw [heq]; simp)
    simp at this
  · rename_i r heq
    have := hall '-' (by rw [heq]; simp)
    simp at this
  · rw [hul]
    simp only [MathValue.toNumber, Bool.false_eq_true, if_false]
    exact toDouble_of_isDouble _ (isDouble_half n hn)

/-- C13: `requireId` returns nothing and only prints the validation error,
whatever the task list, for a missing argument, and for every argument whose
`Number` is `NaN`, an infinity, or a number that is not a positive integer.
Among these arguments are the strings that start, after trimming, with a
character that is no digit, sign or point and not `I` (they are not numeric),
the numeral `0`, a minus sign before any decimal numeral, and a decimal
numeral followed by `.5`.  For an argument whose `Number` is a positive
integer `x` that no task has, it prints `Task <x> not found.`, which for the
decimal numeral of an integer up to `2^53` shows that numeral.  The two texts
always differ. -/
theorem C13_requireId_validation (s : State) (arg : Option Str) (x : Num) (a : Str) (n : Nat) :
    (Number none = JsNumber.nan ∧
      requireId none s = (none, printError "Please provide a valid numeric id.".toList s)) ∧
    ((Number arg = JsNumber.nan ∨ (∃ b, Number arg = JsNumber.inf b) ∨
        (∃ y, Number arg = JsNumber.fin y ∧ (y.val.den ≠ 1 ∨ y.val ≤ 0))) →
      requireId arg s = (none, printError "Please provide a valid numeric id.".toList s)) ∧
    ((∃ c r, trim a = c :: r ∧ c.isDigit = false ∧ c ≠ '+' ∧ c ≠ '-' ∧ c ≠ '.' ∧ c ≠ 'I') →
      Number (some a) = JsNumber.nan ∧
      requireId (some a) s = (none, printError "Please provide a valid numeric id.".toList s)) ∧
    (requireId (some (natToStr 0)) s
      = (none, printError "Please provide a valid numeric id.".toList s)) ∧
    (requireId (some ('-' :: natToStr n)) s
      = (none, printError "Please provide a valid numeric id.".toList s)) ∧
    (n < 2 ^ 52 →
      requireId (some (natToStr n ++ ".5".toList)) s
        = (none, printError "Please provide a valid numeric id.".toList s)) ∧
    (Number arg = JsNumber.fin x → x.val.den = 1 → 0 < x.val → (∀ t ∈ s.tasks, t.id ≠ x) →
      requireId arg s = (none, printError (notFoundText x) s)) ∧
    (0 < n → n ≤ 2 ^ 53 → (∀ t ∈ s.tasks, t.id.val ≠ (n : Rat)) →
      requireId (some (natToStr n)) s
        = (none, printError ("Task ".toList ++ natToStr n ++ " not found.".toList) s)) ∧
    (∀ y, notFoundText y ≠ "Please provide a valid numeric id.".toList) := by
  refine ⟨⟨rfl, rfl⟩, requireId_invalid s arg, ?_, ?_, ?_, ?_, ?_, ?_, ?_⟩
  · rintro ⟨c, r, ht, hd, h1, h2, h3, h4⟩
    have hN : Number (some a) = JsNumber.nan := stringToNumber_nan_of_head a c r ht hd h1 h2 h3 h4
    exact ⟨hN, requireId_invalid s _ (Or.inl hN)⟩
  · refine requireId_invalid s _ (Or.inr (Or.inr ⟨0, ?_, Or.inr ?_⟩))
    · rw [Number_natToStr_of_val 0 0 (by rw [Num.zero_val]; simp)]
    · rw [Num.zero_val]
  · refine requireId_invalid s _ (Or.inr ?_)
    rw [Number_neg_natToStr]
    rcases toDouble_nonpos _ (neg_nonpos.mpr (Nat.cast_nonneg n)) with h | ⟨y, hy, hle⟩
    · exact Or.inl h
    · exact Or.inr ⟨y, hy, Or.inr hle⟩
  · intro hn
    refine requireId_invalid s _ (Or.inr (Or.inr ⟨_, Number_half n hn, Or.inl ?_⟩))
    exact half_den n
  · intro hN hden hpos h
    rw [requireId_fin arg x hN hden hpos, find_none_of_ne s x h]
  · intro hn hle h
    have hv := Num.ofNat_val n hle
    rw [requireId_fin _ (Num.ofNat n) (Number_natToStr_of_le n hle)
      (by rw [hv]; exact Rat.den_natCast n) (by rw [hv]; exact_mod_cast hn), hv,
      (find_eq_none_iff s n).2 h]
    simp only [notFoundText_natCast _ n hv hle]
  · intro q h
    have := congrArg List.head? h
    simp [notFoundText] at this

theorem C13_requireId_validation_witness :
    requireId (some "abc".toList) ⟨[⟨1, "a".toList, true⟩], 2, none, []⟩
      = (none, printError "Please provide a valid numeric id.".toList
          ⟨[⟨1, "a".toList, true⟩], 2, none, []⟩) ∧
    requireId (some (natToStr 1 ++ ".5".toList)) ⟨[⟨1, "a".toList, true⟩], 2, none, []⟩
      = (none, printError "Please provide a valid numeric id.".toList
          ⟨[⟨1, "a".toList, true⟩], 2, none, []⟩) ∧
    requireId (some (natToStr 7)) ⟨[⟨1, "a".toList, true⟩], 2, none, []⟩
      = (none, printError ("Task ".toList ++ natToStr 7 ++ " not found.".toList)
          ⟨[⟨1, "a".toList, true⟩], 2, none, []⟩) :=
  ⟨((C13_requireId_validation ⟨[⟨1, "a".toList, true⟩], 2, none, []⟩ none 0
      "abc".toList 1).2.2.1
      ⟨'a', "bc".toList, by decide, by decide, by decide, by decide, by decide, by decide⟩).2,
   (C13_requireId_validation ⟨[⟨1, "a".toList, true⟩], 2, none, []⟩ none 0
      "abc".toList 1).2.2.2.2.2.1 (by norm_num),
   (C13_requireId_validation ⟨[⟨1, "a".toList, true⟩], 2, none, []⟩ none 0
      "abc".toList 7).2.2.2.2.2.2.2.1 (by decide) (by norm_num) (by decide!)⟩

/-- The arguments the validation error covers, on examples: a missing
argument, a word, zero, a negative number, a fraction, `Infinity` and a
numeral beyond the range of the doubles.  An argument is read as the double
nearest to it: `1.0000000000000001` is the id `1`. -/
theorem Number_examples :
    Number none = JsNumber.nan ∧ Number (some "abc".toList) = JsNumber.nan ∧
    Number (some "0".toList) = JsNumber.fin 0 ∧
    (∃ y, Number (some "-1".toList) = JsNumber.fin y ∧ y.val = -1) ∧
    (∃ y, Number (some "1.5".toList) = JsNumber.fin y ∧ y.val = 3 / 2) ∧
    Number (some "Infinity".toList) = JsNumber.inf false ∧
    Number (some "1e400".toList) = JsNumber.inf false ∧
    Number (some "1.0000000000000001".toList) = JsNumber.fin 1 ∧
    (requireId (some "1.0000000000000001".toList) ⟨[⟨1, "a".toList, true⟩], 2, none, []⟩).1
      = some ⟨1, "a".toList, true⟩ := by
  refine ⟨rfl, by decide!, by decide!, ⟨⟨-1, by decide!⟩, by decide!, rfl⟩,
    ⟨⟨3 / 2, by decide!⟩, by decide!, rfl⟩, by decide!, by decide!, by decide!, by decide!⟩

/-- The line `done 1` in a state without tasks prints the not-found error. -/
theorem handle_done_one (s : State) (h : s.tasks = []) :
    handle "done 1".toList s = printError "Task 1 not found.".toList s := by
  have hc : toLowerCase (cmdOf "done 1".toList) = "done".toList := by decide
  have hr : (restOf "done 1".toList).head? = some "1".toList := by decide
  have hf : findTaskById (1 : Num).val s = none := by
    unfold findTaskById; rw [h]; rfl
  have ht : notFoundText 1 = "Task 1 not found.".toList := by decide!
  unfold handle
  simp only [hc, hr]
  rw [if_neg (by decide), if_neg (by decide), if_neg (by decide), if_neg (by decide), if_pos trivial]
  unfold setDone
  rw [requireId_fin (some "1".toList) 1 (by decide!) (by decide!) (by decide!), hf]
  simp only [ht]

/-- C17: the session of the scenario, from the empty initial state.  The
eight lines printed are the added line, the list with the open task
`1. buy milk`, the completion line, the list with task `1` marked done, the
edit line, the removal line, the empty list and the not-found error; the edit
keeps id `1`, and the last command leaves tasks, counter and slot as they
were. -/
theorem C17_scenario :
    (runLines ["add buy milk".toList, "list".toList, "done 1".toList, "list".toList,
        "edit 1 buy oat milk".toList, "remove 1".toList, "list".toList, "done 1".toList]
      (initial none)).output =
      ["<span class=\"prefix success\">added</span><span class=\"content\">buy milk</span>".toList,
       ("<span class=\"prefix muted\">list</span><span class=\"content\">" ++
        "<div class=\"task-line\"><span class=\"task-id\">1.</span>" ++
        "<span class=\"task-title\">buy milk</span></div></span>").toList,
       "<span class=\"prefix success\">ok</span><span class=\"content\">Task 1 completed.</span>".toList,
       ("<span class=\"prefix muted\">list</span><span class=\"content\">" ++
        "<div class=\"task-line task-done\"><span class=\"task-id\">1.</span>" ++
        "<span class=\"task-title\">buy milk</span></div></span>").toList,
       "<span class=\"prefix success\">edited</span><span class=\"content\">1. buy oat milk</span>".toList,
       "<span class=\"prefix success\">removed</span><span class=\"content\">Task 1</span>".toList,
       "<span class=\"prefix muted\">list</span><span class=\"content muted\">No tasks</span>".toList,
       "<span class=\"prefix error\">error</span><span class=\"content\">Task 1 not found.</span>".toList] ∧
    (runLines ["add buy milk".toList, "list".toList] (initial none)).tasks
      = [⟨1, "buy milk".toList, false⟩] ∧
    (runLines ["add buy milk".toList, "list".toList, "done 1".toList, "list".toList]
      (initial none)).tasks = [⟨1, "buy milk".toList, true⟩] ∧
    (runLines ["add buy milk".toList, "list".toList, "done 1".toList, "list".toList,
        "edit 1 buy oat milk".toList] (initial none)).tasks
      = [⟨1, "buy oat milk".toList, true⟩] ∧
    (runLines ["add buy milk".toList, "list".toList, "done 1".toList, "list".toList,
        "edit 1 buy oat milk".toList, "remove 1".toList, "list".toList] (initial none)).tasks = [] ∧
    handle "done 1".toList
        (runLines ["add buy milk".toList, "list".toList, "done 1".toList, "list".toList,
          "edit 1 buy oat milk".toList, "remove 1".toList, "list".toList] (initial none))
      = printError "Task 1 not found.".toList
        (runLines ["add buy milk".toList, "list".toList, "done 1".toList, "list".toList,
          "edit 1 buy oat milk".toList, "remove 1".toList, "list".toList] (initial none)) := by
  exact ⟨by decide!, by decide!, by decide!, by decide!, by decide!,
    handle_done_one _ (by decide!)⟩

/-! ## The parse of an arbitrary line -/

/-- Every line is blank, or is blanks, a non-empty token without white space,
and a remainder that is empty or starts with white space. -/
theorem line_shape (raw : Str) :
    (trimStart raw = [] ∧ trim raw = []) ∨
    ∃ lead tok r, raw = lead ++ tok ++ r ∧ (∀ d ∈ lead, isWhiteSpace d = true) ∧
      (∀ c ∈ tok, isWhiteSpace c = false) ∧ tok ≠ [] ∧
      (∀ c ∈ r.head?, isWhiteSpace c = true) ∧
      tok = (trimStart raw).takeWhile isNonSpace ∧ r = (trimStart raw).dropWhile isNonSpace := by
  have hsplit : raw = raw.takeWhile isWhiteSpace ++ trimStart raw :=
    (List.takeWhile_append_dropWhile _ _).symm
  cases hx : trimStart raw with
  | nil => left; exact ⟨rfl, by simp [trim, hx, trimEnd]⟩
  | cons c x =>
    right
    have hc : isWhiteSpace c = false := by
      have := List.head_dropWhile_not isWhiteSpace raw (by
        show trimStart raw ≠ []
        rw [hx]; simp)
      have hh : (List.dropWhile isWhiteSpace raw) = c :: x := hx
      simpa [hh] using this
    refine ⟨raw.takeWhile isWhiteSpace, (c :: x).takeWhile isNonSpace,
      (c :: x).dropWhile isNonSpace, ?_, fun d hd => List.mem_takeWhile_imp hd, ?_, ?_, ?_, rfl, rfl⟩
    · rw [List.append_assoc, List.takeWhile_append_dropWhile, ← hx]; exact hsplit
    · intro d hd
      have := List.mem_takeWhile_imp hd
      simpa [isNonSpace] using this
    · simp [List.takeWhile_cons, isNonSpace, hc]
    · intro d hd
      cases hr : (c :: x).dropWhile isNonSpace with
      | nil => rw [hr] at hd; simp at hd
      | cons e r' =>
        rw [hr] at hd
        simp only [List.head?_cons, Option.mem_def, Option.some.injEq] at hd
        have := List.head_dropWhile_not isNonSpace (c :: x) (by rw [hr]; simp)
        simp only [hr, List.head_cons] at this
        rw [← hd]
        simpa [isNonSpace] using this

/-- The three constants of `handle` for an arbitrary line: the command is the
first run of non-space characters, and the tail is what follows it, trimmed. -/
theorem parse_any (raw : Str) :
    cmdOf raw = (trimStart raw).takeWhile isNonSpace ∧
    tailOf raw = trim ((trimStart raw).dropWhile isNonSpace) ∧
    restOf raw = (splitWs (trimEnd ((trimStart raw).dropWhile isNonSpace))).tail := by
  rcases line_shape raw with ⟨h0, h1⟩ | ⟨lead, tok, r, hraw, hlead, htok, hne, hr, htk, hrr⟩
  · have hc : cmdOf raw = [] := by unfold cmdOf; rw [h1]; rfl
    refine ⟨by rw [hc, h0]; rfl, ?_, ?_⟩
    · unfold tailOf
      rw [hc, h0]
      have hall : ∀ c ∈ raw, isWhiteSpace c = true := by
        have := h0
        unfold trimStart at this
        exact List.dropWhile_eq_nil_iff.1 this
      have : ∀ c ∈ slice raw (indexOf raw [] + (([] : Str).length : Int)), isWhiteSpace c = true := by
        intro c hc'
        unfold slice at hc'
        exact hall c (List.mem_of_mem_drop hc')
      have h2 : trim (slice raw (indexOf raw [] + (([] : Str).length : Int))) = [] := by
        by_contra hne
        obtain ⟨c, hc1, hc2⟩ := (trim_ne_nil_iff _).1 hne
        rw [this c hc1] at hc2
        exact absurd hc2 (by simp)
      rw [h2]; rfl
    · unfold restOf; rw [h1, h0]; rfl
  · obtain ⟨p1, p2, p3⟩ := parse_shape lead tok r hlead htok hne hr
    rw [← hraw] at p1 p2 p3
    rw [← htk, ← hrr]
    exact ⟨p1, p3, p2⟩

/-! ## Add and unknown commands -/

theorem handle_add (raw : Str) (s : State) (h : toLowerCase (cmdOf raw) = "add".toList) :
    handle raw s = addTask (tailOf raw) s := by
  unfold handle
  simp only [h]
  rw [if_neg (by decide), if_neg (by decide), if_pos trivial]

/-- C14: when the first token of the line lowercases to `add`, that token is
the first run of non-space characters, and `handle` calls `addTask` with the
line stripped of its leading white space and of that token, then trimmed;
`handle("add " + t)` for a `t` with a non-blank trim appends a task whose
title is `trim(t)`. -/
theorem C14_add_uses_tail (raw t : Str) (s : State) :
    (toLowerCase (cmdOf raw) = "add".toList →
      cmdOf raw = (trimStart raw).takeWhile isNonSpace ∧
      handle raw s = addTask (trim ((trimStart raw).dropWhile isNonSpace)) s) ∧
    (trim t ≠ [] →
      (handle ("add ".toList ++ t) s).tasks
        = s.tasks ++ [{ id := s.nextId, title := trim t, done := false }]) := by
  constructor
  · intro h
    obtain ⟨p1, p2, _⟩ := parse_any raw
    exact ⟨p1, by rw [handle_add raw s h, p2]⟩
  · intro ht
    have hraw : "add ".toList ++ t = [] ++ "add".toList ++ (" ".toList ++ t) := rfl
    obtain ⟨p1, _, p3⟩ := parse_shape [] "add".toList (" ".toList ++ t) (by simp) (by decide)
      (by decide) (by intro c hc; simp at hc; rw [← hc]; decide)
    rw [← hraw] at p1 p3
    have htrim : trim (" ".toList ++ t) = trim t := by
      unfold trim; rw [trimStart_append_ws _ _ (by decide)]
    rw [handle_add _ s (by rw [p1]; decide), p3, htrim]
    unfold addTask
    simp only [trim_idem, ht, if_false, print_tasks, save_tasks]

theorem C14_add_uses_tail_witness :
    (cmdOf "  ADD   add  milk and add  eggs ".toList
        = (trimStart "  ADD   add  milk and add  eggs ".toList).takeWhile isNonSpace ∧
      handle "  ADD   add  milk and add  eggs ".toList (initial none)
        = addTask (trim ((trimStart "  ADD   add  milk and add  eggs ".toList).dropWhile isNonSpace))
            (initial none)) ∧
    (handle ("add ".toList ++ " add  me add ".toList) (initial none)).tasks
        = [] ++ [{ id := 1, title := trim " add  me add ".toList, done := false }] ∧
    trim " add  me add ".toList = "add  me add".toList ∧
    trim ((trimStart "  ADD   add  milk and add  eggs ".toList).dropWhile isNonSpace)
      = "add  milk and add  eggs".toList :=
  ⟨(C14_add_uses_tail "  ADD   add  milk and add  eggs ".toList [] (initial none)).1 (by decide),
   (C14_add_uses_tail [] " add  me add ".toList (initial none)).2 (by decide),
   by decide, by decide⟩

/-- C16: when the first token of the line, lowercased, is none of the command
words and not empty, `handle` only prints one error line, whose text quotes
that token HTML-escaped; tasks, counter and slot are unchanged. -/
theorem C16_unknown_command (raw : Str) (s : State)
    (h : toLowerCase (cmdOf raw) ∉ ["".toList, "help".toList, "?".toList, "add".toList,
      "list".toList, "ls".toList, "done".toList, "undone".toList, "open".toList, "edit".toList,
      "remove".toList, "rm".toList, "delete".toList, "clear".toList]) :
    cmdOf raw = (trimStart raw).takeWhile isNonSpace ∧
    handle raw s
      = printError ("Unknown command: ".toList ++ escapeHtml (cmdOf raw) ++ ". Type 'help'.".toList) s ∧
    (handle raw s).output = s.output ++
      [errorLine ("Unknown command: ".toList ++ escapeHtml (cmdOf raw) ++ ". Type 'help'.".toList)] ∧
    (handle raw s).tasks = s.tasks ∧ (handle raw s).nextId = s.nextId ∧
    (handle raw s).slot = s.slot := by
  have hh : handle raw s
      = printError ("Unknown command: ".toList ++ escapeHtml (cmdOf raw) ++ ". Type 'help'.".toList) s := by
    simp only [List.mem_cons, List.mem_singleton, not_or, List.not_mem_nil, not_false_eq_true,
      and_true] at h
    obtain ⟨h1, h2, h3, h4, h5, h6, h7, h8, h9, h10, h11, h12, h13, h14⟩ := h
    unfold handle
    simp only [h1, h2, h3, h4, h5, h6, h7, h8, h9, h10, h11, h12, h13, h14, or_self, if_false]
  refine ⟨(parse_any raw).1, hh, ?_, ?_, ?_, ?_⟩ <;> rw [hh] <;> rfl

theorem C16_unknown_command_witness :
    cmdOf " Foo<b> bar".toList = (trimStart " Foo<b> bar".toList).takeWhile isNonSpace ∧
    handle " Foo<b> bar".toList (initial none)
      = printError ("Unknown command: ".toList ++ escapeHtml (cmdOf " Foo<b> bar".toList) ++
          ". Type 'help'.".toList) (initial none) ∧
    (handle " Foo<b> bar".toList (initial none)).output = (initial none).output ++
      [errorLine ("Unknown command: ".toList ++ escapeHtml (cmdOf " Foo<b> bar".toList) ++
          ". Type 'help'.".toList)] ∧
    (handle " Foo<b> bar".toList (initial none)).tasks = (initial none).tasks ∧
    (handle " Foo<b> bar".toList (initial none)).nextId = (initial none).nextId ∧
    (handle " Foo<b> bar".toList (initial none)).slot = (initial none).slot :=
  C16_unknown_command " Foo<b> bar".toList (initial none) (by decide)

/-- The line printed in the witness of C16. -/
theorem unknown_command_example :
    (handle " Foo<b> bar".toList (initial none)).output =
      [("<span class=\"prefix error\">error</span><span class=\"content\">" ++
        "Unknown command: Foo&lt;b&gt;. Type 'help'.</span>").toList] := by
  decide!

/-! ## Outcomes of a command -/

theorem isErrorLine_errorLine (t : Str) : isErrorLine (errorLine t) = true := by
  have : errorLine t = "<span class=\"prefix error\">".toList ++
      ("error</span><span class=\"content\">".toList ++ t ++ "</span>".toList) := by
    simp only [errorLine, ← List.append_assoc]
    rfl
  rw [this]
  exact startsWith_self_append _ _

theorem errorLine_injective (t u : Str) (h : errorLine t = errorLine u) : t = u := by
  unfold errorLine at h
  rw [List.append_assoc, List.append_assoc] at h
  exact List.append_cancel_right (List.append_cancel_left h)

/-- The outcomes of `requireId`, with the text of the error. -/
theorem requireId_outcome (arg : Option Str) (s : State) :
    requireId arg s = (none, printError invalidIdText s) ∨
    (∃ q, requireId arg s = (none, printError (notFoundText q) s)) ∨
    (∃ q task, findTaskById q s = some task ∧ requireId arg s = (some task, s)) := by
  rcases requireId_cases arg s with ⟨txt, hr⟩ | ⟨q, task, _, _, _, hf, hr⟩
  · unfold requireId at hr ⊢
    cases hN : Number arg with
    | nan => left; rfl
    | inf b => left; rfl
    | fin q =>
      simp only
      by_cases hq : (!(JsNumber.fin q).isInteger || decide (q.val ≤ 0)) = true
      · rw [if_pos hq]; left; rfl
      · rw [if_neg hq]
        cases hf : findTaskById q.val s with
        | none => right; left; exact ⟨q, rfl⟩
        | some task =>
          rw [hN] at hr
          simp only [hq, if_false, hf] at hr
          simp at hr
  · right; right; exact ⟨q, task, hf, hr⟩

theorem stateJson_print_save (l : Str) (s2 : State) :
    stateJson (print l (save s2)) = stateJson s2 := rfl

theorem load_of_saved (s : State) (h : s.slot = some (JSON.stringify (stateJson s))) :
    load s = some s := by
  cases s with
  | mk tasks nextId slot output =>
    simp only [stateJson] at h
    subst h
    simp [load, JSON.stringify, loadTry, JSON.parse, stateJson, getProp, List.lookup,
      asTasks_map_taskJson, toDouble_val]

theorem persisted_print_save (l : Str) (s2 : State) : Persisted (print l (save s2)) :=
  ⟨rfl, load_of_saved _ rfl⟩

theorem addTask_outcome (title : Str) (s : State) : Outcome s (addTask title s) := by
  unfold addTask
  by_cases ht : trim title = []
  · simp only [ht, if_true]
    exact Or.inr (Or.inr (Or.inl ⟨_, rfl, by decide⟩))
  · simp only [ht, if_false]
    exact Or.inr (Or.inr (Or.inr ⟨_, _, rfl, rfl, rfl, rfl⟩))

theorem invalidIdText_head : invalidIdText.head? ≠ some 'N' := by decide

theorem notFoundText_head (q : Num) : (notFoundText q).head? ≠ some 'N' := by
  simp [notFoundText]

theorem setDone_outcome (arg : Option Str) (d : Bool) (s : State) :
    Outcome s (setDone arg d s) := by
  unfold setDone
  rcases requireId_outcome arg s with h | ⟨q, h⟩ | ⟨q, task, _, h⟩
  · rw [h]; exact Or.inr (Or.inr (Or.inl ⟨_, rfl, invalidIdText_head⟩))
  · rw [h]; exact Or.inr (Or.inr (Or.inl ⟨_, rfl, notFoundText_head q⟩))
  · rw [h]; exact Or.inr (Or.inr (Or.inr ⟨_, _, rfl, rfl, rfl, rfl⟩))

theorem removeTask_outcome (arg : Option Str) (s : State) : Outcome s (removeTask arg s) := by
  unfold removeTask
  rcases requireId_outcome arg s with h | ⟨q, h⟩ | ⟨q, task, _, h⟩
  · rw [h]; exact Or.inr (Or.inr (Or.inl ⟨_, rfl, invalidIdText_head⟩))
  · rw [h]; exact Or.inr (Or.inr (Or.inl ⟨_, rfl, notFoundText_head q⟩))
  · rw [h]; exact Or.inr (Or.inr (Or.inr ⟨_, _, rfl, rfl, rfl, rfl⟩))

theorem editTask_outcome (arg : Option Str) (text : Str) (s : State) (ht : trim text ≠ []) :
    Outcome s (editTask arg text s) := by
  unfold editTask
  rcases requireId_outcome arg s with h | ⟨q, h⟩ | ⟨q, task, _, h⟩
  · rw [h]; exact Or.inr (Or.inr (Or.inl ⟨_, rfl, invalidIdText_head⟩))
  · rw [h]; exact Or.inr (Or.inr (Or.inl ⟨_, rfl, notFoundText_head q⟩))
  · rw [h]
    simp only [ht, if_false]
    exact Or.inr (Or.inr (Or.inr ⟨_, _, rfl, rfl, rfl, rfl⟩))

theorem clearTasks_outcome (s : State) : Outcome s (clearTasks s) :=
  Or.inr (Or.inr (Or.inr ⟨_, _, rfl, rfl, rfl, rfl⟩))

theorem showHelp_outcome (s : State) : Outcome s (showHelp s) :=
  Or.inr (Or.inl ⟨_, rfl, rfl⟩)

theorem renderTasks_outcome (s : State) : Outcome s (renderTasks s) := by
  unfold renderTasks
  split
  · exact Or.inr (Or.inl ⟨_, rfl, rfl⟩)
  · exact Or.inr (Or.inl ⟨_, rfl, rfl⟩)

/-! ## The text of an edit -/

theorem trim_ends_nonspace (x : Str) (h : trim x ≠ []) :
    ∃ a c, trim x = a ++ [c] ∧ isWhiteSpace c = false := by
  have hl : List.rdropWhile isWhiteSpace (trimStart x) ≠ [] := h
  have hlast := List.rdropWhile_last_not isWhiteSpace (trimStart x) hl
  refine ⟨(trim x).dropLast, (trim x).getLast h, (List.dropLast_append_getLast h).symm, ?_⟩
  simpa using hlast

theorem mem_of_suffix_ne_nil (a : Str) (c : Char) (suf : Str) (h : suf <:+ a ++ [c])
    (hne : suf ≠ []) : c ∈ suf := by
  obtain ⟨pre, hp⟩ := h
  have hs : suf = suf.dropLast ++ [suf.getLast hne] := (List.dropLast_append_getLast hne).symm
  rw [hs, ← List.append_assoc] at hp
  have := List.append_inj_right' hp rfl
  have hc : suf.getLast hne = c := by simpa using this
  rw [← hc]
  exact List.getLast_mem hne

theorem mem_dropWhile_of_not (p : Char → Bool) (l : Str) (c : Char) (hc : c ∈ l)
    (hp : p c = false) : c ∈ l.dropWhile p := by
  have hsplit : l = l.takeWhile p ++ l.dropWhile p := (List.takeWhile_append_dropWhile _ _).symm
  rw [hsplit] at hc
  rcases List.mem_append.1 hc with h | h
  · have := List.mem_takeWhile_imp h
    rw [hp] at this
    exact absurd this (by simp)
  · exact h

/-- What the edit branch makes of a tail that ends in a non-space character
is never blank. -/
theorem stripFirstToken_nonblank (t a : Str) (c : Char) (ht : t = a ++ [c])
    (hc : isWhiteSpace c = false) : trim (stripFirstToken t) ≠ [] := by
  rw [trim_ne_nil_iff]
  unfold stripFirstToken
  simp only
  split
  · rename_i hcond
    have hne : t.dropWhile isNonSpace ≠ [] := by
      intro h0
      rw [h0] at hcond
      simp at hcond
    have hsuf : t.dropWhile isNonSpace <:+ a ++ [c] := by
      rw [← ht]; exact List.dropWhile_suffix _
    have hmem := mem_of_suffix_ne_nil a c _ hsuf hne
    exact ⟨c, mem_dropWhile_of_not _ _ c hmem hc, hc⟩
  · exact ⟨c, by rw [ht]; simp, hc⟩

theorem editText_nonblank (raw : Str) (h : restOf raw ≠ []) :
    trim (stripFirstToken (tailOf raw)) ≠ [] := by
  obtain ⟨_, p2, p3⟩ := parse_any raw
  have hte : trimEnd ((trimStart raw).dropWhile isNonSpace) ≠ [] := by
    intro h0
    rw [p3, h0] at h
    exact h rfl
  have htr : trim ((trimStart raw).dropWhile isNonSpace) ≠ [] := by
    rw [trim_ne_nil_iff]
    by_contra hall
    push_neg at hall
    apply hte
    rw [trimEnd_eq_nil_iff]
    intro c hc
    simpa using hall c hc
  obtain ⟨a, c, hac, hc⟩ := trim_ends_nonspace _ htr
  rw [p2]
  exact stripFirstToken_nonblank _ a c hac hc

/-- Every line leaves the state in one of the four shapes of `Outcome`. -/
theorem handle_outcome (raw : Str) (s : State) : Outcome s (handle raw s) := by
  unfold handle
  simp only
  split_ifs with h1 h2 h3 h4 h5 h6 h7 h8 h9 h10
  · exact Or.inl rfl
  · exact showHelp_outcome s
  · exact addTask_outcome _ s
  · exact renderTasks_outcome s
  · exact setDone_outcome _ _ s
  · exact setDone_outcome _ _ s
  · exact Or.inr (Or.inr (Or.inl ⟨_, rfl, by decide⟩))
  · apply editTask_outcome
    apply editText_nonblank
    intro h0
    rw [h0] at h8
    exact h8 rfl
  · exact removeTask_outcome _ s
  · exact clearTasks_outcome s
  · exact Or.inr (Or.inr (Or.inl ⟨_, rfl, by simp⟩))

/-! ## Persistence after a command, and errors -/

theorem outcome_unchanged_or_persisted (s s' : State) (h : Outcome s s') :
    (s'.tasks = s.tasks ∧ s'.nextId = s.nextId ∧ s'.slot = s.slot) ∨ Persisted s' := by
  rcases h with h | ⟨l, h, _⟩ | ⟨txt, h, _⟩ | ⟨l, s2, h, _, _, _⟩
  · left; rw [h]; exact ⟨rfl, rfl, rfl⟩
  · left; rw [h]; exact ⟨rfl, rfl, rfl⟩
  · left; rw [h]; exact ⟨rfl, rfl, rfl⟩
  · right; rw [h]; exact persisted_print_save l s2

theorem requireId_found (arg : Option Str) (s : State) (h : (requireId arg s).1 ≠ none) :
    ∃ task, requireId arg s = (some task, s) := by
  rcases requireId_outcome arg s with h' | ⟨q, h'⟩ | ⟨q, task, _, h'⟩
  · rw [h'] at h; exact absurd rfl h
  · rw [h'] at h; exact absurd rfl h
  · exact ⟨task, h'⟩

/-- C15: each mutating operation that succeeds (a non-blank title for add, an
id that `requireId` resolves for done, undone, edit and remove, a non-blank
text for edit, and clear always) ends with the slot holding the serialization
of the tasks and counter in memory, so that `load` reproduces the state; and
every line given to `handle` either leaves tasks, counter and slot as they
were or ends in such a state. -/
theorem C15_mutations_are_persisted (s : State) (title text raw : Str) (arg : Option Str)
    (d : Bool) :
    (trim title ≠ [] → Persisted (addTask title s)) ∧
    ((requireId arg s).1 ≠ none → Persisted (setDone arg d s)) ∧
    ((requireId arg s).1 ≠ none → trim text ≠ [] → Persisted (editTask arg text s)) ∧
    ((requireId arg s).1 ≠ none → Persisted (removeTask arg s)) ∧
    Persisted (clearTasks s) ∧
    (((handle raw s).tasks = s.tasks ∧ (handle raw s).nextId = s.nextId ∧
        (handle raw s).slot = s.slot) ∨ Persisted (handle raw s)) := by
  refine ⟨?_, ?_, ?_, ?_, persisted_print_save _ _, ?_⟩
  · intro ht
    unfold addTask
    simp only [ht, if_false]
    exact persisted_print_save _ _
  · intro h
    obtain ⟨task, hr⟩ := requireId_found arg s h
    unfold setDone
    rw [hr]
    exact persisted_print_save _ _
  · intro h ht
    obtain ⟨task, hr⟩ := requireId_found arg s h
    unfold editTask
    rw [hr]
    simp only [ht, if_false]
    exact persisted_print_save _ _
  · intro h
    obtain ⟨task, hr⟩ := requireId_found arg s h
    unfold removeTask
    rw [hr]
    exact persisted_print_save _ _
  · exact outcome_unchanged_or_persisted s _ (handle_outcome raw s)

theorem C15_mutations_are_persisted_witness :
    Persisted (addTask " a ".toList ⟨[⟨1, "a".toList, true⟩], 2, none, []⟩) ∧
    Persisted (setDone (some "1".toList) false ⟨[⟨1, "a".toList, true⟩], 2, none, []⟩) ∧
    Persisted (editTask (some "1".toList) "b".toList ⟨[⟨1, "a".toList, true⟩], 2, none, []⟩) ∧
    Persisted (removeTask (some "1".toList) ⟨[⟨1, "a".toList, true⟩], 2, none, []⟩) :=
  ⟨(C15_mutations_are_persisted ⟨[⟨1, "a".toList, true⟩], 2, none, []⟩ " a ".toList
      "b".toList [] (some "1".toList) false).1 (by decide),
   (C15_mutations_are_persisted ⟨[⟨1, "a".toList, true⟩], 2, none, []⟩ " a ".toList
      "b".toList [] (some "1".toList) false).2.1 (by decide!),
   (C15_mutations_are_persisted ⟨[⟨1, "a".toList, true⟩], 2, none, []⟩ " a ".toList
      "b".toList [] (some "1".toList) false).2.2.1 (by decide!) (by decide),
   (C15_mutations_are_persisted ⟨[⟨1, "a".toList, true⟩], 2, none, []⟩ " a ".toList
      "b".toList [] (some "1".toList) false).2.2.2.1 (by decide!)⟩

/-- C18: if `handle` printed one line of the error category, then tasks,
counter and slot are those from before the call; the same holds when the
command is empty, `help`, `?`, `list` or `ls`; and every line `printError`
prints is of the error category. -/
theorem C18_error_atomicity (raw : Str) (s : State) :
    ((∃ l, (handle raw s).output = s.output ++ [l] ∧ isErrorLine l = true) →
      (handle raw s).tasks = s.tasks ∧ (handle raw s).nextId = s.nextId ∧
      (handle raw s).slot = s.slot) ∧
    (toLowerCase (cmdOf raw) ∈ ["".toList, "help".toList, "?".toList, "list".toList, "ls".toList] →
      (handle raw s).tasks = s.tasks ∧ (handle raw s).nextId = s.nextId ∧
      (handle raw s).slot = s.slot) ∧
    (∀ txt s0, (printError txt s0).output = s0.output ++ [errorLine txt] ∧
      isErrorLine (errorLine txt) = true) := by
  refine ⟨?_, ?_, fun txt s0 => ⟨rfl, isErrorLine_errorLine txt⟩⟩
  · rintro ⟨l, hout, herr⟩
    rcases handle_outcome raw s with h | ⟨l', h, _⟩ | ⟨txt, h, _⟩ | ⟨l', s2, h, _, ho, hl'⟩
    · rw [h]; exact ⟨rfl, rfl, rfl⟩
    · rw [h]; exact ⟨rfl, rfl, rfl⟩
    · rw [h]; exact ⟨rfl, rfl, rfl⟩
    · rw [h] at hout
      simp only [print_output, save_output, ho] at hout
      have := List.append_cancel_left hout
      simp only [List.cons.injEq, and_true] at this
      rw [← this, hl'] at herr
      exact absurd herr (by simp)
  · intro hmem
    simp only [List.mem_cons, List.mem_singleton, List.not_mem_nil, or_false] at hmem
    unfold handle
    simp only
    rcases hmem with h | h | h | h | h
    · rw [if_pos h]; exact ⟨rfl, rfl, rfl⟩
    · rw [h, if_neg (by decide), if_pos (Or.inl rfl)]; exact ⟨rfl, rfl, rfl⟩
    · rw [h, if_neg (by decide), if_pos (Or.inr rfl)]; exact ⟨rfl, rfl, rfl⟩
    · rw [h, if_neg (by decide), if_neg (by decide), if_neg (by decide), if_pos (Or.inl rfl)]
      exact ⟨renderTasks_tasks s, renderTasks_nextId s, renderTasks_slot s⟩
    · rw [h, if_neg (by decide), if_neg (by decide), if_neg (by decide), if_pos (Or.inr rfl)]
      exact ⟨renderTasks_tasks s, renderTasks_nextId s, renderTasks_slot s⟩

theorem C18_error_atomicity_witness :
    ((handle "done 9".toList ⟨[⟨1, "a".toList, false⟩], 2, some Text.invalid, []⟩).tasks
        = [⟨1, "a".toList, false⟩] ∧
      (handle "done 9".toList ⟨[⟨1, "a".toList, false⟩], 2, some Text.invalid, []⟩).nextId = 2 ∧
      (handle "done 9".toList ⟨[⟨1, "a".toList, false⟩], 2, some Text.invalid, []⟩).slot
        = some Text.invalid) ∧
    ((handle "LS".toList ⟨[⟨1, "a".toList, false⟩], 2, some Text.invalid, []⟩).tasks
        = [⟨1, "a".toList, false⟩] ∧
      (handle "LS".toList ⟨[⟨1, "a".toList, false⟩], 2, some Text.invalid, []⟩).nextId = 2 ∧
      (handle "LS".toList ⟨[⟨1, "a".toList, false⟩], 2, some Text.invalid, []⟩).slot
        = some Text.invalid) :=
  ⟨(C18_error_atomicity "done 9".toList ⟨[⟨1, "a".toList, false⟩], 2, some Text.invalid, []⟩).1
      ⟨errorLine "Task 9 not found.".toList, by decide!, by decide⟩,
   (C18_error_atomicity "LS".toList ⟨[⟨1, "a".toList, false⟩], 2, some Text.invalid, []⟩).2.1
      (by decide)⟩

/-! ## The unreachable guard of edit -/

theorem handle_edit (raw : Str) (s : State) (h : toLowerCase (cmdOf raw) = "edit".toList)
    (hrest : restOf raw ≠ []) :
    handle raw s = editTask (restOf raw).head? (stripFirstToken (tailOf raw)) s := by
  have hlen : ¬ ((restOf raw).length = 0) := by
    intro h0; exact hrest (List.length_eq_zero.1 h0)
  unfold handle
  simp only [h]
  rw [if_neg (by decide), if_neg (by decide), if_neg (by decide), if_neg (by decide),
    if_neg (by decide), if_neg (by decide), if_pos trivial, if_neg hlen]

/-- C19: when the command is `edit` and an argument follows, `handle` calls
`editTask` with a text whose trim is never empty, and no line makes `handle`
print the error `New text cannot be empty.`; for a line `edit n` with nothing
but white space after the numeral of a positive id `n` that `findTaskById`
resolves to `task`, the title of that task becomes the numeral. -/
theorem C19_edit_text_never_blank (raw : Str) (s : State) (n : Nat) (task : Task)
    (lead cmd ws1 w : Str) :
    (toLowerCase (cmdOf raw) = "edit".toList → restOf raw ≠ [] →
      handle raw s = editTask (restOf raw).head? (stripFirstToken (tailOf raw)) s ∧
      trim (stripFirstToken (tailOf raw)) ≠ []) ∧
    ((handle raw s).output = s.output ∨
      ∃ l, (handle raw s).output = s.output ++ [l] ∧
        l ≠ errorLine "New text cannot be empty.".toList) ∧
    (0 < n → findTaskById (n : Rat) s = some task →
      (∀ c ∈ lead, isWhiteSpace c = true) → toLowerCase cmd = "edit".toList →
      (ws1 ≠ [] ∧ ∀ c ∈ ws1, isWhiteSpace c = true) → (∀ c ∈ w, isWhiteSpace c = true) →
      ∃ pre post, s.tasks = pre ++ task :: post ∧ (∀ u ∈ pre, u.id.val ≠ (n : Rat)) ∧
        (handle (lead ++ cmd ++ (ws1 ++ natToStr n ++ w)) s).tasks
          = pre ++ { id := task.id, title := natToStr n, done := task.done } :: post) := by
  refine ⟨fun h hrest => ⟨handle_edit raw s h hrest, editText_nonblank raw hrest⟩, ?_, ?_⟩
  · rcases handle_outcome raw s with h | ⟨l, h, hl⟩ | ⟨txt, h, htxt⟩ | ⟨l, s2, h, _, ho, hl⟩
    · left; rw [h]
    · right
      refine ⟨l, by rw [h]; rfl, ?_⟩
      intro he
      rw [he, isErrorLine_errorLine] at hl
      exact absurd hl (by simp)
    · right
      refine ⟨errorLine txt, by rw [h]; rfl, ?_⟩
      intro he
      have := errorLine_injective _ _ he
      rw [this] at htxt
      exact htxt (by decide)
    · right
      refine ⟨l, by rw [h]; simp only [print_output, save_output, ho], ?_⟩
      intro he
      rw [he, isErrorLine_errorLine] at hl
      exact absurd hl (by simp)
  · intro hn hfind hlead hcmd hws1 hw
    have hr2 : ∀ c ∈ w.head?, isWhiteSpace c = true := by
      intro c hc
      exact hw c (List.mem_of_mem_head? hc)
    have hte : trimEnd w = [] := (trimEnd_eq_nil_iff w).2 hw
    rw [handle_edit_shape lead cmd ws1 (natToStr n) w s hlead hcmd hws1
      ⟨(natToStr_spec n).2.1, natToStr_no_ws n⟩ hr2]
    simp only [hte, if_true]
    unfold editTask
    rw [requireId_natToStr_found n hn s task hfind]
    simp only [trim_of_no_ws _ (natToStr_no_ws n), (natToStr_spec n).2.1, if_false, print_tasks,
      save_tasks]
    obtain ⟨pre, post, h1, h2, _, h4⟩ :=
      updateTask_of_find s.tasks n task (fun t => { t with title := natToStr n }) hfind
    exact ⟨pre, post, h1, h2, h4⟩

theorem C19_edit_text_never_blank_witness :
    (handle "edit 1".toList ⟨[⟨1, "a".toList, false⟩], 2, none, []⟩
        = editTask (restOf "edit 1".toList).head? (stripFirstToken (tailOf "edit 1".toList))
            ⟨[⟨1, "a".toList, false⟩], 2, none, []⟩ ∧
      trim (stripFirstToken (tailOf "edit 1".toList)) ≠ []) ∧
    (∃ pre post, [(⟨1, "a".toList, false⟩ : Task)] = pre ++ ⟨1, "a".toList, false⟩ :: post ∧
      (∀ u ∈ pre, u.id.val ≠ ((1 : Nat) : Rat)) ∧
      (handle ([] ++ "edit".toList ++ (" ".toList ++ natToStr 1 ++ " ".toList))
          ⟨[⟨1, "a".toList, false⟩], 2, none, []⟩).tasks
        = pre ++ { id := 1, title := natToStr 1, done := false } :: post) :=
  ⟨(C19_edit_text_never_blank "edit 1".toList ⟨[⟨1, "a".toList, false⟩], 2, none, []⟩ 1
      ⟨1, "a".toList, false⟩ [] [] [] []).1 (by decide) (by decide),
   (C19_edit_text_never_blank [] ⟨[⟨1, "a".toList, false⟩], 2, none, []⟩ 1
      ⟨1, "a".toList, false⟩ [] "edit".toList " ".toList " ".toList).2.2
      (by decide) (by decide!) (by decide) (by decide) ⟨by decide, by decide⟩ (by decide)⟩

/-! ## Escaping -/

theorem replaceChar_append (c : Char) (sub a b : Str) :
    replaceChar c sub (a ++ b) = replaceChar c sub a ++ replaceChar c sub b := by
  simp [replaceChar, List.flatMap_append]

theorem replaceChar_cons (c : Char) (sub : Str) (d : Char) (s : Str) :
    replaceChar c sub (d :: s) = (if d = c then sub else [d]) ++ replaceChar c sub s := by
  simp [replaceChar, List.flatMap_cons]

/-- The escaping, character by character. -/
theorem escapeHtml_cons (c : Char) (s : Str) :
    escapeHtml (c :: s) =
      (if c = '&' then "&amp;".toList else if c = '<' then "&lt;".toList
        else if c = '>' then "&gt;".toList else [c]) ++ escapeHtml s := by
  unfold escapeHtml
  rw [replaceChar_cons, replaceChar_append, replaceChar_append]
  congr 1
  by_cases h1 : c = '&'
  · subst h1; decide
  · by_cases h2 : c = '<'
    · subst h2; decide
    · by_cases h3 : c = '>'
      · subst h3; decide
      · simp [h1, h2, h3, replaceChar]

theorem escapeHtml_nil : escapeHtml [] = [] := rfl

theorem escapeHtml_no_angle (s : Str) : '<' ∉ escapeHtml s ∧ '>' ∉ escapeHtml s := by
  induction s with
  | nil => simp [escapeHtml_nil]
  | cons c s ih =>
    rw [escapeHtml_cons]
    by_cases h1 : c = '&'
    · simp only [h1, if_true, List.mem_append, not_or]
      exact ⟨⟨by decide, ih.1⟩, ⟨by decide, ih.2⟩⟩
    · by_cases h2 : c = '<'
      · simp only [h2, if_true, List.mem_append, not_or]
        exact ⟨⟨by decide, ih.1⟩, ⟨by decide, ih.2⟩⟩
      · by_cases h3 : c = '>'
        · simp only [h3, if_true, List.mem_append, not_or]
          exact ⟨⟨by decide, ih.1⟩, ⟨by decide, ih.2⟩⟩
        · simp only [h1, h2, h3, if_false, List.mem_append, List.mem_singleton, not_or]
          exact ⟨⟨fun h => h2 h.symm, ih.1⟩, ⟨fun h => h3 h.symm, ih.2⟩⟩

theorem ampsStartEntities_escapeHtml (s : Str) : ampsStartEntities (escapeHtml s) = true := by
  induction s with
  | nil => rfl
  | cons c s ih =>
    rw [escapeHtml_cons]
    by_cases h1 : c = '&'
    · simp only [h1, if_true]
      show ampsStartEntities ('&' :: 'a' :: 'm' :: 'p' :: ';' :: escapeHtml s) = true
      simp [ampsStartEntities, startsWith, ih]
    · by_cases h2 : c = '<'
      · simp only [h2, if_true]
        show ampsStartEntities ('&' :: 'l' :: 't' :: ';' :: escapeHtml s) = true
        simp [ampsStartEntities, startsWith, ih]
      · by_cases h3 : c = '>'
        · simp only [h3, if_true]
          show ampsStartEntities ('&' :: 'g' :: 't' :: ';' :: escapeHtml s) = true
          simp [ampsStartEntities, startsWith, ih]
        · simp only [h1, h2, h3, if_false]
          show ampsStartEntities (c :: escapeHtml s) = true
          simp [ampsStartEntities, h1, ih]

theorem ampsStartEntities_split (l : Str) (h : ampsStartEntities l = true) (a b : Str)
    (hl : l = a ++ '&' :: b) :
    (startsWith b "amp;".toList || startsWith b "lt;".toList || startsWith b "gt;".toList) = true := by
  induction a generalizing l with
  | nil =>
    subst hl
    simp only [List.nil_append, ampsStartEntities, Bool.and_eq_true] at h
    simpa using h.1
  | cons d a ih =>
    subst hl
    simp only [List.cons_append, ampsStartEntities, Bool.and_eq_true] at h
    exact ih _ h.2 rfl

theorem unescapeHtml_escapeHtml (s : Str) : unescapeHtml (escapeHtml s) = s := by
  induction s with
  | nil => rfl
  | cons c s ih =>
    rw [escapeHtml_cons]
    by_cases h1 : c = '&'
    · simp only [h1, if_true]
      show unescapeHtml ('&' :: 'a' :: 'm' :: 'p' :: ';' :: escapeHtml s) = '&' :: s
      rw [unescapeHtml, ih]
    · by_cases h2 : c = '<'
      · simp only [h2, if_true]
        show unescapeHtml ('&' :: 'l' :: 't' :: ';' :: escapeHtml s) = '<' :: s
        rw [unescapeHtml, ih]
      · by_cases h3 : c = '>'
        · simp only [h3, if_true]
          show unescapeHtml ('&' :: 'g' :: 't' :: ';' :: escapeHtml s) = '>' :: s
          rw [unescapeHtml, ih]
        · simp only [h1, h2, h3, if_false]
          show unescapeHtml (c :: escapeHtml s) = c :: s
          rw [unescapeHtml, ih]
          all_goals (intros; simp_all)

/-- C20: the escaped string has no `<` and no `>`; every `&` in it is followed
by `amp;`, `lt;` or `gt;`; decoding the three entities gives the string back;
and the title in the markup of a task is the escaped title. -/
theorem C20_escapeHtml (s : Str) (t : Task) :
    '<' ∉ escapeHtml s ∧ '>' ∉ escapeHtml s ∧
    (∀ a b, escapeHtml s = a ++ '&' :: b →
      (startsWith b "amp;".toList || startsWith b "lt;".toList || startsWith b "gt;".toList) = true) ∧
    unescapeHtml (escapeHtml s) = s ∧
    (∃ pre post, taskHtml t = pre ++ escapeHtml t.title ++ post ∧
      pre = "<div class=\"".toList ++
        (if t.done then "task-line task-done".toList else "task-line".toList) ++
        "\"><span class=\"task-id\">".toList ++ numToString t.id ++
        ".</span><span class=\"task-title\">".toList ∧
      post = "</span></div>".toList) := by
  refine ⟨(escapeHtml_no_angle s).1, (escapeHtml_no_angle s).2,
    fun a b h => ampsStartEntities_split _ (ampsStartEntities_escapeHtml s) a b h,
    unescapeHtml_escapeHtml s, _, _, ?_, rfl, rfl⟩
  simp [taskHtml]

theorem C20_escapeHtml_witness :
    escapeHtml "a<b&c".toList = "a&lt;b&amp;c".toList ∧
    (startsWith "amp;c".toList "amp;".toList || startsWith "amp;c".toList "lt;".toList ||
      startsWith "amp;c".toList "gt;".toList) = true :=
  ⟨by decide, (C20_escapeHtml "a<b&c".toList ⟨1, [], false⟩).2.2.1 "a&lt;b".toList "amp;c".toList
    (by decide)⟩

end Termido
